import Mathlib

/-!
# Agent routing and scoring (`internal/robot/routing.go`) and three smaller packages

A shallow embedding of the scoring engine of the `robot` package and proofs of the properties its
specification states.

## Numbers

`float64` is embedded bit-faithfully as IEEE-754 binary64: a sign bit and the remaining 63 bits
(biased exponent and fraction) read as one natural number.  Every arithmetic operation computes the
exact result and rounds it once, to nearest with ties to even, as the Go specification prescribes
for `float64` (no fused multiply-add).  NaN, the infinities, signed zeros and subnormals are all
present, so the theorems below hold for every value a Go `float64` can take.

## Time

`time.Time` is embedded as the number of nanoseconds elapsed since the zero instant, and the clock
read by `time.Since` is an explicit argument `now`.

## Other packages

The command registry of package `kernel` (`registry.go`), `TruncateRunes` of package `layout` and
`conflictSeverity` of package `tracker` are embedded after the scoring engine.  Strings are
sequences of Unicode code points, that is, valid UTF-8; a Go map is the list of its entries, and
the order in which `range` yields its keys is an argument.
-/

namespace Ntm

/-! ## IEEE-754 binary64 -/

/-- A Go `float64`: the sign bit `neg` and the low 63 bits `mag` of the IEEE-754 binary64 encoding
(`mag = biasedExponent * 2^52 + fraction`).  A magnitude above `F64.infMag` is a NaN. -/
structure F64 where
  neg : Bool
  mag : Nat
deriving DecidableEq, Repr

namespace F64

/-- Magnitude bits of an infinity: biased exponent 2047, fraction 0. -/
def infMag : Nat := 2047 * 2 ^ 52

/-- The quiet NaN returned by invalid operations. -/
def nan : F64 := ⟨false, infMag + 2 ^ 51⟩

/-- Signed infinity. -/
def inf (neg : Bool) : F64 := ⟨neg, infMag⟩

/-- Same as `math.IsNaN`. -/
def isNaN (x : F64) : Bool := decide (infMag < x.mag)

/-- True for `+Inf` and `-Inf`. -/
def isInf (x : F64) : Bool := decide (x.mag = infMag)

/-- True for `+0` and `-0`. -/
def isZero (x : F64) : Bool := decide (x.mag = 0)

/-- Absolute value of a finite `x` as a multiple of `2^-1074`, the smallest subnormal: subnormals
(biased exponent 0) are `fraction`, normals are `(2^52 + fraction) * 2^(exponent - 1)`. -/
def units (x : F64) : Nat :=
  if x.mag / 2 ^ 52 = 0 then x.mag % 2 ^ 52
  else (2 ^ 52 + x.mag % 2 ^ 52) * 2 ^ (x.mag / 2 ^ 52 - 1)

/-- Floor of the binary logarithm, by halving (`fuel` bounds the number of halvings). -/
def log2Fuel : Nat → Nat → Nat
  | 0, _ => 0
  | fuel + 1, n => if n < 2 then 0 else log2Fuel fuel (n / 2) + 1

/-- Floor of the binary logarithm of `n` (`0` for `n = 0`). -/
def log2 (n : Nat) : Nat := log2Fuel n n

/-- The integer nearest to `a / b`, ties to the even one. -/
def rhe (a b : Nat) : Nat :=
  if 2 * (a % b) < b then a / b
  else if b < 2 * (a % b) then a / b + 1
  else if (a / b) % 2 = 0 then a / b else a / b + 1

/-- Magnitude bits of the binary64 nearest (ties to even) to `num / den` multiples of `2^-1074`
(`den > 0`).  With `s` the number of bits by which the integer part exceeds 53 bits, the quantum
is `2^s` units; the rounded significand added to `s * 2^52` is the encoding, a carry out of the
significand moving into the exponent.  Overflow gives the bits of infinity. -/
def roundMag (num den : Nat) : Nat :=
  let s := log2 (num / den) - 52
  min (s * 2 ^ 52 + rhe num (den * 2 ^ s)) infMag

/-- Correctly rounded binary64 with sign `neg` and absolute value `num / den` units of `2^-1074`. -/
def round (neg : Bool) (num den : Nat) : F64 := ⟨neg, roundMag num den⟩

/-- Conversion of the non-negative decimal constant `num / den`, e.g. `0.4` is `lit 4 10`. -/
def lit (num den : Nat) : F64 := round false (num * 2 ^ 1074) den

/-- Conversion of a non-negative integer constant. -/
def ofNat (n : Nat) : F64 := lit n 1

/-- Unary minus. -/
def fneg (x : F64) : F64 := ⟨!x.neg, x.mag⟩

/-- Go `x + y`. -/
def add (x y : F64) : F64 :=
  if x.isNaN || y.isNaN then nan
  else if x.isInf then (if y.isInf && (x.neg != y.neg) then nan else x)
  else if y.isInf then y
  else if x.neg = y.neg then round x.neg (x.units + y.units) 1
  else if x.units = y.units then ⟨false, 0⟩
  else if y.units < x.units then round x.neg (x.units - y.units) 1
  else round y.neg (y.units - x.units) 1

/-- Go `x - y`. -/
def sub (x y : F64) : F64 := add x (fneg y)

/-- Go `x * y`. -/
def mul (x y : F64) : F64 :=
  if x.isNaN || y.isNaN then nan
  else if x.isInf || y.isInf then
    (if x.isZero || y.isZero then nan else inf (x.neg != y.neg))
  else round (x.neg != y.neg) (x.units * y.units) (2 ^ 1074)

/-- Go `x / y`. -/
def div (x y : F64) : F64 :=
  if x.isNaN || y.isNaN then nan
  else if x.isInf then (if y.isInf then nan else inf (x.neg != y.neg))
  else if y.isInf then ⟨x.neg != y.neg, 0⟩
  else if y.isZero then (if x.isZero then nan else inf (x.neg != y.neg))
  else round (x.neg != y.neg) (x.units * 2 ^ 1074) y.units

/-- Position of a non-NaN value on the number line: the encoding is monotone in the magnitude
bits, and both zeros sit at 0. -/
def key (x : F64) : Int := if x.neg then -(x.mag : Int) else (x.mag : Int)

/-- Go `x < y` (false when either side is NaN). -/
def lt (x y : F64) : Bool := !x.isNaN && !y.isNaN && decide (x.key < y.key)

/-- Go `x > y`. -/
def gt (x y : F64) : Bool := lt y x

/-- Go `x <= y` (false when either side is NaN). -/
def le (x y : F64) : Bool := !x.isNaN && !y.isNaN && decide (x.key ≤ y.key)

/-- Go `x >= y`. -/
def ge (x y : F64) : Bool := le y x

/-- Go `x == y` (false when either side is NaN, true for `+0 == -0`). -/
def feq (x y : F64) : Bool := !x.isNaN && !y.isNaN && decide (x.key = y.key)

/-- The function `math.Round`: nearest integer, halves away from zero; `Round(±0) = ±0`,
`Round(±Inf) = ±Inf`, `Round(NaN) = NaN`.  For a finite `x` the nearest integer is
`floor(|x| + 1/2)`, which is representable, so the final rounding is exact. -/
def Round (x : F64) : F64 :=
  if x.isNaN || x.isInf then x
  else round x.neg ((2 * x.units + 2 ^ 1074) / 2 ^ 1075 * 2 ^ 1074) 1

/-- The function `math.Max`: `+Inf` if either argument is `+Inf`, NaN if either is NaN,
`Max(+0, -0) = Max(-0, +0) = +0`, otherwise the larger argument. -/
def max (x y : F64) : F64 :=
  if (x.isInf && !x.neg) || (y.isInf && !y.neg) then inf false
  else if x.isNaN || y.isNaN then nan
  else if feq x (ofNat 0) && feq x y then (if x.neg then y else x)
  else if gt x y then x else y

/-- Clamping `x` to `[lo, hi]`: `lo` below, `hi` above, `x` itself otherwise (NaN included). -/
def clamp (x lo hi : F64) : F64 :=
  if lt x lo then lo else if gt x hi then hi else x

end F64

/-! ## Time -/

/-- A `time.Time`: nanoseconds since the zero instant (January 1, year 1, 00:00:00 UTC). -/
abbrev Time := Int

/-- A `time.Duration`: a signed 64-bit count of nanoseconds. -/
abbrev Duration := Int

/-- The largest `time.Duration`. -/
def maxDuration : Duration := 2 ^ 63 - 1

/-- The smallest `time.Duration`. -/
def minDuration : Duration := -(2 ^ 63)

/-- The constant `time.Second`. -/
def Second : Duration := 1000000000

/-- The constant `time.Minute`. -/
def Minute : Duration := 60 * Second

/-- The method `Time.IsZero`. -/
def Time.IsZero (t : Time) : Bool := decide (t = 0)

/-- The function `time.Since` with the clock reading `now` made explicit: `now.Sub(t)`, which
saturates at the bounds of `Duration`. -/
def Since (now t : Time) : Duration :=
  if maxDuration < now - t then maxDuration
  else if now - t < minDuration then minDuration
  else now - t

/-! ## Data model -/

/-- Modelled from the spec: the declaration of `AgentState` and of its constants is not among the
sources; the spec lists the states `Waiting | Thinking | Generating | Stalled | Error | Unknown`.
In the code it is a string type (the tests print it with `%s` and convert it with `string(..)`),
so `other` stands for every value that is none of the six constants, e.g. the zero value `""`. -/
inductive AgentState where
  | Waiting
  | Thinking
  | Generating
  | Stalled
  | Error
  | Unknown
  | other (raw : String)
deriving DecidableEq, Repr

/-- The constant `StateWaiting`. -/
abbrev StateWaiting : AgentState := AgentState.Waiting
/-- The constant `StateThinking`. -/
abbrev StateThinking : AgentState := AgentState.Thinking
/-- The constant `StateGenerating`. -/
abbrev StateGenerating : AgentState := AgentState.Generating
/-- The constant `StateStalled`. -/
abbrev StateStalled : AgentState := AgentState.Stalled
/-- The constant `StateError`. -/
abbrev StateError : AgentState := AgentState.Error
/-- The constant `StateUnknown`. -/
abbrev StateUnknown : AgentState := AgentState.Unknown

/-- The string type `HealthState`. -/
abbrev HealthState := String

/-- The constant `HealthHealthy`. -/
def HealthHealthy : HealthState := "healthy"
/-- The constant `HealthDegraded`. -/
def HealthDegraded : HealthState := "degraded"
/-- The constant `HealthUnhealthy`. -/
def HealthUnhealthy : HealthState := "unhealthy"
/-- The constant `HealthRateLimited`. -/
def HealthRateLimited : HealthState := "rate_limited"

/-- The struct `RoutingConfig`. -/
structure RoutingConfig where
  ContextWeight : F64
  StateWeight : F64
  RecencyWeight : F64
  AffinityEnabled : Bool
  AffinityBonus : F64
  ExcludeContextAbove : F64
  ExcludeIfGenerating : Bool
  ExcludeIfRateLimited : Bool
  ExcludeIfErrorState : Bool
deriving DecidableEq, Repr

/-- The function `DefaultRoutingConfig`. -/
def DefaultRoutingConfig : RoutingConfig :=
  { ContextWeight := F64.lit 4 10
    StateWeight := F64.lit 4 10
    RecencyWeight := F64.lit 2 10
    AffinityEnabled := false
    AffinityBonus := F64.ofNat 20
    ExcludeContextAbove := F64.ofNat 85
    ExcludeIfGenerating := true
    ExcludeIfRateLimited := true
    ExcludeIfErrorState := true }

/-- The struct `ScoreBreakdown`. -/
structure ScoreBreakdown where
  ContextScore : F64
  StateScore : F64
  RecencyScore : F64
  AffinityBonus : F64
  ContextContrib : F64
  StateContrib : F64
  RecencyContrib : F64
deriving DecidableEq, Repr

/-- The zero value `ScoreBreakdown{}`. -/
def ScoreBreakdown.zero : ScoreBreakdown :=
  { ContextScore := ⟨false, 0⟩
    StateScore := ⟨false, 0⟩
    RecencyScore := ⟨false, 0⟩
    AffinityBonus := ⟨false, 0⟩
    ContextContrib := ⟨false, 0⟩
    StateContrib := ⟨false, 0⟩
    RecencyContrib := ⟨false, 0⟩ }

/-- The struct `ScoredAgent`. -/
structure ScoredAgent where
  PaneID : String
  AgentType : String
  PaneIndex : Int
  State : AgentState
  Confidence : F64
  Velocity : F64
  ContextUsage : F64
  LastActivity : Time
  HealthState : HealthState
  RateLimited : Bool
  Score : F64
  Excluded : Bool
  ExcludeReason : String
  ScoreDetail : ScoreBreakdown
deriving DecidableEq, Repr

/-- The zero value `ScoredAgent{}`, from which the tests build their agents. -/
def ScoredAgent.zero : ScoredAgent :=
  { PaneID := ""
    AgentType := ""
    PaneIndex := 0
    State := AgentState.other ""
    Confidence := ⟨false, 0⟩
    Velocity := ⟨false, 0⟩
    ContextUsage := ⟨false, 0⟩
    LastActivity := 0
    HealthState := ""
    RateLimited := false
    Score := ⟨false, 0⟩
    Excluded := false
    ExcludeReason := ""
    ScoreDetail := ScoreBreakdown.zero }

/-! ## Scoring -/

/-- The method `stateToScore`. -/
def stateToScore (state : AgentState) : F64 :=
  match state with
  | AgentState.Waiting => F64.ofNat 100
  | AgentState.Thinking => F64.ofNat 50
  | AgentState.Generating => F64.ofNat 0
  | AgentState.Stalled => F64.fneg (F64.ofNat 50)
  | AgentState.Error => F64.fneg (F64.ofNat 100)
  | AgentState.Unknown => F64.ofNat 25
  | AgentState.other _ => F64.ofNat 0

/-- The method `recencyToScore`; `now` is the clock reading taken by `time.Since`. -/
def recencyToScore (now : Time) (lastActivity : Time) : F64 :=
  if lastActivity.IsZero then F64.ofNat 50
  else if Since now lastActivity < Minute then F64.ofNat 20
  else if Since now lastActivity < 5 * Minute then F64.ofNat 50
  else if Since now lastActivity < 30 * Minute then F64.ofNat 80
  else F64.ofNat 70

/-- The method `calculateAffinity`, a stub in the source. -/
def calculateAffinity (_agent : ScoredAgent) (_prompt : String) : F64 := F64.ofNat 0

/-- The method `calculateScoreComponents`. -/
def calculateScoreComponents (config : RoutingConfig) (now : Time) (agent : ScoredAgent)
    (prompt : String) : ScoreBreakdown :=
  let contextScore0 := F64.sub (F64.ofNat 100) agent.ContextUsage
  let contextScore := if F64.lt contextScore0 (F64.ofNat 0) then F64.ofNat 0 else contextScore0
  let rawStateScore := stateToScore agent.State
  let stateScore := F64.div (F64.add rawStateScore (F64.ofNat 100)) (F64.ofNat 2)
  let recencyScore := recencyToScore now agent.LastActivity
  let affinityBonus :=
    if config.AffinityEnabled && prompt != "" then calculateAffinity agent prompt
    else ScoreBreakdown.zero.AffinityBonus
  { ContextScore := contextScore
    StateScore := stateScore
    RecencyScore := recencyScore
    AffinityBonus := affinityBonus
    ContextContrib := F64.mul contextScore config.ContextWeight
    StateContrib := F64.mul stateScore config.StateWeight
    RecencyContrib := F64.mul recencyScore config.RecencyWeight }

/-- The method `checkExclusion`. -/
def checkExclusion (config : RoutingConfig) (agent : ScoredAgent) : Bool × String :=
  if agent.State = StateError then (true, "agent in ERROR state")
  else if config.ExcludeIfRateLimited && agent.RateLimited then (true, "agent is rate limited")
  else if agent.HealthState = HealthUnhealthy then (true, "agent is unhealthy")
  else if F64.gt agent.ContextUsage config.ExcludeContextAbove then
    (true, "context usage above threshold")
  else if config.ExcludeIfGenerating && decide (agent.State = StateGenerating) then
    (true, "agent is currently generating")
  else (false, "")

/-- The method `calculateFinalScore`. -/
def calculateFinalScore (agent : ScoredAgent) : F64 :=
  let d := agent.ScoreDetail
  let score0 := F64.add (F64.add d.ContextContrib d.StateContrib) d.RecencyContrib
  let score1 := F64.add score0 d.AffinityBonus
  let score2 := if F64.gt score1 (F64.ofNat 100) then F64.ofNat 100 else score1
  let score3 := if F64.lt score2 (F64.ofNat 0) then F64.ofNat 0 else score2
  F64.div (F64.Round (F64.mul score3 (F64.ofNat 100))) (F64.ofNat 100)

/-- The function `deriveHealthState`. -/
def deriveHealthState (state : AgentState) : HealthState :=
  match state with
  | AgentState.Waiting => HealthHealthy
  | AgentState.Thinking => HealthHealthy
  | AgentState.Generating => HealthHealthy
  | AgentState.Stalled => HealthDegraded
  | AgentState.Error => HealthUnhealthy
  | _ => HealthHealthy

/-- A pane as `tmux.GetPanes` reports it (the fields `ScoreAgents` reads). -/
structure Pane where
  ID : String
  Title : String
  Index : Int
deriving DecidableEq, Repr

/-- What `Classify` reports about a pane (the fields `ScoreAgents` reads). -/
structure Activity where
  State : AgentState
  Confidence : F64
  Velocity : F64
  LastOutput : Time
deriving DecidableEq, Repr

/-- The body of the loop of `ScoreAgents` from "Build scored agent" on: the record built from the
classifier output, before scoring. -/
def newScoredAgent (pane : Pane) (agentType : String) (activity : Activity) : ScoredAgent :=
  { ScoredAgent.zero with
    PaneID := pane.ID
    AgentType := agentType
    PaneIndex := pane.Index
    State := activity.State
    Confidence := activity.Confidence
    Velocity := activity.Velocity
    LastActivity := activity.LastOutput
    HealthState := deriveHealthState activity.State
    RateLimited := false }

/-- The per-pane scoring step of `ScoreAgents`: the score components are computed first, then the
exclusion rules decide between score 0 and the final score. -/
def scorePane (config : RoutingConfig) (now : Time) (prompt : String) (pane : Pane)
    (agentType : String) (activity : Activity) : ScoredAgent :=
  let agent0 := newScoredAgent pane agentType activity
  let agent := { agent0 with ScoreDetail := calculateScoreComponents config now agent0 prompt }
  if (checkExclusion config agent).1 then
    { agent with Excluded := true, ExcludeReason := (checkExclusion config agent).2,
                 Score := F64.ofNat 0 }
  else
    { agent with Score := calculateFinalScore agent }

/-- The method `ScoreAgents`.  The collaborators are arguments: `panes` is the outcome of
`tmux.GetPanes`, `detect` is `detectAgentTypeFromTitle`, `classify` is the classifier of a pane
(given the agent type set on it), and `now` is the clock reading while that pane is scored. -/
def ScoreAgents {ε : Type} (config : RoutingConfig) (now : Pane → Time)
    (panes : Except ε (List Pane)) (detect : String → String)
    (classify : Pane → String → Except ε Activity) (prompt : String) :
    Except ε (List ScoredAgent) :=
  match panes with
  | Except.error err => Except.error err
  | Except.ok ps =>
    Except.ok (ps.filterMap fun pane =>
      if detect pane.Title = "" then none
      else match classify pane (detect pane.Title) with
        | Except.error _ => none
        | Except.ok activity =>
          some (scorePane config (now pane) prompt pane (detect pane.Title) activity))

/-! ## Selection -/

/-- The loop of `GetBestAgent` over the remaining agents; `i` is the index of the head and `best`
the current candidate with its index (the pointer `&scored[i]`). -/
def GetBestAgentLoop : List ScoredAgent → Nat → Option (Nat × ScoredAgent) →
    Option (Nat × ScoredAgent)
  | [], _, best => best
  | a :: rest, i, best =>
    if a.Excluded then GetBestAgentLoop rest (i + 1) best
    else match best with
      | none => GetBestAgentLoop rest (i + 1) (some (i, a))
      | some (bi, b) =>
        if F64.gt a.Score b.Score then GetBestAgentLoop rest (i + 1) (some (i, a))
        else GetBestAgentLoop rest (i + 1) (some (bi, b))

/-- The method `GetBestAgent`, returning the index the pointer refers to and the agent there;
`none` is the nil pointer. -/
def GetBestAgentAt (scored : List ScoredAgent) : Option (Nat × ScoredAgent) :=
  GetBestAgentLoop scored 0 none

/-- The method `GetBestAgent`: the agent the returned pointer refers to. -/
def GetBestAgent (scored : List ScoredAgent) : Option ScoredAgent :=
  (GetBestAgentAt scored).map Prod.snd

/-- One execution of the body of the inner loop of `GetAvailableAgents`: swap positions `i` and
`j` when `available[j].Score > available[i].Score`. -/
def swapIfGreater (available : List ScoredAgent) (i j : Nat) : List ScoredAgent :=
  match available[i]?, available[j]? with
  | some x, some y => if F64.gt y.Score x.Score then (available.set i y).set j x else available
  | _, _ => available

/-- The inner loop `for j < len(available)` of `GetAvailableAgents`, from the current `j`. -/
def innerLoop (i : Nat) : Nat → Nat → List ScoredAgent → List ScoredAgent
  | 0, _, available => available
  | fuel + 1, j, available =>
    if j < available.length then innerLoop i fuel (j + 1) (swapIfGreater available i j)
    else available

/-- The outer loop `for i < len(available)` of `GetAvailableAgents`, from the current `i`. -/
def outerLoop : Nat → Nat → List ScoredAgent → List ScoredAgent
  | 0, _, available => available
  | fuel + 1, i, available =>
    if i < available.length then
      outerLoop fuel (i + 1) (innerLoop i available.length (i + 1) available)
    else available

/-- The method `GetAvailableAgents`.  Each loop runs at most `len(available)` times, which is the
fuel handed to it. -/
def GetAvailableAgents (scored : List ScoredAgent) : List ScoredAgent :=
  let available := scored.filter fun agent => !agent.Excluded
  outerLoop available.length 0 available

/-! ## Filters -/

/-- The function `unicode.SimpleFold` on code points: the next rune of the simple case-folding
orbit, wrapping around to the smallest.  The orbits of the ASCII letters are those of the Unicode
standard (`SimpleFold('A') = 'a'`, `SimpleFold('a') = 'A'`, `SimpleFold('K') = 'k'`,
`SimpleFold('k') = U+212A`, `SimpleFold(U+212A) = 'K'`, and likewise `S`, `s`, `U+017F`); other
ASCII runes are alone in their orbit; `table` is the folding table for all other runes. -/
def SimpleFold (table : Nat → Nat) (r : Nat) : Nat :=
  if 65 ≤ r ∧ r ≤ 90 then r + 32
  else if r = 107 then 8490
  else if r = 115 then 383
  else if 97 ≤ r ∧ r ≤ 122 then r - 32
  else if r < 128 then r
  else if r = 8490 then 75
  else if r = 383 then 83
  else table r

/-- The general case of `strings.EqualFold` for the runes `lo < hi`: the loop
`for r != lo && r < hi { r = unicode.SimpleFold(r) }` followed by `r == hi`.  An orbit has no more
members than there are code points, which bounds the fuel. -/
def foldLoop (table : Nat → Nat) (lo hi : Nat) : Nat → Nat → Bool
  | 0, _ => false
  | fuel + 1, r =>
    if r ≠ lo ∧ r < hi then foldLoop table lo hi fuel (SimpleFold table r) else decide (r = hi)

/-- The comparison `strings.EqualFold` makes of one rune `sr` of `s` with one rune `tr` of `t`:
equal, or an ASCII letter and its other case, or (when one of them is not ASCII) members of one
folding orbit. -/
def runeEqualFold (table : Nat → Nat) (sr tr : Nat) : Bool :=
  if tr = sr then true
  else if tr < sr then
    (if sr < 128 then decide (65 ≤ tr ∧ tr ≤ 90 ∧ sr = tr + 32)
      else foldLoop table tr sr 1114112 (SimpleFold table tr))
  else
    (if tr < 128 then decide (65 ≤ sr ∧ sr ≤ 90 ∧ tr = sr + 32)
      else foldLoop table sr tr 1114112 (SimpleFold table sr))

/-- The function `strings.EqualFold` on the runes of two valid UTF-8 strings: rune by rune, and
both strings must end together. -/
def EqualFoldRunes (table : Nat → Nat) : List Nat → List Nat → Bool
  | [], [] => true
  | [], _ :: _ => false
  | _ :: _, [] => false
  | sr :: s, tr :: t => runeEqualFold table sr tr && EqualFoldRunes table s t

/-- The code points of a string. -/
def runes (s : String) : List Nat := s.toList.map Char.toNat

/-- The function `strings.EqualFold`. -/
def EqualFold (table : Nat → Nat) (s t : String) : Bool :=
  EqualFoldRunes table (runes s) (runes t)

/-- The function `FilterByType`; `table` is the case-folding table `strings.EqualFold` consults
for runes outside ASCII. -/
def FilterByType (table : Nat → Nat) (agents : List ScoredAgent) (agentType : String) :
    List ScoredAgent :=
  if agentType = "" then agents
  else agents.filter fun agent => EqualFold table agent.AgentType agentType

/-- The map `indexSet` that `FilterByPanes` and `ExcludePanes` build from the indices; a key
that was never stored reads as false. -/
def makeIndexSet (indices : List Int) : Int → Bool :=
  indices.foldl (fun set idx key => if key = idx then true else set key) fun _ => false

/-- The function `FilterByPanes`. -/
def FilterByPanes (agents : List ScoredAgent) (paneIndices : List Int) : List ScoredAgent :=
  if paneIndices.length = 0 then agents
  else agents.filter fun agent => makeIndexSet paneIndices agent.PaneIndex

/-- The function `ExcludePanes`. -/
def ExcludePanes (agents : List ScoredAgent) (excludeIndices : List Int) : List ScoredAgent :=
  if excludeIndices.length = 0 then agents
  else agents.filter fun agent => !makeIndexSet excludeIndices agent.PaneIndex

/-! ## Effectiveness (package `assign`) -/

/-- Modelled from the spec: the string type `AssignmentMode`; its declaration is not among the
sources, the values of its constants are those `TestAssignmentModeConstants` checks. -/
abbrev AssignmentMode := String

/-- Modelled from the spec: the constant `ModeExploitation`. -/
def ModeExploitation : AssignmentMode := "exploitation"
/-- Modelled from the spec: the constant `ModeLearning`. -/
def ModeLearning : AssignmentMode := "learning"
/-- Modelled from the spec: the constant `ModeBalanced`. -/
def ModeBalanced : AssignmentMode := "balanced"

/-- Modelled from the spec: the struct `EffectivenessConfig` (`enabled`, `mode`, `windowDays`,
`minSamples`); its declaration is not among the sources. -/
structure EffectivenessConfig where
  Enabled : Bool
  Mode : AssignmentMode
  WindowDays : Int
  MinSamples : Int
deriving DecidableEq, Repr

/-- Modelled from the spec: the function `DefaultEffectivenessConfig`, with the defaults
`TestDefaultEffectivenessConfig` checks. -/
def DefaultEffectivenessConfig : EffectivenessConfig :=
  { Enabled := true, Mode := ModeBalanced, WindowDays := 14, MinSamples := 3 }

/-- Modelled from the spec: the method `EffectivenessWeight`, which is not among the sources:
"returns 0 when `Enabled=false` regardless of mode; returns 0.6/0.2/0.4 for
Exploitation/Learning/Balanced respectively; unknown mode string yields the Balanced weight". -/
def EffectivenessConfig.EffectivenessWeight (config : EffectivenessConfig) : F64 :=
  if !config.Enabled then ⟨false, 0⟩
  else if config.Mode = ModeExploitation then F64.lit 6 10
  else if config.Mode = ModeLearning then F64.lit 2 10
  else if config.Mode = ModeBalanced then F64.lit 4 10
  else F64.lit 4 10

/-- Modelled from the spec: the record `AgentTaskEffectiveness` of package `scoring`, with the
fields `TestAgentTaskEffectivenessStruct` sets. -/
structure AgentTaskEffectiveness where
  AgentType : String
  TaskType : String
  Score : F64
  SampleCount : Int
  Confidence : F64
  HasData : Bool
  DecayApplied : Bool
deriving DecidableEq, Repr

/-- Modelled from the spec: the method `GetEffectivenessBonus`, which is not among the sources.
"If `config.Enabled == false`: return `(0, "effectiveness scoring disabled")`.  Look up
historical effectiveness for `(agentType, taskType)`.  If no data exists or
`sampleCount < config.MinSamples`: return `(0, "insufficient historical data")`.  Otherwise
`bonus = (historicalScore - 0.5) * 2 * effectivenessWeight(mode)`", with a justification string.
The store is the lookup `history` (no record, or a record without data, is "no data"), and
`describe` writes the justification. -/
def GetEffectivenessBonus (config : EffectivenessConfig)
    (history : String → String → Option AgentTaskEffectiveness)
    (describe : AgentTaskEffectiveness → String) (agentType taskType : String) : F64 × String :=
  if !config.Enabled then (⟨false, 0⟩, "effectiveness scoring disabled")
  else match history agentType taskType with
    | none => (⟨false, 0⟩, "insufficient historical data")
    | some e =>
      if !e.HasData || decide (e.SampleCount < config.MinSamples) then
        (⟨false, 0⟩, "insufficient historical data")
      else
        (F64.mul (F64.mul (F64.sub e.Score (F64.lit 5 10)) (F64.ofNat 2))
            config.EffectivenessWeight,
          describe e)

/-- Modelled from the spec: the constant `tmux.AgentClaude` as the key of the capability matrix
(the spec names the pairing "claude/bug"). -/
def AgentClaude : String := "claude"

/-- Modelled from the spec: the constant `TaskBug`. -/
def TaskBug : String := "bug"

/-- Modelled from the spec: the fixed set of known agent types, "3 in the current domain"; only
the first is named in the spec. -/
def knownAgentTypes : List String := [AgentClaude, "codex", "gemini"]

/-- Modelled from the spec: the `CapabilityMatrix`, "two parallel mappings keyed by
`(agentType, taskType)`: a static base table and an optional learned-override table". -/
structure CapabilityMatrix where
  base : String → String → Option F64
  learned : String → String → Option F64

/-- Modelled from the spec: the function `NewCapabilityMatrix`: the base table is "seeded with
domain defaults, e.g. 0.80 for a claude/bug-fix pairing" and nothing is learned; `seed` stands for
the defaults of the other pairs, which the spec does not list. -/
def NewCapabilityMatrix (seed : String → String → Option F64) : CapabilityMatrix :=
  { base := fun agentType taskType =>
      if agentType = AgentClaude ∧ taskType = TaskBug then some (F64.lit 80 100)
      else seed agentType taskType
    learned := fun _ _ => none }

/-- Modelled from the spec: the method `GetScore`: "returns the learned value if present, else
the base value"; "if neither exists, returns a conservative default (e.g. 0.5)". -/
def CapabilityMatrix.GetScore (m : CapabilityMatrix) (agentType taskType : String) : F64 :=
  match m.learned agentType taskType with
  | some score => score
  | none =>
    match m.base agentType taskType with
    | some score => score
    | none => F64.lit 5 10

/-- Modelled from the spec: the method `SetLearned`: "inserts/overwrites the override; no
validation beyond range clamping to [0,1]". -/
def CapabilityMatrix.SetLearned (m : CapabilityMatrix) (agentType taskType : String)
    (score : F64) : CapabilityMatrix :=
  { m with
    learned := fun a t =>
      if a = agentType ∧ t = taskType then some (F64.clamp score (F64.ofNat 0) (F64.ofNat 1))
      else m.learned a t }

/-- Modelled from the spec: the method `ClearLearned`: "removes all overrides"; "base table is
never mutated by this call". -/
def CapabilityMatrix.ClearLearned (m : CapabilityMatrix) : CapabilityMatrix :=
  { m with learned := fun _ _ => none }

/-- Modelled from the spec: one entry of a ranking, with the fields `TestRankAgentsForTask`
reads. -/
structure AgentRanking where
  AgentType : String
  Score : F64
  Rank : Int
deriving DecidableEq, Repr

/-- Modelled from the spec: the result of `RankAgentsForTask`. -/
structure TaskRanking where
  TaskType : String
  Rankings : List AgentRanking
deriving DecidableEq, Repr

/-- Modelled from the spec: one step of the stable descending sort: the entry goes before the
first entry with a smaller score, behind those with an equal score ("ties broken by stable
original ordering"). -/
def insertByScore (entry : AgentRanking) : List AgentRanking → List AgentRanking
  | [] => [entry]
  | e :: rest =>
    if F64.gt entry.Score e.Score then entry :: e :: rest else e :: insertByScore entry rest

/-- Modelled from the spec: "sort descending", stable. -/
def sortByScore (entries : List AgentRanking) : List AgentRanking :=
  entries.foldl (fun sorted entry => insertByScore entry sorted) []

/-- Modelled from the spec: "assigning 1-based contiguous ranks with no gaps"; `n` entries have
their rank already. -/
def assignRanks (n : Nat) : List AgentRanking → List AgentRanking
  | [] => []
  | e :: rest => { e with Rank := (n : Int) + 1 } :: assignRanks (n + 1) rest

/-- Modelled from the spec: the method `RankAgentsForTask`, which is not among the sources: "for
each of the fixed set of agent types, combine `CapabilityMatrix.GetScore(agentType, taskType)`
with the effectiveness bonus into a composite score, then sort descending, assigning 1-based
contiguous ranks".  The spec does not say how the two are combined: `combine` stands for it.  No
error condition is specified. -/
def RankAgentsForTask (config : EffectivenessConfig)
    (history : String → String → Option AgentTaskEffectiveness)
    (describe : AgentTaskEffectiveness → String) (matrix : CapabilityMatrix)
    (combine : F64 → F64 → F64) (taskType : String) : Except String TaskRanking :=
  Except.ok
    { TaskType := taskType
      Rankings :=
        assignRanks 0
          (sortByScore
            (knownAgentTypes.map fun agentType =>
              { AgentType := agentType
                Score :=
                  combine (matrix.GetScore agentType taskType)
                    (GetEffectivenessBonus config history describe agentType taskType).1
                Rank := 0 })) }

/-- The agents of `TestFilterByType`: two of type cc, one cod, one gmi. -/
def typedAgents : List ScoredAgent :=
  [ { ScoredAgent.zero with PaneID := "cc_1", AgentType := "cc" },
    { ScoredAgent.zero with PaneID := "cod_1", AgentType := "cod" },
    { ScoredAgent.zero with PaneID := "cc_2", AgentType := "cc" },
    { ScoredAgent.zero with PaneID := "gmi_1", AgentType := "gmi" } ]

/-- The agents of `TestFilterByPanes` and `TestExcludePanes`: pane indices 1 to 4. -/
def panedAgents : List ScoredAgent :=
  [ { ScoredAgent.zero with PaneID := "cc_1", PaneIndex := 1 },
    { ScoredAgent.zero with PaneID := "cc_2", PaneIndex := 2 },
    { ScoredAgent.zero with PaneID := "cc_3", PaneIndex := 3 },
    { ScoredAgent.zero with PaneID := "cc_4", PaneIndex := 4 } ]

/-- Lower case of an ASCII rune. -/
def asciiLower (r : Nat) : Nat := if 65 ≤ r ∧ r ≤ 90 then r + 32 else r

/-- The normalized state score in the words of the specification: `(raw + 100) / 2`. -/
def normalizedStateScore (state : AgentState) : F64 :=
  F64.div (F64.add (stateToScore state) (F64.ofNat 100)) (F64.ofNat 2)

/-- The recency score in the words of the specification, with `age = now - lastActivity`. -/
def recencyBucket (now lastActivity : Time) : F64 :=
  if lastActivity = 0 then F64.ofNat 50
  else if now - lastActivity < Minute then F64.ofNat 20
  else if now - lastActivity < 5 * Minute then F64.ofNat 50
  else if now - lastActivity < 30 * Minute then F64.ofNat 80
  else F64.ofNat 70

/-! ## Specification-level definitions -/

/-- The exclusion rules in the order the specification lists them, (a) to (e): whether the rule
matches, and the reason it reports. -/
def exclusionRules (config : RoutingConfig) (agent : ScoredAgent) : List (Bool × String) :=
  [ (decide (agent.State = AgentState.Error), "agent in ERROR state"),
    (agent.RateLimited && config.ExcludeIfRateLimited, "agent is rate limited"),
    (decide (agent.HealthState = "unhealthy"), "agent is unhealthy"),
    (F64.gt agent.ContextUsage config.ExcludeContextAbove, "context usage above threshold"),
    (decide (agent.State = AgentState.Generating) && config.ExcludeIfGenerating,
      "agent is currently generating") ]

/-- First match wins: excluded with the reason of the first matching rule, eligible with an empty
reason when no rule matches. -/
def firstMatch (rules : List (Bool × String)) : Bool × String :=
  match rules.find? fun r => r.1 with
  | some r => (true, r.2)
  | none => (false, "")

/-- The final score in the words of the specification: rounding to 2 decimal places. -/
def roundTo2Decimals (x : F64) : F64 :=
  F64.div (F64.Round (F64.mul x (F64.ofNat 100))) (F64.ofNat 100)

/-! ## Example data -/

/-- An agent of the selection tests: only the pane id, the score and the exclusion flag are set. -/
def testAgent (id : String) (score : F64) (excluded : Bool) : ScoredAgent :=
  { ScoredAgent.zero with PaneID := id, Score := score, Excluded := excluded }

/-- The four-agent list of `TestGetBestAgent` and `TestGetAvailableAgents`. -/
def fourAgents : List ScoredAgent :=
  [ testAgent "cc_1" (F64.ofNat 50) false,
    testAgent "cc_2" (F64.ofNat 80) false,
    testAgent "cc_3" (F64.ofNat 100) true,
    testAgent "cc_4" (F64.ofNat 60) false ]

/-- A list on which the first non-excluded agent has a NaN score. -/
def nanFirstAgents : List ScoredAgent :=
  [ testAgent "cc_1" F64.nan false,
    testAgent "cc_2" (F64.ofNat 5) false ]

/-- A list in which two non-excluded agents share the maximum score 80. -/
def tiedAgents : List ScoredAgent :=
  [ testAgent "cc_1" (F64.ofNat 50) false,
    testAgent "cc_2" (F64.ofNat 80) false,
    testAgent "cc_3" (F64.ofNat 100) true,
    testAgent "cc_4" (F64.ofNat 80) false ]

/-- Three agents, the first two with equal scores and a greater score behind them. -/
def unstableAgents : List ScoredAgent :=
  [ testAgent "cc_1" (F64.ofNat 50) false,
    testAgent "cc_2" (F64.ofNat 50) false,
    testAgent "cc_3" (F64.ofNat 80) false ]

/-- Three agents already in non-increasing order of score, two of them with equal scores. -/
def orderedAgents : List ScoredAgent :=
  [ testAgent "cc_3" (F64.ofNat 80) false,
    testAgent "cc_1" (F64.ofNat 50) false,
    testAgent "cc_2" (F64.ofNat 50) false ]

/-- What one run of the inner loop of `GetAvailableAgents` does to the agent `h` at position `i`
and the agents `rest` behind it, read off the list instead of the indices: the agent at `i` is
replaced by each greater agent met, and drops into that agent's place. -/
def innerPass : ScoredAgent → List ScoredAgent → ScoredAgent × List ScoredAgent
  | h, [] => (h, [])
  | h, x :: xs =>
    if F64.gt x.Score h.Score then ((innerPass x xs).1, h :: (innerPass x xs).2)
    else ((innerPass h xs).1, x :: (innerPass h xs).2)

/-- What the outer loop of `GetAvailableAgents` does to the agents from position `i` on. -/
def outerPass : Nat → List ScoredAgent → List ScoredAgent
  | 0, l => l
  | _ + 1, [] => []
  | fuel + 1, h :: t => (innerPass h t).1 :: outerPass fuel (innerPass h t).2

/-- Loop invariant of `GetBestAgent` after the agents `seen` have been visited: without a
candidate every visited agent is excluded; a candidate `(bi, b)` is the non-excluded agent at
index `bi`, no visited non-excluded agent has a greater score, and none before `bi` has a score
equal to or above it. -/
def BestInv (seen : List ScoredAgent) : Option (Nat × ScoredAgent) → Prop
  | none => ∀ a ∈ seen, a.Excluded = true
  | some (bi, b) =>
    seen[bi]? = some b ∧ b.Excluded = false
    ∧ (∀ a ∈ seen, a.Excluded = false → F64.gt a.Score b.Score = false)
    ∧ (∀ j a, j < bi → seen[j]? = some a → a.Excluded = false → F64.ge a.Score b.Score = false)

/-! ## Command registry (package `kernel`) -/

/-- Modelled from the spec: the struct `RESTBinding`, which is declared outside the sources; the
registry reads its fields `Method` and `Path`. -/
structure RESTBinding where
  Method : String
  Path : String
deriving DecidableEq, Repr

/-- Modelled from the spec: the struct `Example`, which is declared outside the sources, with
the fields the callers of the registry set. -/
structure Example where
  Name : String
  Description : String
  Command : String
deriving DecidableEq, Repr

/-- Modelled from the spec: the struct `Command`, which is declared outside the sources, with
the fields `Register` and `validateCommand` read; `REST` is the pointer `*RESTBinding`, `none`
for nil.  The fields the registry never reads (`Output`, `SafetyLevel`, `Idempotent`) are left
out. -/
structure Command where
  Name : String
  Description : String
  Category : String
  Examples : List Example
  REST : Option RESTBinding
deriving DecidableEq, Repr

/-- The zero value `Command{}`. -/
def Command.zero : Command :=
  { Name := "", Description := "", Category := "", Examples := [], REST := none }

/-- A Go `map[string]V`: its entries, at most one for each key. -/
abbrev GoMap (V : Type) := List (String × V)

/-- The map read `m[key]` in its two-result form: `none` when the key is absent. -/
def GoMap.get? {V : Type} (m : GoMap V) (key : String) : Option V := List.lookup key m

/-- The map write `m[key] = value`: the entry of the key is replaced, or added. -/
def GoMap.set {V : Type} (m : GoMap V) (key : String) (value : V) : GoMap V :=
  if (List.lookup key m).isSome then m.map fun e => if e.1 = key then (key, value) else e
  else m ++ [(key, value)]

/-- The keys of a map. -/
def GoMap.keys {V : Type} (m : GoMap V) : List String := m.map Prod.fst

/-- The struct `Registry` (the mutex apart: the calls are taken one at a time). -/
structure Registry where
  commands : GoMap Command
  restIndex : GoMap String
deriving DecidableEq, Repr

/-- The function `NewRegistry`. -/
def NewRegistry : Registry := { commands := [], restIndex := [] }

/-- The function `unicode.IsSpace`: the white space of Latin-1 and the code points with the
Unicode property `White_Space` beyond it. -/
def IsSpace (c : Char) : Bool :=
  decide (c.toNat = 9 ∨ c.toNat = 10 ∨ c.toNat = 11 ∨ c.toNat = 12 ∨ c.toNat = 13 ∨ c.toNat = 32
    ∨ c.toNat = 133 ∨ c.toNat = 160 ∨ c.toNat = 5760 ∨ (8192 ≤ c.toNat ∧ c.toNat ≤ 8202)
    ∨ c.toNat = 8232 ∨ c.toNat = 8233 ∨ c.toNat = 8239 ∨ c.toNat = 8287 ∨ c.toNat = 12288)

/-- The function `strings.TrimSpace` on a valid UTF-8 string: the leading and the trailing white
space is removed. -/
def TrimSpace (s : String) : String :=
  String.mk ((s.toList.dropWhile IsSpace).reverse.dropWhile IsSpace).reverse

/-- The function `strings.ToUpper`: the ASCII letters `a` to `z` go to `A` to `Z`, other ASCII
runes stay, and `table` is `unicode.ToUpper` on the runes outside ASCII. -/
def ToUpper (table : Nat → Nat) (s : String) : String :=
  String.mk (s.toList.map fun c =>
    if 97 ≤ c.toNat ∧ c.toNat ≤ 122 then Char.ofNat (c.toNat - 32)
    else if c.toNat < 128 then c
    else Char.ofNat (table c.toNat))

/-- The errors `Register` returns; each carries what its message is formatted from. -/
inductive RegisterError where
  | validation (message : String)
  | emptyName
  | alreadyRegistered (name : String)
  | restRequired
  | restConflict (key existing : String)
deriving DecidableEq, Repr

/-- The function `validateCommand`: `none` is the nil error. -/
def validateCommand (cmd : Command) : Option RegisterError :=
  if TrimSpace cmd.Name = "" then some (RegisterError.validation "command name is required")
  else if TrimSpace cmd.Description = "" then
    some (RegisterError.validation "command description is required")
  else if TrimSpace cmd.Category = "" then
    some (RegisterError.validation "command category is required")
  else if cmd.Examples.length = 0 then
    some (RegisterError.validation "at least one example is required")
  else match cmd.REST with
    | some rest =>
      if TrimSpace rest.Method = "" ∨ TrimSpace rest.Path = "" then
        some (RegisterError.validation "REST binding requires method and path")
      else none
    | none => none

/-- The function `restKey`. -/
def restKey (table : Nat → Nat) (method path : String) : String :=
  if ToUpper table (TrimSpace method) = "" ∨ TrimSpace path = "" then ""
  else ToUpper table (TrimSpace method) ++ " " ++ TrimSpace path

/-- The method `Registry.Register`: the error returned (`none` for nil) and the registry after
the call.  No map is written before any of the error returns.  The log line written on an error
is left out. -/
def Registry.Register (table : Nat → Nat) (r : Registry) (cmd : Command) :
    Option RegisterError × Registry :=
  match validateCommand cmd with
  | some err => (some err, r)
  | none =>
    if TrimSpace cmd.Name = "" then (some RegisterError.emptyName, r)
    else if (r.commands.get? (TrimSpace cmd.Name)).isSome then
      (some (RegisterError.alreadyRegistered (TrimSpace cmd.Name)), r)
    else match cmd.REST with
      | some rest =>
        if restKey table rest.Method rest.Path = "" then (some RegisterError.restRequired, r)
        else match r.restIndex.get? (restKey table rest.Method rest.Path) with
          | some existing =>
            (some (RegisterError.restConflict (restKey table rest.Method rest.Path) existing), r)
          | none =>
            (none,
              { commands := r.commands.set (TrimSpace cmd.Name) cmd
                restIndex :=
                  r.restIndex.set (restKey table rest.Method rest.Path) (TrimSpace cmd.Name) })
      | none => (none, { r with commands := r.commands.set (TrimSpace cmd.Name) cmd })

/-- The method `Registry.Get`: `none` when the second result is false. -/
def Registry.Get (r : Registry) (name : String) : Option Command := r.commands.get? name

/-- The order `<` of Go strings, on the code points: the byte-wise order of two valid UTF-8
strings is the order of their code point sequences. -/
def lessRunes : List Nat → List Nat → Bool
  | _, [] => false
  | [], _ :: _ => true
  | a :: s, b :: t => decide (a < b) || (decide (a = b) && lessRunes s t)

/-- Go `a <= b` on strings. -/
def stringLE (a b : String) : Bool := !lessRunes (runes b) (runes a)

/-- The function `sort.Strings`: the names in increasing order. -/
def sortStrings (names : List String) : List String :=
  names.insertionSort fun a b => stringLE a b = true

/-- The commands of a list of names, as the second loop of `Registry.List` reads them. -/
def commandsOf (commands : GoMap Command) (names : List String) : List Command :=
  names.map fun name => (commands.get? name).getD Command.zero

/-- The method `Registry.List`; `order` is the sequence in which `range r.commands` yields the
keys of the map, which Go leaves unspecified. -/
def Registry.List (r : Registry) (order : List String) : List Command :=
  if r.commands.length = 0 then [] else commandsOf r.commands (sortStrings order)

/-- A sequence of `Register` calls: the registry after the last one. -/
def registerAll (table : Nat → Nat) (r : Registry) (cmds : List Command) : Registry :=
  cmds.foldl (fun acc cmd => (acc.Register table cmd).2) r

/-- The commands of a sequence of `Register` calls for which the call returned nil. -/
def registeredOf (table : Nat → Nat) : Registry → List Command → List Command
  | _, [] => []
  | r, cmd :: rest =>
    if (r.Register table cmd).1 = none then cmd :: registeredOf table (r.Register table cmd).2 rest
    else registeredOf table (r.Register table cmd).2 rest

/-- Every command with a REST binding has its key in the REST index, and every entry of the
command map is stored under the trimmed name of its command. -/
def Registry.Consistent (table : Nat → Nat) (r : Registry) : Prop :=
  ∀ name cmd, r.commands.get? name = some cmd →
    name = TrimSpace cmd.Name
    ∧ ∀ rest, cmd.REST = some rest →
        (r.restIndex.get? (restKey table rest.Method rest.Path)).isSome = true

/-- The helper `testCommand` of the registry tests. -/
def testCommand (name : String) : Command :=
  { Name := name
    Description := "test command"
    Category := "test"
    Examples := [{ Name := "basic", Description := "", Command := "ntm test" }]
    REST := none }

/-! ## Truncation (package `layout`) -/

/-- The function `TruncateRunes` on valid UTF-8 strings, whose runes are their characters. -/
def TruncateRunes (s : String) (max : Int) (suffix : String) : String :=
  if max ≤ 0 then ""
  else if (s.toList.length : Int) ≤ max then s
  else if max < (suffix.toList.length : Int) then String.mk (s.toList.take max.toNat)
  else String.mk (s.toList.take (max - (suffix.toList.length : Int)).toNat) ++ suffix

/-! ## Conflict severity (package `tracker`) -/

/-- Modelled from the spec: the struct `RecordedFileChange`, which is declared outside the
sources; `conflictSeverity` reads `Timestamp`, `DetectConflicts` reads `Agents`. -/
structure RecordedFileChange where
  Timestamp : Time
  Agents : List String
deriving DecidableEq, Repr

/-- The method `Time.Before`. -/
def Time.Before (t u : Time) : Bool := decide (t < u)

/-- The method `Time.After`. -/
def Time.After (t u : Time) : Bool := decide (u < t)

/-- The method `Time.Sub`, which saturates at the bounds of `Duration`. -/
def Time.Sub (t u : Time) : Duration := Since t u

/-- The loop of `conflictSeverity` from index `i` on; the pair is `(minT, maxT)`. -/
def conflictSeverityLoop : List RecordedFileChange → Nat → Time × Time → Time × Time
  | [], _, acc => acc
  | c :: rest, i, acc =>
    conflictSeverityLoop rest (i + 1)
      (if i = 0 ∨ c.Timestamp.Before acc.1 = true then c.Timestamp else acc.1,
        if c.Timestamp.After acc.2 = true then c.Timestamp else acc.2)

/-- The function `conflictSeverity`. -/
def conflictSeverity (pathChanges : List RecordedFileChange) (agentCount : Int) : String :=
  if agentCount ≥ 3 then "critical"
  else if Time.Sub (conflictSeverityLoop pathChanges 0 (0, 0)).2
      (conflictSeverityLoop pathChanges 0 (0, 0)).1 ≤ 10 * Minute then "critical"
  else "warning"

/-- The severity in the words of the comment on `conflictSeverity`: "critical if >=3 distinct
agents, or first/last change within 2 minutes; otherwise warning". -/
def documentedSeverity (first last : Time) (agentCount : Int) : String :=
  if agentCount ≥ 3 ∨ last - first ≤ 2 * Minute then "critical" else "warning"

/-- The sum `ContextContrib + StateContrib + RecencyContrib + AffinityBonus` before
`calculateFinalScore` clamps it. -/
def unclampedScore (d : ScoreBreakdown) : F64 :=
  F64.add (F64.add (F64.add d.ContextContrib d.StateContrib) d.RecencyContrib) d.AffinityBonus

/-- The names under which the commands of a list are registered. -/
def namesOf (cmds : List Command) : List String := cmds.map fun c => TrimSpace c.Name

/-- The keys of the REST bindings of the commands of a list. -/
def restKeysOf (table : Nat → Nat) (cmds : List Command) : List String :=
  cmds.filterMap fun c => c.REST.map fun b => restKey table b.Method b.Path

/-- What `Register` checks on the command alone. -/
def wellFormed (table : Nat → Nat) (cmd : Command) : Prop :=
  validateCommand cmd = none ∧ TrimSpace cmd.Name ≠ ""
    ∧ ∀ b, cmd.REST = some b → restKey table b.Method b.Path ≠ ""

/-- The first command of `TestRegistryRestConflict`. -/
def restCommandOne : Command :=
  { testCommand "cmd.one" with REST := some { Method := "GET", Path := "/api/test" } }

/-- The second command of `TestRegistryRestConflict`, its method in lower case and with white
space around method and path. -/
def restCommandTwo : Command :=
  { testCommand "cmd.two" with REST := some { Method := " get", Path := "/api/test " } }

/-- Weights that are not negative and sum to 1, exactly and in floating point:
0.5605103610264989, 0.439489638973501 and `2^-53`. -/
def tightWeights : RoutingConfig :=
  { DefaultRoutingConfig with
    ContextWeight := ⟨false, 4603223848051388901⟩
    StateWeight := ⟨false, 4601588761415162932⟩
    RecencyWeight := ⟨false, 4368491638549381120⟩ }

/-- A waiting agent with context usage 0 whose last activity was at minute 1000. -/
def idleAgent : ScoredAgent :=
  { ScoredAgent.zero with State := StateWaiting, LastActivity := 1000 * Minute }

/-! ## Order of `float64` values -/

namespace F64

theorem gt_iff (x y : F64) :
    gt x y = true ↔ x.isNaN = false ∧ y.isNaN = false ∧ y.key < x.key := by
  simp only [gt, lt, Bool.and_eq_true, Bool.not_eq_true', decide_eq_true_eq]
  tauto

theorem ge_iff (x y : F64) :
    ge x y = true ↔ x.isNaN = false ∧ y.isNaN = false ∧ y.key ≤ x.key := by
  simp only [ge, le, Bool.and_eq_true, Bool.not_eq_true', decide_eq_true_eq]
  tauto

theorem lt_iff (x y : F64) :
    lt x y = true ↔ x.isNaN = false ∧ y.isNaN = false ∧ x.key < y.key := by
  simp only [lt, Bool.and_eq_true, Bool.not_eq_true', decide_eq_true_eq]
  tauto

theorem le_iff (x y : F64) :
    le x y = true ↔ x.isNaN = false ∧ y.isNaN = false ∧ x.key ≤ y.key := by
  simp only [le, Bool.and_eq_true, Bool.not_eq_true', decide_eq_true_eq]
  tauto

theorem gt_false_iff (x y : F64) :
    gt x y = false ↔ (x.isNaN = false → y.isNaN = false → x.key ≤ y.key) := by
  rw [← Bool.not_eq_true, gt_iff]
  constructor
  · intro h hx hy
    by_contra hc
    exact h ⟨hx, hy, by omega⟩
  · rintro h ⟨hx, hy, hlt⟩
    have := h hx hy
    omega

theorem ge_false_iff (x y : F64) :
    ge x y = false ↔ (x.isNaN = false → y.isNaN = false → x.key < y.key) := by
  rw [← Bool.not_eq_true, ge_iff]
  constructor
  · intro h hx hy
    by_contra hc
    exact h ⟨hx, hy, by omega⟩
  · rintro h ⟨hx, hy, hlt⟩
    have := h hx hy
    omega

/-- Anything not above `b` is not above a value greater than `b`. -/
theorem gt_false_of_gt {a b c : F64} (hab : gt a b = true) (hcb : gt c b = false) :
    gt c a = false := by
  rw [gt_iff] at hab
  rw [gt_false_iff] at hcb ⊢
  intro hc _
  have := hcb hc hab.2.1
  omega

/-- Anything not above `b` is strictly below a value greater than `b`. -/
theorem ge_false_of_gt {a b c : F64} (hab : gt a b = true) (hcb : gt c b = false) :
    ge c a = false := by
  rw [gt_iff] at hab
  rw [gt_false_iff] at hcb
  rw [ge_false_iff]
  intro hc _
  have := hcb hc hab.2.1
  omega

theorem gt_asymm {a b : F64} (hab : gt a b = true) : gt b a = false := by
  rw [gt_iff] at hab
  rw [gt_false_iff]
  intro _ _
  omega

theorem gt_irrefl (a : F64) : gt a a = false := by
  rw [gt_false_iff]
  intro _ _
  exact le_refl _

/-- Without NaN the order is total: not greater means less or equal. -/
theorem ge_of_gt_false {a b : F64} (ha : a.isNaN = false) (hb : b.isNaN = false)
    (h : gt a b = false) : ge b a = true := by
  rw [gt_false_iff] at h
  rw [ge_iff]
  exact ⟨hb, ha, h ha hb⟩

end F64

/-! ## Rounding -/

namespace F64

theorem log2Fuel_spec (fuel : Nat) :
    ∀ n : Nat, n ≤ fuel → n ≠ 0 →
      2 ^ log2Fuel fuel n ≤ n ∧ n < 2 ^ (log2Fuel fuel n + 1) := by
  induction fuel with
  | zero =>
    intro n hn h0
    omega
  | succ f ih =>
    intro n hn h0
    unfold log2Fuel
    by_cases h2 : n < 2
    · have : n = 1 := by omega
      subst this
      simp
    · simp only [h2, if_false]
      obtain ⟨hlo, hhi⟩ := ih (n / 2) (by omega) (by omega)
      have e1 : 2 ^ (log2Fuel f (n / 2) + 1) = 2 * 2 ^ log2Fuel f (n / 2) := by
        rw [pow_succ]
        ring
      have e2 : 2 ^ (log2Fuel f (n / 2) + 1 + 1) = 2 * 2 ^ (log2Fuel f (n / 2) + 1) := by
        rw [pow_succ 2 (log2Fuel f (n / 2) + 1)]
        ring
      rw [e2, e1]
      rw [e1] at hhi
      omega

theorem log2_zero : log2 0 = 0 := rfl

theorem log2_le_self {n : Nat} (h0 : n ≠ 0) : 2 ^ log2 n ≤ n :=
  (log2Fuel_spec n n (le_refl _) h0).1

theorem lt_log2_succ {n : Nat} (h0 : n ≠ 0) : n < 2 ^ (log2 n + 1) :=
  (log2Fuel_spec n n (le_refl _) h0).2

theorem log2_mono {m n : Nat} (h : m ≤ n) : log2 m ≤ log2 n := by
  by_cases hm : m = 0
  · subst hm
    rw [log2_zero]
    exact Nat.zero_le _
  · have hn : n ≠ 0 := by omega
    by_contra hc
    have h1 : log2 n + 1 ≤ log2 m := by omega
    have h2 : 2 ^ (log2 n + 1) ≤ 2 ^ log2 m := Nat.pow_le_pow_right (by norm_num) h1
    have h3 := log2_le_self hm
    have h4 := lt_log2_succ hn
    omega

/-- Cross-multiplied comparison of fractions bounds the integer quotients. -/
theorem div_le_div_of_cross {a1 b1 a2 b2 : Nat} (h1 : 0 < b1) (h2 : 0 < b2)
    (h : a1 * b2 ≤ a2 * b1) : a1 / b1 ≤ a2 / b2 := by
  rw [Nat.le_div_iff_mul_le h2]
  have hq : a1 / b1 * b1 ≤ a1 := Nat.div_mul_le_self a1 b1
  have h3 : a1 / b1 * b2 * b1 ≤ a2 * b1 := by
    calc a1 / b1 * b2 * b1 = a1 / b1 * b1 * b2 := by ring
      _ ≤ a1 * b2 := Nat.mul_le_mul_right _ hq
      _ ≤ a2 * b1 := h
  exact Nat.le_of_mul_le_mul_right h3 h1

theorem rhe_ge (a b : Nat) : a / b ≤ rhe a b := by
  unfold rhe
  split
  · exact le_refl _
  · split
    · omega
    · split <;> omega

theorem rhe_le (a b : Nat) : rhe a b ≤ a / b + 1 := by
  unfold rhe
  split
  · omega
  · split
    · omega
    · split <;> omega

theorem rhe_zero (b : Nat) (hb : 0 < b) : rhe 0 b = 0 := by
  unfold rhe
  simp [hb]

/-- Rounding to the nearest integer is monotone. -/
theorem rhe_mono {a1 b1 a2 b2 : Nat} (h1 : 0 < b1) (h2 : 0 < b2)
    (h : a1 * b2 ≤ a2 * b1) : rhe a1 b1 ≤ rhe a2 b2 := by
  have hq := div_le_div_of_cross h1 h2 h
  rcases Nat.lt_or_eq_of_le hq with hlt | heq
  · calc rhe a1 b1 ≤ a1 / b1 + 1 := rhe_le _ _
      _ ≤ a2 / b2 := hlt
      _ ≤ rhe a2 b2 := rhe_ge _ _
  · have d1 : b1 * (a1 / b1) + a1 % b1 = a1 := Nat.div_add_mod a1 b1
    have d2 : b2 * (a2 / b2) + a2 % b2 = a2 := Nat.div_add_mod a2 b2
    have hr : a1 % b1 * b2 ≤ a2 % b2 * b1 := by
      have e1 : a1 * b2 = b1 * b2 * (a1 / b1) + a1 % b1 * b2 := by
        conv_lhs => rw [← d1]
        ring
      have e2 : a2 * b1 = b1 * b2 * (a1 / b1) + a2 % b2 * b1 := by
        conv_lhs => rw [← d2, ← heq]
        ring
      rw [e1, e2] at h
      omega
    unfold rhe
    rw [← heq]
    by_cases c1 : 2 * (a1 % b1) < b1
    · simp only [c1, if_true]
      split
      · exact le_refl _
      · split
        · omega
        · split <;> omega
    · simp only [c1, if_false]
      by_cases c2 : b1 < 2 * (a1 % b1)
      · simp only [c2, if_true]
        have c3 : b2 < 2 * (a2 % b2) := by
          by_contra hc
          have hc2 : 2 * (a2 % b2) ≤ b2 := by omega
          have k1 : 2 * (a2 % b2) * b1 ≤ b2 * b1 := Nat.mul_le_mul_right _ hc2
          have k2 : b1 * b2 < 2 * (a1 % b1) * b2 := Nat.mul_lt_mul_of_pos_right c2 h2
          have k3 : 2 * (a1 % b1) * b2 = 2 * (a1 % b1 * b2) := by ring
          have k4 : 2 * (a2 % b2) * b1 = 2 * (a2 % b2 * b1) := by ring
          have k5 : b2 * b1 = b1 * b2 := by ring
          omega
        have c4 : ¬ 2 * (a2 % b2) < b2 := by omega
        simp only [c4, if_false, c3, if_true]
        exact le_refl _
      · simp only [c2, if_false]
        have ce : 2 * (a1 % b1) = b1 := by omega
        have c4 : ¬ 2 * (a2 % b2) < b2 := by
          intro hc
          have k1 : 2 * (a2 % b2) * b1 < b2 * b1 := Nat.mul_lt_mul_of_pos_right hc h1
          have k3 : 2 * (a1 % b1) * b2 = 2 * (a1 % b1 * b2) := by ring
          have k4 : 2 * (a2 % b2) * b1 = 2 * (a2 % b2 * b1) := by ring
          have k5 : b2 * b1 = b1 * b2 := by ring
          have k6 : 2 * (a1 % b1) * b2 = b1 * b2 := by rw [ce]
          omega
        simp only [c4, if_false]
        split
        · split <;> omega
        · split <;> omega

end F64

namespace F64

/-- With the shift `s` chosen by `roundMag`, the significand before rounding has at most 53
bits. -/
theorem shifted_lt (num den : Nat) :
    num / (den * 2 ^ (log2 (num / den) - 52)) < 2 ^ 53 := by
  rw [← Nat.div_div_eq_div_mul]
  have hp : 0 < 2 ^ (log2 (num / den) - 52) := Nat.pow_pos (by norm_num)
  rw [Nat.div_lt_iff_lt_mul hp]
  by_cases h0 : num / den = 0
  · rw [h0]
    positivity
  · have h1 := lt_log2_succ h0
    have h2 : 2 ^ (log2 (num / den) + 1) ≤ 2 ^ 53 * 2 ^ (log2 (num / den) - 52) := by
      rw [← pow_add]
      exact Nat.pow_le_pow_right (by norm_num) (by omega)
    omega

/-- With a positive shift the significand before rounding has exactly 53 bits. -/
theorem shifted_ge (num den : Nat) (hs : 0 < log2 (num / den) - 52) :
    2 ^ 52 ≤ num / (den * 2 ^ (log2 (num / den) - 52)) := by
  rw [← Nat.div_div_eq_div_mul]
  have hp : 0 < 2 ^ (log2 (num / den) - 52) := Nat.pow_pos (by norm_num)
  rw [Nat.le_div_iff_mul_le hp]
  have h0 : num / den ≠ 0 := by
    intro h
    rw [h, log2_zero] at hs
    omega
  have h1 := log2_le_self h0
  have h2 : 2 ^ 52 * 2 ^ (log2 (num / den) - 52) = 2 ^ log2 (num / den) := by
    rw [← pow_add]
    congr 1
    omega
  omega

theorem roundMag_le_infMag (num den : Nat) : roundMag num den ≤ infMag := by
  unfold roundMag
  exact min_le_right _ _

theorem roundMag_zero (den : Nat) (hd : 0 < den) : roundMag 0 den = 0 := by
  unfold roundMag
  simp [log2_zero, rhe_zero, hd]

/-- Rounding is monotone: a smaller exact value never rounds to a larger encoding. -/
theorem roundMag_mono {n1 d1 n2 d2 : Nat} (h1 : 0 < d1) (h2 : 0 < d2)
    (h : n1 * d2 ≤ n2 * d1) : roundMag n1 d1 ≤ roundMag n2 d2 := by
  have hq := div_le_div_of_cross h1 h2 h
  have hs : log2 (n1 / d1) - 52 ≤ log2 (n2 / d2) - 52 :=
    Nat.sub_le_sub_right (log2_mono hq) 52
  unfold roundMag
  simp only []
  refine min_le_min ?_ (le_refl _)
  rcases Nat.lt_or_eq_of_le hs with hlt | heq
  · have hp1 : 0 < d1 * 2 ^ (log2 (n1 / d1) - 52) :=
      Nat.mul_pos h1 (Nat.pow_pos (by norm_num))
    have u1 : rhe n1 (d1 * 2 ^ (log2 (n1 / d1) - 52)) ≤ 2 ^ 53 := by
      have := shifted_lt n1 d1
      have := rhe_le n1 (d1 * 2 ^ (log2 (n1 / d1) - 52))
      omega
    have l2 : 2 ^ 52 ≤ rhe n2 (d2 * 2 ^ (log2 (n2 / d2) - 52)) := by
      have := shifted_ge n2 d2 (by omega)
      have := rhe_ge n2 (d2 * 2 ^ (log2 (n2 / d2) - 52))
      omega
    have hm : (log2 (n1 / d1) - 52 + 1) * 2 ^ 52 ≤ (log2 (n2 / d2) - 52) * 2 ^ 52 :=
      Nat.mul_le_mul_right _ hlt
    have e53 : (2 : Nat) ^ 53 = 2 * 2 ^ 52 := by norm_num
    have e1 : (log2 (n1 / d1) - 52 + 1) * 2 ^ 52
        = (log2 (n1 / d1) - 52) * 2 ^ 52 + 2 ^ 52 := by ring
    omega
  · rw [← heq]
    have hp : 0 < 2 ^ (log2 (n1 / d1) - 52) := Nat.pow_pos (by norm_num)
    have hr : rhe n1 (d1 * 2 ^ (log2 (n1 / d1) - 52))
        ≤ rhe n2 (d2 * 2 ^ (log2 (n1 / d1) - 52)) := by
      apply rhe_mono (Nat.mul_pos h1 hp) (Nat.mul_pos h2 hp)
      calc n1 * (d2 * 2 ^ (log2 (n1 / d1) - 52))
          = n1 * d2 * 2 ^ (log2 (n1 / d1) - 52) := by ring
        _ ≤ n2 * d1 * 2 ^ (log2 (n1 / d1) - 52) := Nat.mul_le_mul_right _ h
        _ = n2 * (d1 * 2 ^ (log2 (n1 / d1) - 52)) := by ring
    omega

/-- A non-zero multiple of the smallest subnormal never rounds to zero. -/
theorem roundMag_pos (n : Nat) (hn : 0 < n) : 0 < roundMag n 1 := by
  unfold roundMag
  simp only [Nat.div_one, one_mul]
  have hinf : 0 < infMag := by decide
  have hp : 0 < 2 ^ (log2 n - 52) := Nat.pow_pos (by norm_num)
  have hle : 2 ^ (log2 n - 52) ≤ n :=
    le_trans (Nat.pow_le_pow_right (by norm_num) (Nat.sub_le _ _)) (log2_le_self (by omega))
  have hq : 1 ≤ n / 2 ^ (log2 n - 52) := by
    rw [Nat.le_div_iff_mul_le hp]
    omega
  have := rhe_ge n (2 ^ (log2 n - 52))
  rw [lt_min_iff]
  exact ⟨by omega, hinf⟩

/-- The absolute value grows with the magnitude bits. -/
theorem units_mono {x y : F64} (h : x.mag ≤ y.mag) : x.units ≤ y.units := by
  unfold units
  have hdiv : x.mag / 2 ^ 52 ≤ y.mag / 2 ^ 52 := Nat.div_le_div_right h
  have hfx : x.mag % 2 ^ 52 < 2 ^ 52 := Nat.mod_lt _ (by norm_num)
  have hfy : y.mag % 2 ^ 52 < 2 ^ 52 := Nat.mod_lt _ (by norm_num)
  have dx : 2 ^ 52 * (x.mag / 2 ^ 52) + x.mag % 2 ^ 52 = x.mag := Nat.div_add_mod _ _
  have dy : 2 ^ 52 * (y.mag / 2 ^ 52) + y.mag % 2 ^ 52 = y.mag := Nat.div_add_mod _ _
  by_cases hx : x.mag / 2 ^ 52 = 0
  · simp only [hx, if_true]
    by_cases hy : y.mag / 2 ^ 52 = 0
    · simp only [hy, if_true]
      rw [hx] at dx
      rw [hy] at dy
      omega
    · simp only [hy, if_false]
      have hp : 1 ≤ 2 ^ (y.mag / 2 ^ 52 - 1) := Nat.pow_pos (by norm_num)
      calc x.mag % 2 ^ 52 ≤ (2 ^ 52 + y.mag % 2 ^ 52) * 1 := by omega
        _ ≤ (2 ^ 52 + y.mag % 2 ^ 52) * 2 ^ (y.mag / 2 ^ 52 - 1) :=
          Nat.mul_le_mul_left _ hp
  · have hy : y.mag / 2 ^ 52 ≠ 0 := by omega
    simp only [hx, hy, if_false]
    rcases Nat.lt_or_eq_of_le hdiv with hlt | heq
    · have e1 : 2 ^ (x.mag / 2 ^ 52 - 1 + 1) ≤ 2 ^ (y.mag / 2 ^ 52 - 1) :=
        Nat.pow_le_pow_right (by norm_num) (by omega)
      have e2 : (2 : Nat) ^ (x.mag / 2 ^ 52 - 1 + 1) = 2 * 2 ^ (x.mag / 2 ^ 52 - 1) := by
        rw [pow_succ]
        ring
      calc (2 ^ 52 + x.mag % 2 ^ 52) * 2 ^ (x.mag / 2 ^ 52 - 1)
          ≤ (2 ^ 52 + 2 ^ 52) * 2 ^ (x.mag / 2 ^ 52 - 1) :=
            Nat.mul_le_mul_right _ (by omega)
        _ = 2 ^ 52 * (2 * 2 ^ (x.mag / 2 ^ 52 - 1)) := by ring
        _ ≤ 2 ^ 52 * 2 ^ (y.mag / 2 ^ 52 - 1) := by
            rw [← e2]
            exact Nat.mul_le_mul_left _ e1
        _ ≤ (2 ^ 52 + y.mag % 2 ^ 52) * 2 ^ (y.mag / 2 ^ 52 - 1) :=
            Nat.mul_le_mul_right _ (by omega)
    · rw [← heq]
      apply Nat.mul_le_mul_right
      rw [← heq] at dy
      omega

theorem units_of_mag_zero {x : F64} (h : x.mag = 0) : x.units = 0 := by
  unfold units
  simp [h]

end F64

/-! ## Bounds through `roundTo2Decimals` -/

namespace F64

theorem infMag_eq : infMag = 9218868437227405312 := by decide

theorem ofNat_zero : ofNat 0 = ⟨false, 0⟩ := by decide!

theorem ofNat_hundred : ofNat 100 = ⟨false, 4636737291354636288⟩ := by decide!

theorem ofNat_tenThousand : ofNat 10000 = ⟨false, 4666723172467343360⟩ := by decide!

theorem isNaN_nan : nan.isNaN = true := by decide

theorem round_neg (neg : Bool) (num den : Nat) : (round neg num den).neg = neg := rfl

theorem round_mag (neg : Bool) (num den : Nat) : (round neg num den).mag = roundMag num den :=
  rfl

theorem isNaN_false_of_le {x : F64} (h : x.mag ≤ infMag) : x.isNaN = false := by
  simp only [isNaN, decide_eq_false_iff_not]
  omega

theorem isNaN_round (neg : Bool) (num den : Nat) : (round neg num den).isNaN = false :=
  isNaN_false_of_le (roundMag_le_infMag num den)

theorem isInf_false_of_lt {x : F64} (h : x.mag < infMag) : x.isInf = false := by
  simp only [isInf, decide_eq_false_iff_not]
  omega

theorem isZero_false_of_pos {x : F64} (h : 0 < x.mag) : x.isZero = false := by
  simp only [isZero, decide_eq_false_iff_not]
  omega

/-- The product of finite values is the rounded exact product. -/
theorem mul_of_finite {x y : F64} (hx : x.mag < infMag) (hy : y.mag < infMag) :
    mul x y = round (x.neg != y.neg) (x.units * y.units) (2 ^ 1074) := by
  unfold mul
  simp only [isNaN_false_of_le (Nat.le_of_lt hx), isNaN_false_of_le (Nat.le_of_lt hy),
    isInf_false_of_lt hx, isInf_false_of_lt hy, Bool.or_false, Bool.false_eq_true, if_false]

/-- The quotient of a finite value by a finite non-zero value is the rounded exact quotient. -/
theorem div_of_finite {x y : F64} (hx : x.mag < infMag) (hy : y.mag < infMag)
    (hy0 : 0 < y.mag) :
    div x y = round (x.neg != y.neg) (x.units * 2 ^ 1074) y.units := by
  unfold div
  simp only [isNaN_false_of_le (Nat.le_of_lt hx), isNaN_false_of_le (Nat.le_of_lt hy),
    isInf_false_of_lt hx, isInf_false_of_lt hy, isZero_false_of_pos hy0, Bool.or_false,
    Bool.false_eq_true, if_false]

/-- `math.Round` of a finite value. -/
theorem Round_of_finite {x : F64} (hx : x.mag < infMag) :
    Round x = round x.neg ((2 * x.units + 2 ^ 1074) / 2 ^ 1075 * 2 ^ 1074) 1 := by
  unfold Round
  simp only [isNaN_false_of_le (Nat.le_of_lt hx), isInf_false_of_lt hx, Bool.or_false,
    Bool.false_eq_true, if_false]

/-- A value that is not NaN, not below 0 and not above 100 has magnitude bits up to those of 100
and is negative only as `-0`. -/
theorem range_of_clamped {c : F64} (hn : c.isNaN = false) (h0 : lt c (ofNat 0) = false)
    (h100 : gt c (ofNat 100) = false) :
    c.mag ≤ 4636737291354636288 ∧ (c.neg = true → c.mag = 0) := by
  have k0 : (ofNat 0).isNaN = false := by decide!
  have k100 : (ofNat 100).isNaN = false := by decide!
  have h0b : ¬ (lt c (ofNat 0) = true) := by simp [h0]
  rw [lt_iff] at h0b
  rw [gt_false_iff] at h100
  have h1 := h100 hn k100
  have h2 : ¬ c.key < (ofNat 0).key := fun h => h0b ⟨hn, k0, h⟩
  rw [ofNat_hundred] at h1
  rw [ofNat_zero] at h2
  unfold key at h1 h2
  cases hneg : c.neg
  · simp [hneg] at h1
    exact ⟨by omega, by simp⟩
  · simp [hneg] at h1 h2
    exact ⟨by omega, fun _ => by omega⟩

theorem mul_hundred_range {c : F64} (h1 : c.mag ≤ 4636737291354636288)
    (h2 : c.neg = true → c.mag = 0) :
    (mul c (ofNat 100)).mag ≤ 4666723172467343360
    ∧ ((mul c (ofNat 100)).neg = true → (mul c (ofNat 100)).mag = 0) := by
  have hc : c.mag < infMag := by
    rw [infMag_eq]
    omega
  have hh : (ofNat 100).mag < infMag := by decide!
  have hs : (ofNat 100).neg = false := by decide!
  rw [mul_of_finite hc hh, round_neg, round_mag, hs, Bool.bne_false]
  constructor
  · have hu : c.units ≤ (ofNat 100).units := by
      apply units_mono
      rw [ofNat_hundred]
      exact h1
    have hk : roundMag ((ofNat 100).units * (ofNat 100).units) (2 ^ 1074)
        = 4666723172467343360 := by decide!
    rw [← hk]
    apply roundMag_mono (by positivity) (by positivity)
    exact Nat.mul_le_mul_right _ (Nat.mul_le_mul_right _ hu)
  · intro hneg
    have hz := units_of_mag_zero (h2 hneg)
    rw [hz, Nat.zero_mul]
    exact roundMag_zero _ (by positivity)

theorem Round_range {x : F64} (h1 : x.mag ≤ 4666723172467343360)
    (h2 : x.neg = true → x.mag = 0) :
    (Round x).mag ≤ 4666723172467343360 ∧ ((Round x).neg = true → (Round x).mag = 0) := by
  have hx : x.mag < infMag := by
    rw [infMag_eq]
    omega
  rw [Round_of_finite hx, round_neg, round_mag]
  constructor
  · have hu : x.units ≤ (ofNat 10000).units := by
      apply units_mono
      rw [ofNat_tenThousand]
      exact h1
    have hk : roundMag ((2 * (ofNat 10000).units + 2 ^ 1074) / 2 ^ 1075 * 2 ^ 1074) 1
        = 4666723172467343360 := by decide!
    rw [← hk]
    apply roundMag_mono (by norm_num) (by norm_num)
    apply Nat.mul_le_mul_right
    apply Nat.mul_le_mul_right
    apply Nat.div_le_div_right
    omega
  · intro hneg
    have hz := units_of_mag_zero (h2 hneg)
    rw [hz]
    have : (2 * 0 + 2 ^ 1074) / 2 ^ 1075 * 2 ^ 1074 = 0 := by decide!
    rw [this]
    exact roundMag_zero _ (by norm_num)

theorem div_hundred_range {y : F64} (h1 : y.mag ≤ 4666723172467343360)
    (h2 : y.neg = true → y.mag = 0) :
    (div y (ofNat 100)).mag ≤ 4636737291354636288
    ∧ ((div y (ofNat 100)).neg = true → (div y (ofNat 100)).mag = 0) := by
  have hy : y.mag < infMag := by
    rw [infMag_eq]
    omega
  have hh : (ofNat 100).mag < infMag := by decide!
  have hh0 : 0 < (ofNat 100).mag := by decide!
  have hs : (ofNat 100).neg = false := by decide!
  have hpos : 0 < (ofNat 100).units := by decide!
  rw [div_of_finite hy hh hh0, round_neg, round_mag, hs, Bool.bne_false]
  constructor
  · have hu : y.units ≤ (ofNat 10000).units := by
      apply units_mono
      rw [ofNat_tenThousand]
      exact h1
    have hk : roundMag ((ofNat 10000).units * 2 ^ 1074) (ofNat 100).units
        = 4636737291354636288 := by decide!
    rw [← hk]
    apply roundMag_mono hpos hpos
    exact Nat.mul_le_mul_right _ (Nat.mul_le_mul_right _ hu)
  · intro hneg
    have hz := units_of_mag_zero (h2 hneg)
    rw [hz, Nat.zero_mul]
    exact roundMag_zero _ hpos

theorem le_of_range {z : F64} (h1 : z.mag ≤ 4636737291354636288)
    (h2 : z.neg = true → z.mag = 0) :
    le (ofNat 0) z = true ∧ le z (ofNat 100) = true := by
  have hn : z.isNaN = false := isNaN_false_of_le (by rw [infMag_eq]; omega)
  have k0 : (ofNat 0).isNaN = false := by decide!
  have k100 : (ofNat 100).isNaN = false := by decide!
  rw [le_iff, le_iff]
  refine ⟨⟨k0, hn, ?_⟩, ⟨hn, k100, ?_⟩⟩
  · rw [ofNat_zero]
    unfold key
    cases hneg : z.neg
    · simp
    · have := h2 hneg
      simp [this]
  · rw [ofNat_hundred]
    unfold key
    cases hneg : z.neg
    · simp
      omega
    · have := h2 hneg
      simp [this]

end F64

/-- Rounding to 2 decimals keeps a value of `[0, 100]` in `[0, 100]`. -/
theorem roundTo2Decimals_range {c : F64} (hn : c.isNaN = false)
    (h0 : F64.lt c (F64.ofNat 0) = false) (h100 : F64.gt c (F64.ofNat 100) = false) :
    F64.le (F64.ofNat 0) (roundTo2Decimals c) = true
    ∧ F64.le (roundTo2Decimals c) (F64.ofNat 100) = true := by
  obtain ⟨a1, a2⟩ := F64.range_of_clamped hn h0 h100
  obtain ⟨b1, b2⟩ := F64.mul_hundred_range a1 a2
  obtain ⟨c1, c2⟩ := F64.Round_range b1 b2
  obtain ⟨d1, d2⟩ := F64.div_hundred_range c1 c2
  exact F64.le_of_range d1 d2

/-- Rounding NaN to 2 decimals gives NaN. -/
theorem roundTo2Decimals_nan {c : F64} (hn : c.isNaN = true) :
    (roundTo2Decimals c).isNaN = true := by
  have e1 : F64.mul c (F64.ofNat 100) = F64.nan := by
    unfold F64.mul
    simp [hn]
  have e2 : F64.Round F64.nan = F64.nan := by decide!
  have e3 : F64.div F64.nan (F64.ofNat 100) = F64.nan := by decide!
  unfold roundTo2Decimals
  rw [e1, e2, e3]
  decide!

/-! ## Addition: NaN results and the sign of zero -/

namespace F64

/-- An addition returns the quiet NaN `nan` or a value that is not NaN. -/
theorem add_nan_or (x y : F64) : add x y = nan ∨ (add x y).isNaN = false := by
  unfold add
  split_ifs with h1 h2 h3 h4 h5 h6 h7
  · exact Or.inl rfl
  · exact Or.inl rfl
  · right
    simp only [Bool.or_eq_true, not_or, Bool.not_eq_true] at h1
    exact h1.1
  · right
    simp only [Bool.or_eq_true, not_or, Bool.not_eq_true] at h1
    exact h1.2
  · exact Or.inr (isNaN_round _ _ _)
  · right
    decide
  · exact Or.inr (isNaN_round _ _ _)
  · exact Or.inr (isNaN_round _ _ _)

/-- Every NaN produced by an addition is the quiet NaN `nan`. -/
theorem add_eq_nan_of_isNaN {x y : F64} (h : (add x y).isNaN = true) : add x y = nan := by
  rcases add_nan_or x y with h1 | h1
  · exact h1
  · rw [h1] at h
    cases h

/-- A difference `100 - y` is never the negative zero. -/
theorem sub_hundred_neg_of_mag_zero (y : F64) (h : (sub (ofNat 100) y).mag = 0) :
    (sub (ofNat 100) y).neg = false := by
  have hn : (ofNat 100).isNaN = false := by decide!
  have hi : (ofNat 100).isInf = false := by decide!
  have hs : (ofNat 100).neg = false := by decide!
  revert h
  unfold sub add
  simp only [hn, hi, hs, Bool.false_or, Bool.false_eq_true, if_false]
  split_ifs with h1 h4 h5 h6 h7
  · intro _
    rfl
  · intro h
    simp only [isInf, decide_eq_true_eq] at h4
    rw [h4, infMag_eq] at h
    omega
  · intro _
    exact round_neg _ _ _
  · intro _
    rfl
  · intro _
    exact round_neg _ _ _
  · intro h
    rw [round_mag] at h
    have hpos := roundMag_pos ((fneg y).units - (ofNat 100).units) (by omega)
    omega

end F64

/-- The context score of the code, `100 - usage` replaced by 0 when negative, is
`max(0, 100 - usage)`. -/
theorem contextScore_eq_max (usage : F64) :
    (if F64.lt (F64.sub (F64.ofNat 100) usage) (F64.ofNat 0) then F64.ofNat 0
      else F64.sub (F64.ofNat 100) usage)
      = F64.max (F64.ofNat 0) (F64.sub (F64.ofNat 100) usage) := by
  have hz := F64.sub_hundred_neg_of_mag_zero usage
  have hnan : (F64.sub (F64.ofNat 100) usage).isNaN = true →
      F64.sub (F64.ofNat 100) usage = F64.nan := fun h => F64.add_eq_nan_of_isNaN h
  generalize F64.sub (F64.ofNat 100) usage = c at hz hnan
  have k0 : (F64.ofNat 0).isNaN = false := by decide!
  have ki : (F64.ofNat 0).isInf = false := by decide!
  have kn : (F64.ofNat 0).neg = false := by decide!
  have kf : F64.feq (F64.ofNat 0) (F64.ofNat 0) = true := by decide!
  have kk : (F64.ofNat 0).key = 0 := by decide!
  unfold F64.max
  simp only [k0, ki, kn, kf, Bool.false_and, Bool.false_or, Bool.true_and, Bool.false_eq_true,
    if_false]
  by_cases c1 : (c.isInf && !c.neg) = true
  · simp only [c1, if_true]
    simp only [Bool.and_eq_true, Bool.not_eq_true', F64.isInf, decide_eq_true_eq] at c1
    have hlt : F64.lt c (F64.ofNat 0) = false := by
      rw [← Bool.not_eq_true, F64.lt_iff]
      rintro ⟨_, _, h⟩
      rw [kk] at h
      unfold F64.key at h
      simp only [c1.2, Bool.false_eq_true, if_false] at h
      omega
    simp only [hlt, Bool.false_eq_true, if_false]
    cases c with
    | mk n m =>
      simp only at c1
      simp only [F64.inf, c1.1, c1.2]
  · simp only [c1, if_false]
    by_cases c2 : c.isNaN = true
    · simp only [c2, if_true]
      have hlt : F64.lt c (F64.ofNat 0) = false := by
        rw [← Bool.not_eq_true, F64.lt_iff]
        rintro ⟨h, _, _⟩
        rw [c2] at h
        cases h
      simp only [hlt, Bool.false_eq_true, if_false]
      exact hnan c2
    · simp only [c2, if_false]
      have c2f : c.isNaN = false := by simpa using c2
      by_cases c3 : F64.feq (F64.ofNat 0) c = true
      · simp only [c3, if_true]
        have hkey : c.key = 0 := by
          simp only [F64.feq, Bool.and_eq_true, decide_eq_true_eq] at c3
          rw [← c3.2, kk]
        have hmag : c.mag = 0 := by
          unfold F64.key at hkey
          split at hkey <;> omega
        have hlt : F64.lt c (F64.ofNat 0) = false := by
          rw [← Bool.not_eq_true, F64.lt_iff]
          rintro ⟨_, _, h⟩
          rw [kk, hkey] at h
          omega
        simp only [hlt, Bool.false_eq_true, if_false]
        have hneg := hz hmag
        rw [F64.ofNat_zero]
        cases c with
        | mk n m =>
          simp only at hmag hneg
          rw [hmag, hneg]
      · simp only [c3, if_false]
        rfl

/-! ## The best agent -/

theorem BestInv_skip {seen : List ScoredAgent} {best : Option (Nat × ScoredAgent)}
    {a : ScoredAgent} (h : BestInv seen best) (ha : a.Excluded = true) :
    BestInv (seen ++ [a]) best := by
  match best, h with
  | none, h =>
    intro x hx
    rcases List.mem_append.1 hx with hx | hx
    · exact h x hx
    · simp at hx
      rw [hx]
      exact ha
  | some (bi, b), ⟨h1, h2, h3, h4⟩ =>
    have hbi : bi < seen.length := (List.getElem?_eq_some.1 h1).1
    refine ⟨?_, h2, ?_, ?_⟩
    · rw [List.getElem?_append_left hbi]
      exact h1
    · intro x hx hxe
      rcases List.mem_append.1 hx with hx | hx
      · exact h3 x hx hxe
      · simp at hx
        rw [hx, ha] at hxe
        cases hxe
    · intro j x hj hjx hxe
      rw [List.getElem?_append_left (by omega)] at hjx
      exact h4 j x hj hjx hxe

theorem BestInv_first {seen : List ScoredAgent} {a : ScoredAgent} (h : BestInv seen none)
    (ha : a.Excluded = false) : BestInv (seen ++ [a]) (some (seen.length, a)) := by
  refine ⟨List.getElem?_concat_length seen a, ha, ?_, ?_⟩
  · intro x hx hxe
    rcases List.mem_append.1 hx with hx | hx
    · rw [h x hx] at hxe
      cases hxe
    · simp at hx
      rw [hx]
      exact F64.gt_irrefl _
  · intro j x hj hjx hxe
    rw [List.getElem?_append_left hj] at hjx
    have hmem : x ∈ seen := List.mem_iff_getElem?.2 ⟨j, hjx⟩
    rw [h x hmem] at hxe
    cases hxe

theorem BestInv_greater {seen : List ScoredAgent} {bi : Nat} {a b : ScoredAgent}
    (h : BestInv seen (some (bi, b))) (ha : a.Excluded = false)
    (hgt : F64.gt a.Score b.Score = true) : BestInv (seen ++ [a]) (some (seen.length, a)) := by
  obtain ⟨_, _, h3, _⟩ := h
  refine ⟨List.getElem?_concat_length seen a, ha, ?_, ?_⟩
  · intro x hx hxe
    rcases List.mem_append.1 hx with hx | hx
    · exact F64.gt_false_of_gt hgt (h3 x hx hxe)
    · simp at hx
      rw [hx]
      exact F64.gt_irrefl _
  · intro j x hj hjx hxe
    rw [List.getElem?_append_left hj] at hjx
    have hmem : x ∈ seen := List.mem_iff_getElem?.2 ⟨j, hjx⟩
    exact F64.ge_false_of_gt hgt (h3 x hmem hxe)

theorem BestInv_keep {seen : List ScoredAgent} {bi : Nat} {a b : ScoredAgent}
    (h : BestInv seen (some (bi, b))) (hgt : F64.gt a.Score b.Score = false) :
    BestInv (seen ++ [a]) (some (bi, b)) := by
  obtain ⟨h1, h2, h3, h4⟩ := h
  have hbi : bi < seen.length := (List.getElem?_eq_some.1 h1).1
  refine ⟨?_, h2, ?_, ?_⟩
  · rw [List.getElem?_append_left hbi]
    exact h1
  · intro x hx hxe
    rcases List.mem_append.1 hx with hx | hx
    · exact h3 x hx hxe
    · simp at hx
      rw [hx]
      exact hgt
  · intro j x hj hjx hxe
    rw [List.getElem?_append_left (by omega)] at hjx
    exact h4 j x hj hjx hxe

/-- The loop of `GetBestAgent` keeps its invariant. -/
theorem GetBestAgentLoop_inv (rest : List ScoredAgent) :
    ∀ (seen : List ScoredAgent) (best : Option (Nat × ScoredAgent)), BestInv seen best →
      BestInv (seen ++ rest) (GetBestAgentLoop rest seen.length best) := by
  induction rest with
  | nil =>
    intro seen best h
    simpa [GetBestAgentLoop] using h
  | cons a rest ih =>
    intro seen best h
    have hlen : (seen ++ [a]).length = seen.length + 1 := by simp
    have happ : seen ++ a :: rest = (seen ++ [a]) ++ rest := by simp
    rw [happ]
    unfold GetBestAgentLoop
    by_cases ha : a.Excluded = true
    · simp only [ha, if_true]
      rw [← hlen]
      exact ih _ _ (BestInv_skip h ha)
    · have ha2 : a.Excluded = false := by simpa using ha
      simp only [ha2]
      match best, h with
      | none, h =>
        simp only [Bool.false_eq_true, if_false]
        rw [← hlen]
        exact ih _ _ (BestInv_first h ha2)
      | some (bi, b), h =>
        simp only [Bool.false_eq_true, if_false]
        by_cases hgt : F64.gt a.Score b.Score = true
        · simp only [hgt, if_true]
          rw [← hlen]
          exact ih _ _ (BestInv_greater h ha2 hgt)
        · have hgt2 : F64.gt a.Score b.Score = false := by simpa using hgt
          simp only [hgt2, Bool.false_eq_true, if_false]
          rw [← hlen]
          exact ih _ _ (BestInv_keep h hgt2)

theorem GetBestAgentAt_inv (scored : List ScoredAgent) :
    BestInv scored (GetBestAgentAt scored) := by
  have h := GetBestAgentLoop_inv scored [] none (by intro a ha; cases ha)
  simpa [GetBestAgentAt] using h

/-! ## The sorting loops -/

theorem getElem?_middle (front : List ScoredAgent) (h : ScoredAgent) (back : List ScoredAgent) :
    (front ++ h :: back)[front.length]? = some h := by
  rw [List.getElem?_append_right (le_refl _)]
  simp

theorem set_middle (front : List ScoredAgent) (h y : ScoredAgent) (back : List ScoredAgent) :
    (front ++ h :: back).set front.length y = front ++ y :: back := by
  rw [List.set_append]
  simp

/-- Swapping positions `i < j` of a list cut at these positions. -/
theorem swapIfGreater_cut (front : List ScoredAgent) (h : ScoredAgent)
    (mid : List ScoredAgent) (x : ScoredAgent) (back : List ScoredAgent) :
    swapIfGreater (front ++ h :: (mid ++ x :: back)) front.length
        (front.length + 1 + mid.length)
      = if F64.gt x.Score h.Score then front ++ x :: (mid ++ h :: back)
        else front ++ h :: (mid ++ x :: back) := by
  have hlen : (front ++ h :: mid).length = front.length + 1 + mid.length := by
    simp
    omega
  have hj : (front ++ h :: (mid ++ x :: back))[front.length + 1 + mid.length]? = some x := by
    have e : front ++ h :: (mid ++ x :: back) = (front ++ h :: mid) ++ x :: back := by simp
    rw [e, ← hlen]
    exact getElem?_middle _ _ _
  unfold swapIfGreater
  rw [getElem?_middle, hj]
  simp only []
  split
  · rw [set_middle]
    have e : front ++ x :: (mid ++ x :: back) = (front ++ x :: mid) ++ x :: back := by simp
    have hlen2 : (front ++ x :: mid).length = front.length + 1 + mid.length := by
      simp
      omega
    rw [e, ← hlen2, set_middle]
    simp
  · rfl

/-- The inner loop, started at `j` with the agents before `j` already visited, is `innerPass`. -/
theorem innerLoop_eq_innerPass (back : List ScoredAgent) :
    ∀ (front : List ScoredAgent) (h : ScoredAgent) (mid : List ScoredAgent) (fuel : Nat),
      back.length ≤ fuel →
      innerLoop front.length fuel (front.length + 1 + mid.length) (front ++ h :: (mid ++ back))
        = front ++ (innerPass h back).1 :: (mid ++ (innerPass h back).2) := by
  induction back with
  | nil =>
    intro front h mid fuel _
    cases fuel with
    | zero => simp [innerLoop, innerPass]
    | succ f =>
      unfold innerLoop
      have : ¬ (front.length + 1 + mid.length < (front ++ h :: (mid ++ [])).length) := by
        simp
        omega
      simp only [this, if_false]
      simp [innerPass]
  | cons x xs ih =>
    intro front h mid fuel hfuel
    cases fuel with
    | zero => simp at hfuel
    | succ f =>
      have hf : xs.length ≤ f := by
        simp at hfuel
        omega
      unfold innerLoop
      have hlt : front.length + 1 + mid.length < (front ++ h :: (mid ++ x :: xs)).length := by
        simp
        omega
      simp only [hlt, if_true]
      rw [swapIfGreater_cut]
      have hj : front.length + 1 + mid.length + 1 = front.length + 1 + (mid ++ [h]).length := by
        simp
        omega
      have hj2 : front.length + 1 + mid.length + 1 = front.length + 1 + (mid ++ [x]).length := by
        simp
        omega
      by_cases hgt : F64.gt x.Score h.Score = true
      · simp only [hgt, if_true]
        have e : front ++ x :: (mid ++ h :: xs) = front ++ x :: ((mid ++ [h]) ++ xs) := by simp
        rw [e, hj, ih front x (mid ++ [h]) f hf]
        simp [innerPass, hgt]
      · have hgt2 : F64.gt x.Score h.Score = false := by simpa using hgt
        simp only [hgt2, Bool.false_eq_true, if_false]
        have e : front ++ h :: (mid ++ x :: xs) = front ++ h :: ((mid ++ [x]) ++ xs) := by simp
        rw [e, hj2, ih front h (mid ++ [x]) f hf]
        simp [innerPass, hgt2]

/-- The outer loop, started at `i` with the agents before `i` in place, is `outerPass`. -/
theorem outerLoop_eq_outerPass (fuel : Nat) :
    ∀ (front rest : List ScoredAgent),
      outerLoop fuel front.length (front ++ rest) = front ++ outerPass fuel rest := by
  induction fuel with
  | zero =>
    intro front rest
    simp [outerLoop, outerPass]
  | succ f ih =>
    intro front rest
    cases rest with
    | nil => simp [outerLoop, outerPass]
    | cons h t =>
      unfold outerLoop
      have hlt : front.length < (front ++ h :: t).length := by simp
      simp only [hlt, if_true]
      have e : front ++ h :: t = front ++ h :: ([] ++ t) := by simp
      have hi : front.length + 1 = front.length + 1 + ([] : List ScoredAgent).length := by simp
      have hfuel : t.length ≤ (front ++ h :: ([] ++ t)).length := by
        simp
        omega
      rw [e, hi, innerLoop_eq_innerPass t front h [] _ hfuel]
      have e2 : front ++ (innerPass h t).1 :: ([] ++ (innerPass h t).2)
          = (front ++ [(innerPass h t).1]) ++ (innerPass h t).2 := by simp
      have hl : front.length + 1 + ([] : List ScoredAgent).length
          = (front ++ [(innerPass h t).1]).length := by simp
      rw [e2, hl, ih]
      simp [outerPass]

theorem GetAvailableAgents_eq_outerPass (scored : List ScoredAgent) :
    GetAvailableAgents scored
      = outerPass (scored.filter fun agent => !agent.Excluded).length
          (scored.filter fun agent => !agent.Excluded) := by
  have h := outerLoop_eq_outerPass (scored.filter fun agent => !agent.Excluded).length []
    (scored.filter fun agent => !agent.Excluded)
  simpa [GetAvailableAgents] using h

theorem innerPass_perm (t : List ScoredAgent) :
    ∀ h : ScoredAgent, ((innerPass h t).1 :: (innerPass h t).2).Perm (h :: t) := by
  induction t with
  | nil =>
    intro h
    simp [innerPass]
  | cons x xs ih =>
    intro h
    unfold innerPass
    split
    · exact ((List.Perm.swap _ _ _).trans ((ih x).cons h))
    · exact ((List.Perm.swap _ _ _).trans ((ih h).cons x)).trans (List.Perm.swap _ _ _)

theorem innerPass_length (t : List ScoredAgent) :
    ∀ h : ScoredAgent, (innerPass h t).2.length = t.length := by
  induction t with
  | nil =>
    intro h
    simp [innerPass]
  | cons x xs ih =>
    intro h
    unfold innerPass
    split <;> simp [ih]

/-- After the inner loop nothing behind position `i` is greater than the agent at `i`, and
whatever was not greater than the agent that stood there is not greater than the one there now. -/
theorem innerPass_max (t : List ScoredAgent) :
    ∀ h : ScoredAgent,
      (∀ y : F64, F64.gt y h.Score = false → F64.gt y (innerPass h t).1.Score = false)
      ∧ ∀ x ∈ (innerPass h t).2, F64.gt x.Score (innerPass h t).1.Score = false := by
  induction t with
  | nil =>
    intro h
    simp [innerPass]
  | cons x xs ih =>
    intro h
    unfold innerPass
    by_cases hgt : F64.gt x.Score h.Score = true
    · simp only [hgt, if_true]
      obtain ⟨hd, hm⟩ := ih x
      refine ⟨fun y hy => hd y (F64.gt_false_of_gt hgt hy), ?_⟩
      intro z hz
      rcases List.mem_cons.1 hz with hz | hz
      · rw [hz]
        exact hd _ (F64.gt_asymm hgt)
      · exact hm z hz
    · have hgt2 : F64.gt x.Score h.Score = false := by simpa using hgt
      simp only [hgt2, Bool.false_eq_true, if_false]
      obtain ⟨hd, hm⟩ := ih h
      refine ⟨hd, ?_⟩
      intro z hz
      rcases List.mem_cons.1 hz with hz | hz
      · rw [hz]
        exact hd _ hgt2
      · exact hm z hz

/-- The inner loop swaps nothing when no agent behind position `i` is greater. -/
theorem innerPass_id (t : List ScoredAgent) (h : ScoredAgent)
    (hle : ∀ x ∈ t, F64.gt x.Score h.Score = false) : innerPass h t = (h, t) := by
  induction t with
  | nil => simp [innerPass]
  | cons x xs ih =>
    have hx : F64.gt x.Score h.Score = false := hle x (List.mem_cons_self _ _)
    have hxs := ih fun y hy => hle y (List.mem_cons_of_mem _ hy)
    unfold innerPass
    simp [hx, hxs]

theorem outerPass_perm (fuel : Nat) :
    ∀ l : List ScoredAgent, (outerPass fuel l).Perm l := by
  induction fuel with
  | zero =>
    intro l
    simp [outerPass]
  | succ f ih =>
    intro l
    cases l with
    | nil => simp [outerPass]
    | cons h t =>
      unfold outerPass
      exact ((ih _).cons _).trans (innerPass_perm t h)

theorem outerPass_pairwise (fuel : Nat) :
    ∀ l : List ScoredAgent, l.length ≤ fuel →
      (outerPass fuel l).Pairwise fun a b => F64.gt b.Score a.Score = false := by
  induction fuel with
  | zero =>
    intro l hl
    have : l = [] := List.length_eq_zero.1 (Nat.le_zero.1 hl)
    subst this
    simp [outerPass]
  | succ f ih =>
    intro l hl
    cases l with
    | nil => simp [outerPass]
    | cons h t =>
      unfold outerPass
      have hlen : (innerPass h t).2.length ≤ f := by
        rw [innerPass_length]
        simp at hl
        omega
      refine List.Pairwise.cons ?_ (ih _ hlen)
      intro x hx
      exact (innerPass_max t h).2 x ((outerPass_perm f _).mem_iff.1 hx)

theorem outerPass_id (fuel : Nat) :
    ∀ l : List ScoredAgent, (l.Pairwise fun a b => F64.gt b.Score a.Score = false) →
      outerPass fuel l = l := by
  induction fuel with
  | zero =>
    intro l _
    simp [outerPass]
  | succ f ih =>
    intro l hl
    cases l with
    | nil => simp [outerPass]
    | cons h t =>
      obtain ⟨hh, ht⟩ := List.pairwise_cons.1 hl
      unfold outerPass
      rw [innerPass_id t h hh]
      simp [ih t ht]

/-! ## Exclusion rules -/

/-- C1: `checkExclusion` applies the five rules in the fixed order (a) to (e) and reports the
first one that matches; it returns `(false, "")` exactly when no rule matches.  A rate-limited
agent over the context ceiling is reported as rate limited, and a generating agent is eligible
when `ExcludeIfGenerating` is off and no earlier rule matches. -/
theorem checkExclusion_first_match (config : RoutingConfig) (agent : ScoredAgent) :
    checkExclusion config agent = firstMatch (exclusionRules config agent)
    ∧ (checkExclusion config agent = (false, "")
        ↔ ∀ r ∈ exclusionRules config agent, r.1 = false)
    ∧ checkExclusion DefaultRoutingConfig
        { ScoredAgent.zero with
          State := StateWaiting, RateLimited := true, ContextUsage := F64.ofNat 90 }
        = (true, "agent is rate limited")
    ∧ checkExclusion { DefaultRoutingConfig with ExcludeIfGenerating := false }
        { ScoredAgent.zero with State := StateGenerating } = (false, "") := by
  refine ⟨?_, ?_, by decide!, by decide!⟩
  · unfold checkExclusion firstMatch exclusionRules
    by_cases h1 : agent.State = AgentState.Error
    · simp [h1, StateError]
    · by_cases h2 : agent.RateLimited = true <;> by_cases h2c : config.ExcludeIfRateLimited = true
        <;> by_cases h3 : agent.HealthState = "unhealthy"
        <;> by_cases h4 : F64.gt agent.ContextUsage config.ExcludeContextAbove = true
        <;> by_cases h5 : agent.State = AgentState.Generating
        <;> by_cases h5c : config.ExcludeIfGenerating = true
        <;> simp [h1, h2, h2c, h3, h4, h5, h5c, StateError, StateGenerating, HealthUnhealthy]
  · unfold checkExclusion exclusionRules
    by_cases h1 : agent.State = AgentState.Error
    · simp [h1, StateError]
    · by_cases h2 : agent.RateLimited = true <;> by_cases h2c : config.ExcludeIfRateLimited = true
        <;> by_cases h3 : agent.HealthState = "unhealthy"
        <;> by_cases h4 : F64.gt agent.ContextUsage config.ExcludeContextAbove = true
        <;> by_cases h5 : agent.State = AgentState.Generating
        <;> by_cases h5c : config.ExcludeIfGenerating = true
        <;> simp [h1, h2, h2c, h3, h4, h5, h5c, StateError, StateGenerating, HealthUnhealthy]

/-- C2: an agent in the Error state is excluded with reason "agent in ERROR state", whatever the
configuration toggles and whatever its other fields. -/
theorem checkExclusion_error_state (config : RoutingConfig) (agent : ScoredAgent)
    (h : agent.State = StateError) :
    checkExclusion config agent = (true, "agent in ERROR state") := by
  unfold checkExclusion
  simp [h]

/-- Witness of C2: all toggles off, context usage 0, not rate limited. -/
theorem checkExclusion_error_state_witness :
    ({ ScoredAgent.zero with State := StateError } : ScoredAgent).State = StateError
    ∧ checkExclusion
        { DefaultRoutingConfig with
          ExcludeIfErrorState := false, ExcludeIfGenerating := false,
          ExcludeIfRateLimited := false }
        { ScoredAgent.zero with State := StateError } = (true, "agent in ERROR state") :=
  ⟨rfl, checkExclusion_error_state _ _ rfl⟩

/-- The per-pane step sets score 0 on exclusion and keeps the breakdown computed before it. -/
theorem scorePane_fields (config : RoutingConfig) (now : Time) (prompt : String)
    (pane : Pane) (agentType : String) (activity : Activity) :
    ((scorePane config now prompt pane agentType activity).Excluded = true →
        (scorePane config now prompt pane agentType activity).Score = F64.ofNat 0)
    ∧ (scorePane config now prompt pane agentType activity).ScoreDetail
        = calculateScoreComponents config now (newScoredAgent pane agentType activity) prompt
    ∧ (scorePane config now prompt pane agentType activity).Excluded
        = (checkExclusion config
            { newScoredAgent pane agentType activity with
              ScoreDetail :=
                calculateScoreComponents config now (newScoredAgent pane agentType activity)
                  prompt }).1 := by
  unfold scorePane
  simp only []
  split
  · rename_i h
    simp [h]
  · rename_i h
    simp only [newScoredAgent, ScoredAgent.zero] at h ⊢
    simp [h]

/-- Every agent in the result of `ScoreAgents` was built by the per-pane step from some pane. -/
theorem ScoreAgents_mem {ε : Type} (config : RoutingConfig) (nowOf : Pane → Time)
    (panes : Except ε (List Pane)) (detect : String → String)
    (classify : Pane → String → Except ε Activity) (prompt : String)
    (scored : List ScoredAgent)
    (h : ScoreAgents config nowOf panes detect classify prompt = Except.ok scored)
    (a : ScoredAgent) (ha : a ∈ scored) :
    ∃ pane activity, a = scorePane config (nowOf pane) prompt pane (detect pane.Title) activity := by
  unfold ScoreAgents at h
  cases panes with
  | error e => cases h
  | ok ps =>
    simp only [Except.ok.injEq] at h
    subst h
    obtain ⟨pane, _, hp⟩ := List.mem_filterMap.1 ha
    by_cases hd : detect pane.Title = ""
    · simp [hd] at hp
    · simp only [hd, if_false] at hp
      cases hc : classify pane (detect pane.Title) with
      | error e =>
        rw [hc] at hp
        cases hp
      | ok activity =>
        rw [hc] at hp
        simp only [Option.some.injEq] at hp
        exact ⟨pane, activity, hp.symm⟩

/-- C3: the record built by the per-pane step of `ScoreAgents` has score 0 when it is excluded,
it is excluded exactly when `checkExclusion` says so, and in both cases its `ScoreDetail` is the
breakdown `calculateScoreComponents` computed before the exclusion check; every agent that
`ScoreAgents` returns is such a record, so it has score 0 when it is excluded. -/
theorem scorePane_excluded_score_zero (config : RoutingConfig) (now : Time) (prompt : String)
    (pane : Pane) (agentType : String) (activity : Activity) :
    ((scorePane config now prompt pane agentType activity).Excluded = true →
        (scorePane config now prompt pane agentType activity).Score = F64.ofNat 0)
    ∧ (scorePane config now prompt pane agentType activity).ScoreDetail
        = calculateScoreComponents config now (newScoredAgent pane agentType activity) prompt
    ∧ (scorePane config now prompt pane agentType activity).Excluded
        = (checkExclusion config
            { newScoredAgent pane agentType activity with
              ScoreDetail :=
                calculateScoreComponents config now (newScoredAgent pane agentType activity)
                  prompt }).1
    ∧ ∀ (ε : Type) (nowOf : Pane → Time) (panes : Except ε (List Pane))
        (detect : String → String) (classify : Pane → String → Except ε Activity)
        (scored : List ScoredAgent),
        ScoreAgents config nowOf panes detect classify prompt = Except.ok scored →
        ∀ a ∈ scored,
          (a.Excluded = true → a.Score = F64.ofNat 0)
          ∧ ∃ p act,
              a = scorePane config (nowOf p) prompt p (detect p.Title) act
              ∧ a.ScoreDetail
                = calculateScoreComponents config (nowOf p) (newScoredAgent p (detect p.Title) act)
                    prompt := by
  obtain ⟨h1, h2, h3⟩ := scorePane_fields config now prompt pane agentType activity
  refine ⟨h1, h2, h3, ?_⟩
  intro ε nowOf panes detect classify scored hs a ha
  obtain ⟨p, act, hp⟩ := ScoreAgents_mem config nowOf panes detect classify prompt scored hs a ha
  obtain ⟨k1, k2, _⟩ := scorePane_fields config (nowOf p) prompt p (detect p.Title) act
  subst hp
  exact ⟨k1, p, act, rfl, k2⟩

/-- Witness of C3: a pane whose agent is in the Error state is excluded and scores 0, with its
breakdown kept. -/
theorem scorePane_excluded_score_zero_witness :
    (scorePane DefaultRoutingConfig 0 "" ⟨"%1", "cc_1", 1⟩ "cc"
        ⟨StateError, F64.ofNat 1, F64.ofNat 0, 0⟩).Excluded = true
    ∧ (scorePane DefaultRoutingConfig 0 "" ⟨"%1", "cc_1", 1⟩ "cc"
        ⟨StateError, F64.ofNat 1, F64.ofNat 0, 0⟩).Score = F64.ofNat 0 :=
  ⟨by decide!,
   (scorePane_excluded_score_zero DefaultRoutingConfig 0 "" ⟨"%1", "cc_1", 1⟩ "cc"
      ⟨StateError, F64.ofNat 1, F64.ofNat 0, 0⟩).1 (by decide!)⟩

/-! ## Claims on `GetBestAgent` -/

/-- C6, as stated, fails when a score is NaN: on `nanFirstAgents` the agent returned has score
NaN, which is not greater than or equal to the score 5 of the other non-excluded agent. -/
theorem GetBestAgent_nan_not_ge :
    GetBestAgent nanFirstAgents = some (testAgent "cc_1" F64.nan false)
    ∧ testAgent "cc_2" (F64.ofNat 5) false ∈ nanFirstAgents
    ∧ (testAgent "cc_2" (F64.ofNat 5) false).Excluded = false
    ∧ F64.ge (testAgent "cc_1" F64.nan false).Score
        (testAgent "cc_2" (F64.ofNat 5) false).Score = false := by
  decide!

/-- C6, amended: `GetBestAgent` returns none exactly when the list holds no non-excluded agent;
otherwise it returns a non-excluded agent of the list whose score no non-excluded agent of the
list exceeds, and which is greater than or equal to all of them when no non-excluded score is NaN.
Excluded agents are ignored: on the four-agent test list the agent with score 80 is returned,
not the excluded one with score 100. -/
theorem GetBestAgent_highest (scored : List ScoredAgent) :
    (GetBestAgent scored = none ↔ ∀ a ∈ scored, a.Excluded = true)
    ∧ (∀ r, GetBestAgent scored = some r →
        r ∈ scored ∧ r.Excluded = false
        ∧ (∀ b ∈ scored, b.Excluded = false → F64.gt b.Score r.Score = false)
        ∧ ((∀ b ∈ scored, b.Excluded = false → b.Score.isNaN = false) →
            ∀ b ∈ scored, b.Excluded = false → F64.ge r.Score b.Score = true))
    ∧ GetBestAgent fourAgents = some (testAgent "cc_2" (F64.ofNat 80) false)
    ∧ GetBestAgent [] = none := by
  have hinv := GetBestAgentAt_inv scored
  refine ⟨?_, ?_, by decide!, by decide!⟩
  · unfold GetBestAgent
    cases hres : GetBestAgentAt scored with
    | none =>
      rw [hres] at hinv
      simpa using hinv
    | some p =>
      obtain ⟨bi, b⟩ := p
      rw [hres] at hinv
      obtain ⟨h1, h2, _, _⟩ := hinv
      have hmem : b ∈ scored := List.mem_iff_getElem?.2 ⟨bi, h1⟩
      simp only [Option.map_some', reduceCtorEq, false_iff]
      intro hall
      rw [hall b hmem] at h2
      cases h2
  · intro r hr
    unfold GetBestAgent at hr
    cases hres : GetBestAgentAt scored with
    | none =>
      rw [hres] at hr
      cases hr
    | some p =>
      obtain ⟨bi, b⟩ := p
      rw [hres] at hinv hr
      simp only [Option.map_some', Option.some.injEq] at hr
      subst hr
      obtain ⟨h1, h2, h3, _⟩ := hinv
      have hmem : b ∈ scored := List.mem_iff_getElem?.2 ⟨bi, h1⟩
      refine ⟨hmem, h2, h3, ?_⟩
      intro hnan x hx hxe
      exact F64.ge_of_gt_false (hnan x hx hxe) (hnan b hmem h2) (h3 x hx hxe)

/-- Witness of C6 (amended): the four-agent test list, whose scores are not NaN. -/
theorem GetBestAgent_highest_witness :
    GetBestAgent fourAgents = some (testAgent "cc_2" (F64.ofNat 80) false)
    ∧ (∀ b ∈ fourAgents, b.Excluded = false → b.Score.isNaN = false)
    ∧ (∀ b ∈ fourAgents, b.Excluded = false →
        F64.ge (testAgent "cc_2" (F64.ofNat 80) false).Score b.Score = true) :=
  ⟨by decide!, by decide!,
   ((GetBestAgent_highest fourAgents).2.1 _ (by decide!)).2.2.2 (by decide!)⟩

/-- C7: the agent `GetBestAgent` returns, at index `i`, is the first of those sharing the maximum:
it is not excluded, no non-excluded agent of the list has a greater score, and no non-excluded
agent at an earlier index has a score equal to or above its score. -/
theorem GetBestAgent_first_of_ties (scored : List ScoredAgent) (i : Nat) (r : ScoredAgent)
    (h : GetBestAgentAt scored = some (i, r)) :
    scored[i]? = some r ∧ GetBestAgent scored = some r ∧ r.Excluded = false
    ∧ (∀ b ∈ scored, b.Excluded = false → F64.gt b.Score r.Score = false)
    ∧ ∀ j a, j < i → scored[j]? = some a → a.Excluded = false →
        F64.ge a.Score r.Score = false := by
  have hinv := GetBestAgentAt_inv scored
  rw [h] at hinv
  obtain ⟨h1, h2, h3, h4⟩ := hinv
  refine ⟨h1, ?_, h2, h3, h4⟩
  simp [GetBestAgent, h]

/-- Witness of C7: of the two agents with the maximum score 80, at indices 1 and 3, the one at
index 1 is returned. -/
theorem GetBestAgent_first_of_ties_witness :
    GetBestAgentAt tiedAgents = some (1, testAgent "cc_2" (F64.ofNat 80) false)
    ∧ tiedAgents[3]? = some (testAgent "cc_4" (F64.ofNat 80) false)
    ∧ GetBestAgent tiedAgents = some (testAgent "cc_2" (F64.ofNat 80) false) :=
  ⟨by decide!, by decide!,
   (GetBestAgent_first_of_ties tiedAgents 1 (testAgent "cc_2" (F64.ofNat 80) false)
      (by decide!)).2.1⟩

/-! ## Claims on `GetAvailableAgents` -/

/-- C8: `GetAvailableAgents` returns a permutation of exactly the non-excluded agents of its
input, ordered so that the scores never increase from first to last: no agent has a greater score
than one before it, and each score is greater than or equal to all that follow when no
non-excluded score is NaN.  On the four-agent test list the result is the agents with scores
80, 60, 50, in that order. -/
theorem GetAvailableAgents_sorted_perm (scored : List ScoredAgent) :
    (GetAvailableAgents scored).Perm (scored.filter fun a => !a.Excluded)
    ∧ (∀ a, a ∈ GetAvailableAgents scored ↔ a ∈ scored ∧ a.Excluded = false)
    ∧ (GetAvailableAgents scored).Pairwise (fun a b => F64.gt b.Score a.Score = false)
    ∧ ((∀ a ∈ scored, a.Excluded = false → a.Score.isNaN = false) →
        (GetAvailableAgents scored).Pairwise fun a b => F64.ge a.Score b.Score = true)
    ∧ GetAvailableAgents fourAgents
        = [ testAgent "cc_2" (F64.ofNat 80) false,
            testAgent "cc_4" (F64.ofNat 60) false,
            testAgent "cc_1" (F64.ofNat 50) false ] := by
  have hperm : (GetAvailableAgents scored).Perm (scored.filter fun a => !a.Excluded) := by
    rw [GetAvailableAgents_eq_outerPass]
    exact outerPass_perm _ _
  have hmem : ∀ a, a ∈ GetAvailableAgents scored ↔ a ∈ scored ∧ a.Excluded = false := by
    intro a
    rw [hperm.mem_iff]
    simp [List.mem_filter]
  have hpw : (GetAvailableAgents scored).Pairwise
      (fun a b => F64.gt b.Score a.Score = false) := by
    rw [GetAvailableAgents_eq_outerPass]
    exact outerPass_pairwise _ _ (le_refl _)
  refine ⟨hperm, hmem, hpw, ?_, by decide!⟩
  intro hnan
  refine List.Pairwise.imp_of_mem ?_ hpw
  intro a b ha hb hgt
  have ha2 := (hmem a).1 ha
  have hb2 := (hmem b).1 hb
  exact F64.ge_of_gt_false (hnan b hb2.1 hb2.2) (hnan a ha2.1 ha2.2) hgt

/-- Witness of C8: the four-agent test list has no NaN score, and its result is ordered by
greater-or-equal. -/
theorem GetAvailableAgents_sorted_perm_witness :
    (∀ a ∈ fourAgents, a.Excluded = false → a.Score.isNaN = false)
    ∧ (GetAvailableAgents fourAgents).Pairwise fun a b => F64.ge a.Score b.Score = true :=
  ⟨by decide!, (GetAvailableAgents_sorted_perm fourAgents).2.2.2.1 (by decide!)⟩

/-- C9, as stated, fails: in `unstableAgents` the agent cc_1 comes before cc_2 and both have
score 50, yet in the result cc_2 comes before cc_1 (the swap with the agent of score 80 moves cc_1
behind cc_2). -/
theorem GetAvailableAgents_not_stable :
    unstableAgents.indexOf (testAgent "cc_1" (F64.ofNat 50) false)
      < unstableAgents.indexOf (testAgent "cc_2" (F64.ofNat 50) false)
    ∧ (testAgent "cc_1" (F64.ofNat 50) false).Score
        = (testAgent "cc_2" (F64.ofNat 50) false).Score
    ∧ (testAgent "cc_1" (F64.ofNat 50) false).Excluded = false
    ∧ (testAgent "cc_2" (F64.ofNat 50) false).Excluded = false
    ∧ GetAvailableAgents unstableAgents
        = [ testAgent "cc_3" (F64.ofNat 80) false,
            testAgent "cc_2" (F64.ofNat 50) false,
            testAgent "cc_1" (F64.ofNat 50) false ]
    ∧ (GetAvailableAgents unstableAgents).indexOf (testAgent "cc_2" (F64.ofNat 50) false)
      < (GetAvailableAgents unstableAgents).indexOf (testAgent "cc_1" (F64.ofNat 50) false) := by
  decide!

/-- C9, amended: when the non-excluded agents already stand in an order in which no agent has a
greater score than one before it, `GetAvailableAgents` returns them in exactly their input order,
so agents with equal scores keep their relative order. -/
theorem GetAvailableAgents_ordered_input (scored : List ScoredAgent)
    (h : (scored.filter fun a => !a.Excluded).Pairwise
      fun a b => F64.gt b.Score a.Score = false) :
    GetAvailableAgents scored = scored.filter fun a => !a.Excluded := by
  rw [GetAvailableAgents_eq_outerPass]
  exact outerPass_id _ _ h

/-- Witness of C9 (amended): scores 80, 50, 50 come back in input order. -/
theorem GetAvailableAgents_ordered_input_witness :
    ((orderedAgents.filter fun a => !a.Excluded).Pairwise
      fun a b => F64.gt b.Score a.Score = false)
    ∧ GetAvailableAgents orderedAgents = orderedAgents :=
  ⟨by decide!, GetAvailableAgents_ordered_input orderedAgents (by decide!)⟩

/-! ## Claims on the final score -/

/-- The three steps of `calculateFinalScore`: sum, clamp, round. -/
theorem calculateFinalScore_eq (agent : ScoredAgent) :
    calculateFinalScore agent
      = roundTo2Decimals
          (F64.clamp
            (F64.add
              (F64.add (F64.add agent.ScoreDetail.ContextContrib agent.ScoreDetail.StateContrib)
                agent.ScoreDetail.RecencyContrib)
              agent.ScoreDetail.AffinityBonus)
            (F64.ofNat 0) (F64.ofNat 100)) := by
  unfold calculateFinalScore roundTo2Decimals F64.clamp
  simp only []
  generalize F64.add
      (F64.add (F64.add agent.ScoreDetail.ContextContrib agent.ScoreDetail.StateContrib)
        agent.ScoreDetail.RecencyContrib)
      agent.ScoreDetail.AffinityBonus = s
  have k1 : F64.lt (F64.ofNat 100) (F64.ofNat 0) = false := by decide!
  by_cases hgt : F64.gt s (F64.ofNat 100) = true
  · have hlt : F64.lt s (F64.ofNat 0) = false := by
      have h0 : (F64.ofNat 0).key < (F64.ofNat 100).key := by decide!
      rw [F64.gt_iff] at hgt
      rw [← Bool.not_eq_true, F64.lt_iff]
      rintro ⟨_, _, h⟩
      omega
    simp only [hgt, if_true, k1, hlt, Bool.false_eq_true, if_false]
  · have hgt2 : F64.gt s (F64.ofNat 100) = false := by simpa using hgt
    simp only [hgt2, Bool.false_eq_true, if_false]

/-- C4: `calculateFinalScore` is the sum `ContextContrib + StateContrib + RecencyContrib +
AffinityBonus` of the agent's `ScoreDetail`, clamped to `[0, 100]` and rounded to 2 decimal
places; contributions 32, 40, 10 without affinity bonus give exactly 82. -/
theorem calculateFinalScore_clamp_round (agent : ScoredAgent) :
    calculateFinalScore agent
      = roundTo2Decimals
          (F64.clamp
            (F64.add
              (F64.add (F64.add agent.ScoreDetail.ContextContrib agent.ScoreDetail.StateContrib)
                agent.ScoreDetail.RecencyContrib)
              agent.ScoreDetail.AffinityBonus)
            (F64.ofNat 0) (F64.ofNat 100))
    ∧ calculateFinalScore
        { ScoredAgent.zero with
          ScoreDetail :=
            { ScoreBreakdown.zero with
              ContextScore := F64.ofNat 80
              StateScore := F64.ofNat 100
              RecencyScore := F64.ofNat 50
              ContextContrib := F64.ofNat 32
              StateContrib := F64.ofNat 40
              RecencyContrib := F64.ofNat 10 } }
        = F64.ofNat 82 :=
  ⟨calculateFinalScore_eq agent, by decide!⟩

/-- C5, as stated, fails: the weights 1e308, -1e308 and 1 sum to exactly 1.0, the agent (context
usage 0, Waiting) is eligible, yet the context and state contributions overflow to `+Inf` and
`-Inf`, their sum is NaN, and so is the final score: neither `0 <= score` nor `score <= 100`
holds. -/
theorem finalScore_nan_with_unit_weight_sum :
    F64.add
        (F64.add (F64.lit (10 ^ 308) 1) (F64.fneg (F64.lit (10 ^ 308) 1)))
        (F64.ofNat 1) = F64.ofNat 1
    ∧ (scorePane
        { DefaultRoutingConfig with
          ContextWeight := F64.lit (10 ^ 308) 1
          StateWeight := F64.fneg (F64.lit (10 ^ 308) 1)
          RecencyWeight := F64.ofNat 1 }
        0 "" ⟨"%1", "cc_1", 1⟩ "cc" ⟨StateWaiting, F64.ofNat 1, F64.ofNat 0, 0⟩).Excluded = false
    ∧ F64.le (F64.ofNat 0)
        (scorePane
          { DefaultRoutingConfig with
            ContextWeight := F64.lit (10 ^ 308) 1
            StateWeight := F64.fneg (F64.lit (10 ^ 308) 1)
            RecencyWeight := F64.ofNat 1 }
          0 "" ⟨"%1", "cc_1", 1⟩ "cc" ⟨StateWaiting, F64.ofNat 1, F64.ofNat 0, 0⟩).Score = false
    ∧ F64.le
        (scorePane
          { DefaultRoutingConfig with
            ContextWeight := F64.lit (10 ^ 308) 1
            StateWeight := F64.fneg (F64.lit (10 ^ 308) 1)
            RecencyWeight := F64.ofNat 1 }
          0 "" ⟨"%1", "cc_1", 1⟩ "cc" ⟨StateWaiting, F64.ofNat 1, F64.ofNat 0, 0⟩).Score
        (F64.ofNat 100) = false := by
  decide!

/-- C5, amended: for every configuration and agent (whatever the weights, eligible or not), when
the sum of the weighted contributions and the affinity bonus computed by
`calculateScoreComponents` is not NaN, the final score satisfies `0 <= score <= 100`; when the sum
is NaN the final score is NaN. -/
theorem finalScore_in_range (config : RoutingConfig) (now : Time) (agent : ScoredAgent)
    (prompt : String) :
    ((F64.add
        (F64.add
          (F64.add (calculateScoreComponents config now agent prompt).ContextContrib
            (calculateScoreComponents config now agent prompt).StateContrib)
          (calculateScoreComponents config now agent prompt).RecencyContrib)
        (calculateScoreComponents config now agent prompt).AffinityBonus).isNaN = false →
      F64.le (F64.ofNat 0)
          (calculateFinalScore
            { agent with ScoreDetail := calculateScoreComponents config now agent prompt }) = true
      ∧ F64.le
          (calculateFinalScore
            { agent with ScoreDetail := calculateScoreComponents config now agent prompt })
          (F64.ofNat 100) = true)
    ∧ ((F64.add
        (F64.add
          (F64.add (calculateScoreComponents config now agent prompt).ContextContrib
            (calculateScoreComponents config now agent prompt).StateContrib)
          (calculateScoreComponents config now agent prompt).RecencyContrib)
        (calculateScoreComponents config now agent prompt).AffinityBonus).isNaN = true →
      (calculateFinalScore
        { agent with ScoreDetail := calculateScoreComponents config now agent prompt }).isNaN
        = true) := by
  rw [calculateFinalScore_eq]
  simp only []
  generalize F64.add
      (F64.add
        (F64.add (calculateScoreComponents config now agent prompt).ContextContrib
          (calculateScoreComponents config now agent prompt).StateContrib)
        (calculateScoreComponents config now agent prompt).RecencyContrib)
      (calculateScoreComponents config now agent prompt).AffinityBonus = s
  have k0 : (F64.ofNat 0).isNaN = false := by decide!
  have k100 : (F64.ofNat 100).isNaN = false := by decide!
  constructor
  · intro hn
    apply roundTo2Decimals_range
    · unfold F64.clamp
      split
      · exact k0
      · split
        · exact k100
        · exact hn
    · unfold F64.clamp
      split
      · decide!
      · rename_i h
        split
        · decide!
        · simpa using h
    · unfold F64.clamp
      split
      · decide!
      · split
        · decide!
        · rename_i h
          simpa using h
  · intro hn
    apply roundTo2Decimals_nan
    have h1 : F64.lt s (F64.ofNat 0) = false := by
      rw [← Bool.not_eq_true, F64.lt_iff]
      rintro ⟨h, _, _⟩
      rw [hn] at h
      cases h
    have h2 : F64.gt s (F64.ofNat 100) = false := by
      rw [← Bool.not_eq_true, F64.gt_iff]
      rintro ⟨h, _, _⟩
      rw [hn] at h
      cases h
    unfold F64.clamp
    simp only [h1, h2, Bool.false_eq_true, if_false]
    exact hn

/-- Witness of C5 (amended): default weights, context usage 30, Waiting, idle for 10 minutes. -/
theorem finalScore_in_range_witness :
    F64.le (F64.ofNat 0)
        (calculateFinalScore
          { ({ ScoredAgent.zero with
                ContextUsage := F64.ofNat 30, State := StateWaiting,
                LastActivity := 1000 * Minute } : ScoredAgent) with
            ScoreDetail :=
              calculateScoreComponents DefaultRoutingConfig (1010 * Minute)
                { ScoredAgent.zero with
                  ContextUsage := F64.ofNat 30, State := StateWaiting,
                  LastActivity := 1000 * Minute } "" }) = true
    ∧ F64.le
        (calculateFinalScore
          { ({ ScoredAgent.zero with
                ContextUsage := F64.ofNat 30, State := StateWaiting,
                LastActivity := 1000 * Minute } : ScoredAgent) with
            ScoreDetail :=
              calculateScoreComponents DefaultRoutingConfig (1010 * Minute)
                { ScoredAgent.zero with
                  ContextUsage := F64.ofNat 30, State := StateWaiting,
                  LastActivity := 1000 * Minute } "" })
        (F64.ofNat 100) = true :=
  (finalScore_in_range DefaultRoutingConfig (1010 * Minute)
    { ScoredAgent.zero with
      ContextUsage := F64.ofNat 30, State := StateWaiting, LastActivity := 1000 * Minute }
    "").1 (by decide!)

/-! ## Claims on the score components -/

/-- C10: the breakdown of `calculateScoreComponents`: `ContextScore = max(0, 100 - ContextUsage)`,
`StateScore = (stateToScore(State) + 100) / 2`, `RecencyScore = recencyToScore(LastActivity)`,
each contribution is the component times its weight, and the affinity bonus is 0 unless affinity
is enabled and the prompt is non-empty.  For context usage 30, Waiting, 10 minutes idle and the
default weights the components are 70, 100, 80 and the contributions 28, 40, 16. -/
theorem calculateScoreComponents_formulas (config : RoutingConfig) (now : Time)
    (agent : ScoredAgent) (prompt : String) :
    (calculateScoreComponents config now agent prompt).ContextScore
      = F64.max (F64.ofNat 0) (F64.sub (F64.ofNat 100) agent.ContextUsage)
    ∧ (calculateScoreComponents config now agent prompt).StateScore
      = F64.div (F64.add (stateToScore agent.State) (F64.ofNat 100)) (F64.ofNat 2)
    ∧ (calculateScoreComponents config now agent prompt).RecencyScore
      = recencyToScore now agent.LastActivity
    ∧ (calculateScoreComponents config now agent prompt).ContextContrib
      = F64.mul (calculateScoreComponents config now agent prompt).ContextScore
          config.ContextWeight
    ∧ (calculateScoreComponents config now agent prompt).StateContrib
      = F64.mul (calculateScoreComponents config now agent prompt).StateScore config.StateWeight
    ∧ (calculateScoreComponents config now agent prompt).RecencyContrib
      = F64.mul (calculateScoreComponents config now agent prompt).RecencyScore
          config.RecencyWeight
    ∧ (calculateScoreComponents config now agent prompt).AffinityBonus
      = (if config.AffinityEnabled = true ∧ prompt ≠ "" then calculateAffinity agent prompt
          else F64.ofNat 0)
    ∧ calculateScoreComponents DefaultRoutingConfig (1010 * Minute)
        { ScoredAgent.zero with
          ContextUsage := F64.ofNat 30, State := StateWaiting, LastActivity := 1000 * Minute } ""
      = { ContextScore := F64.ofNat 70
          StateScore := F64.ofNat 100
          RecencyScore := F64.ofNat 80
          AffinityBonus := F64.ofNat 0
          ContextContrib := F64.ofNat 28
          StateContrib := F64.ofNat 40
          RecencyContrib := F64.ofNat 16 } := by
  refine ⟨?_, ?_, ?_, ?_, ?_, ?_, ?_, by decide!⟩
  · unfold calculateScoreComponents
    simp only []
    exact contextScore_eq_max agent.ContextUsage
  · unfold calculateScoreComponents
    simp only []
  · unfold calculateScoreComponents
    simp only []
  · unfold calculateScoreComponents
    simp only []
  · unfold calculateScoreComponents
    simp only []
  · unfold calculateScoreComponents
    simp only []
  · unfold calculateScoreComponents
    simp only [ScoreBreakdown.zero, F64.ofNat_zero]
    by_cases h1 : config.AffinityEnabled = true <;> by_cases h2 : prompt = ""
      <;> simp only [h1, h2, calculateAffinity, F64.ofNat_zero, Bool.true_and, Bool.false_and,
        Bool.false_eq_true, bne_self_eq_false, if_false, ne_eq, not_true_eq_false, and_false,
        false_and, true_and, not_false_eq_true, if_true, bne_iff_ne, and_self]

/-! ## Claims on the state, recency and health tables -/

/-- C11: `stateToScore` maps Waiting to 100, Thinking to 50, Generating to 0, Stalled to -50,
Error to -100 and Unknown to 25; for every state the normalized state score `(raw + 100) / 2`,
which is the `StateScore` of the breakdown, lies in `[0, 100]`; it is exactly 100 for Waiting and
exactly 0 for Error. -/
theorem stateToScore_table :
    stateToScore StateWaiting = F64.ofNat 100
    ∧ stateToScore StateThinking = F64.ofNat 50
    ∧ stateToScore StateGenerating = F64.ofNat 0
    ∧ stateToScore StateStalled = F64.fneg (F64.ofNat 50)
    ∧ stateToScore StateError = F64.fneg (F64.ofNat 100)
    ∧ stateToScore StateUnknown = F64.ofNat 25
    ∧ (∀ state : AgentState,
        F64.le (F64.ofNat 0) (normalizedStateScore state) = true
        ∧ F64.le (normalizedStateScore state) (F64.ofNat 100) = true)
    ∧ normalizedStateScore StateWaiting = F64.ofNat 100
    ∧ normalizedStateScore StateError = F64.ofNat 0
    ∧ ∀ (config : RoutingConfig) (now : Time) (agent : ScoredAgent) (prompt : String),
        (calculateScoreComponents config now agent prompt).StateScore
          = normalizedStateScore agent.State := by
  refine ⟨by decide!, by decide!, by decide!, by decide!, by decide!, by decide!, ?_, by decide!,
    by decide!, ?_⟩
  · intro state
    cases state with
    | Waiting => decide!
    | Thinking => decide!
    | Generating => decide!
    | Stalled => decide!
    | Error => decide!
    | Unknown => decide!
    | other raw =>
      have e : normalizedStateScore (AgentState.other raw)
          = normalizedStateScore StateGenerating := by
        unfold normalizedStateScore stateToScore
        simp only []
      rw [e]
      decide!
  · intro config now agent prompt
    unfold calculateScoreComponents normalizedStateScore
    simp only []

theorem maxDuration_eq : maxDuration = (9223372036854775807 : Int) := by decide

theorem minDuration_eq : minDuration = (-9223372036854775808 : Int) := by decide

theorem Minute_eq : Minute = (60000000000 : Int) := by decide

theorem Second_eq : Second = (1000000000 : Int) := by decide

/-- Saturation of `time.Since` does not move an age across a threshold that is a `Duration`. -/
theorem Since_lt_iff (now t d : Int) (h1 : (-9223372036854775808 : Int) < d)
    (h2 : d ≤ (9223372036854775807 : Int)) :
    Since now t < d ↔ now - t < d := by
  unfold Since
  rw [maxDuration_eq, minDuration_eq]
  dsimp only [Duration, Time]
  split_ifs with c1 c2
  · constructor <;> intro h <;> omega
  · constructor <;> intro h <;> omega
  · rfl

theorem recencyToScore_eq_bucket (now lastActivity : Time) :
    recencyToScore now lastActivity = recencyBucket now lastActivity := by
  have e1 := Since_lt_iff now lastActivity Minute (by decide) (by decide)
  have e5 := Since_lt_iff now lastActivity (5 * Minute) (by decide) (by decide)
  have e30 := Since_lt_iff now lastActivity (30 * Minute) (by decide) (by decide)
  unfold recencyToScore recencyBucket Time.IsZero
  simp only [decide_eq_true_eq, e1, e5, e30]

/-- C12: `recencyToScore` returns 50 for the zero timestamp and otherwise, with
`age = now - lastActivity`, 20 below 1 minute, 50 from 1 minute to below 5 minutes, 80 from
5 minutes to below 30 minutes and 70 from 30 minutes on; exactly 1, 5 and 30 minutes give 50, 80
and 70, and the ages 30 s, 3 min, 10 min, 1 h of the test give 20, 50, 80, 70. -/
theorem recencyToScore_buckets (now lastActivity : Time) :
    recencyToScore now lastActivity = recencyBucket now lastActivity
    ∧ recencyToScore now 0 = F64.ofNat 50
    ∧ (lastActivity ≠ 0 →
        recencyToScore (lastActivity + Minute) lastActivity = F64.ofNat 50
        ∧ recencyToScore (lastActivity + 5 * Minute) lastActivity = F64.ofNat 80
        ∧ recencyToScore (lastActivity + 30 * Minute) lastActivity = F64.ofNat 70
        ∧ recencyToScore (lastActivity + 30 * Second) lastActivity = F64.ofNat 20
        ∧ recencyToScore (lastActivity + 3 * Minute) lastActivity = F64.ofNat 50
        ∧ recencyToScore (lastActivity + 10 * Minute) lastActivity = F64.ofNat 80
        ∧ recencyToScore (lastActivity + 60 * Minute) lastActivity = F64.ofNat 70) := by
  refine ⟨recencyToScore_eq_bucket now lastActivity, ?_, ?_⟩
  · rw [recencyToScore_eq_bucket]
    unfold recencyBucket
    simp only [if_true]
  · intro h
    simp only [recencyToScore_eq_bucket]
    unfold recencyBucket
    simp only [h, if_false]
    rw [Minute_eq, Second_eq]
    dsimp only [Duration, Time] at *
    refine ⟨?_, ?_, ?_, ?_, ?_, ?_, ?_⟩ <;> split_ifs <;> first | omega | rfl

/-- Witness of C12: a non-zero timestamp, read exactly 5 minutes later. -/
theorem recencyToScore_buckets_witness :
    (1000 * Minute : Time) ≠ 0
    ∧ recencyToScore (1000 * Minute + 5 * Minute) (1000 * Minute) = F64.ofNat 80 :=
  ⟨by decide, ((recencyToScore_buckets 0 (1000 * Minute)).2.2 (by decide)).2.1⟩

/-- C16: `deriveHealthState` depends on the activity state alone: it is Unhealthy exactly for
Error, Degraded exactly for Stalled, Healthy for every other state, and never rate_limited. -/
theorem deriveHealthState_table (state : AgentState) :
    (deriveHealthState state = HealthUnhealthy ↔ state = StateError)
    ∧ (deriveHealthState state = HealthDegraded ↔ state = StateStalled)
    ∧ (deriveHealthState state = HealthHealthy ↔ (state ≠ StateError ∧ state ≠ StateStalled))
    ∧ deriveHealthState state ≠ HealthRateLimited
    ∧ deriveHealthState StateWaiting = HealthHealthy
    ∧ deriveHealthState StateThinking = HealthHealthy
    ∧ deriveHealthState StateGenerating = HealthHealthy
    ∧ deriveHealthState StateUnknown = HealthHealthy
    ∧ deriveHealthState StateStalled = HealthDegraded
    ∧ deriveHealthState StateError = HealthUnhealthy := by
  cases state <;>
    simp [deriveHealthState, HealthHealthy, HealthDegraded, HealthUnhealthy, HealthRateLimited]

/-! ## Case folding -/

theorem foldLoop_pos (table : Nat → Nat) (lo hi fuel r : Nat) (h : 0 < fuel) :
    foldLoop table lo hi fuel r
      = if r ≠ lo ∧ r < hi then foldLoop table lo hi (fuel - 1) (SimpleFold table r)
        else decide (r = hi) := by
  cases fuel with
  | zero => omega
  | succ f => rfl

/-- Between ASCII runes `strings.EqualFold` compares the lower-case forms. -/
theorem runeEqualFold_ascii (table : Nat → Nat) (sr tr : Nat) (hs : sr < 128) (ht : tr < 128) :
    runeEqualFold table sr tr = decide (asciiLower sr = asciiLower tr) := by
  unfold runeEqualFold asciiLower
  by_cases h1 : tr = sr
  · subst h1
    simp
  · simp only [h1, if_false]
    by_cases h2 : tr < sr
    · simp only [h2, if_true, hs]
      rw [decide_eq_decide]
      constructor
      · rintro ⟨a, b, c⟩
        split_ifs <;> omega
      · intro h
        split_ifs at h <;> omega
    · simp only [h2, if_false, ht, if_true]
      rw [decide_eq_decide]
      constructor
      · rintro ⟨a, b, c⟩
        split_ifs <;> omega
      · intro h
        split_ifs at h <;> omega

theorem EqualFoldRunes_ascii (table : Nat → Nat) (s : List Nat) :
    ∀ t : List Nat, (∀ r ∈ s, r < 128) → (∀ r ∈ t, r < 128) →
      EqualFoldRunes table s t = decide (s.map asciiLower = t.map asciiLower) := by
  induction s with
  | nil =>
    intro t _ _
    cases t <;> simp [EqualFoldRunes]
  | cons sr s ih =>
    intro t hs ht
    cases t with
    | nil => simp [EqualFoldRunes]
    | cons tr t =>
      have h1 := runeEqualFold_ascii table sr tr (hs sr (List.mem_cons_self _ _))
        (ht tr (List.mem_cons_self _ _))
      have h2 := ih t (fun r hr => hs r (List.mem_cons_of_mem _ hr))
        (fun r hr => ht r (List.mem_cons_of_mem _ hr))
      unfold EqualFoldRunes
      rw [h1, h2]
      simp only [List.map_cons, List.cons.injEq]
      by_cases c1 : asciiLower sr = asciiLower tr <;>
        by_cases c2 : List.map asciiLower s = List.map asciiLower t <;> simp [c1, c2]

theorem foldLoop_step (table : Nat → Nat) (lo hi fuel r : Nat) (h : 0 < fuel) (h1 : r ≠ lo)
    (h2 : r < hi) :
    foldLoop table lo hi fuel r = foldLoop table lo hi (fuel - 1) (SimpleFold table r) := by
  rw [foldLoop_pos _ _ _ _ _ h, if_pos ⟨h1, h2⟩]

theorem foldLoop_stop (table : Nat → Nat) (lo hi fuel r : Nat) (h : 0 < fuel)
    (h1 : r = lo ∨ hi ≤ r) :
    foldLoop table lo hi fuel r = decide (r = hi) := by
  rw [foldLoop_pos _ _ _ _ _ h, if_neg]
  rintro ⟨a, b⟩
  rcases h1 with h1 | h1
  · exact a h1
  · omega

theorem runeEqualFold_nonascii (table : Nat → Nat) (a c : Nat) (ha : 128 ≤ a) (hc : c < 128) :
    runeEqualFold table a c = foldLoop table c a 1114112 (SimpleFold table c) := by
  unfold runeEqualFold
  have c1 : ¬ c = a := by omega
  have c2 : c < a := by omega
  have c3 : ¬ a < 128 := by omega
  simp only [c1, c2, c3, if_false, if_true]

/-- A rune that is not ASCII folds to an upper-case ASCII letter exactly when it folds to the
lower-case one. -/
theorem runeEqualFold_upper_lower (table : Nat → Nat) (a l : Nat) (ha : 128 ≤ a)
    (hl : 65 ≤ l ∧ l ≤ 90) :
    runeEqualFold table a l = runeEqualFold table a (l + 32) := by
  have f1 : SimpleFold table l = l + 32 := by
    unfold SimpleFold
    rw [if_pos hl]
  rw [runeEqualFold_nonascii table a l ha (by omega),
    runeEqualFold_nonascii table a (l + 32) ha (by omega), f1]
  by_cases k : l = 75
  · subst k
    have f2 : SimpleFold table (75 + 32) = 8490 := by
      unfold SimpleFold
      simp
    have f3 : SimpleFold table 8490 = 75 := by
      unfold SimpleFold
      simp
    have f5 : SimpleFold table 75 = 75 + 32 := f1
    rw [foldLoop_step table 75 a _ (75 + 32) (by norm_num) (by omega) (by omega), f2]
    by_cases k2 : 8490 < a
    · rw [foldLoop_step table 75 a _ 8490 (by norm_num) (by omega) k2, f3,
        foldLoop_stop table 75 a _ 75 (by norm_num) (Or.inl rfl),
        foldLoop_step table (75 + 32) a _ 8490 (by norm_num) (by omega) k2, f3,
        foldLoop_step table (75 + 32) a _ 75 (by norm_num) (by omega) (by omega), f5,
        foldLoop_stop table (75 + 32) a _ (75 + 32) (by norm_num) (Or.inl rfl)]
      rw [decide_eq_decide]
      omega
    · rw [foldLoop_stop table 75 a _ 8490 (by norm_num) (Or.inr (by omega)),
        foldLoop_stop table (75 + 32) a _ 8490 (by norm_num) (Or.inr (by omega))]
  · by_cases k' : l = 83
    · subst k'
      have f2 : SimpleFold table (83 + 32) = 383 := by
        unfold SimpleFold
        simp
      have f3 : SimpleFold table 383 = 83 := by
        unfold SimpleFold
        simp
      have f5 : SimpleFold table 83 = 83 + 32 := f1
      rw [foldLoop_step table 83 a _ (83 + 32) (by norm_num) (by omega) (by omega), f2]
      by_cases k2 : 383 < a
      · rw [foldLoop_step table 83 a _ 383 (by norm_num) (by omega) k2, f3,
          foldLoop_stop table 83 a _ 83 (by norm_num) (Or.inl rfl),
          foldLoop_step table (83 + 32) a _ 383 (by norm_num) (by omega) k2, f3,
          foldLoop_step table (83 + 32) a _ 83 (by norm_num) (by omega) (by omega), f5,
          foldLoop_stop table (83 + 32) a _ (83 + 32) (by norm_num) (Or.inl rfl)]
        rw [decide_eq_decide]
        omega
      · rw [foldLoop_stop table 83 a _ 383 (by norm_num) (Or.inr (by omega)),
          foldLoop_stop table (83 + 32) a _ 383 (by norm_num) (Or.inr (by omega))]
    · have f2 : SimpleFold table (l + 32) = l := by
        unfold SimpleFold
        split_ifs <;> omega
      rw [foldLoop_step table l a _ (l + 32) (by norm_num) (by omega) (by omega), f2,
        foldLoop_stop table l a _ l (by norm_num) (Or.inl rfl),
        foldLoop_step table (l + 32) a _ l (by norm_num) (by omega) (by omega), f1,
        foldLoop_stop table (l + 32) a _ (l + 32) (by norm_num) (Or.inl rfl)]
      rw [decide_eq_decide]
      omega

/-- Two ASCII runes with the same lower-case form are matched by the same runes. -/
theorem runeEqualFold_same_lower (table : Nat → Nat) (a c1 c2 : Nat) (h1 : c1 < 128)
    (h2 : c2 < 128) (h : asciiLower c1 = asciiLower c2) :
    runeEqualFold table a c1 = runeEqualFold table a c2 := by
  by_cases ha : a < 128
  · rw [runeEqualFold_ascii table a c1 ha h1, runeEqualFold_ascii table a c2 ha h2, h]
  · by_cases e : c1 = c2
    · rw [e]
    · unfold asciiLower at h
      by_cases u1 : 65 ≤ c1 ∧ c1 ≤ 90
      · have e2 : c2 = c1 + 32 := by
          split_ifs at h <;> omega
        rw [e2]
        exact runeEqualFold_upper_lower table a c1 (by omega) u1
      · have u2 : 65 ≤ c2 ∧ c2 ≤ 90 := by
          split_ifs at h <;> omega
        have e2 : c1 = c2 + 32 := by
          split_ifs at h
          omega
        rw [e2]
        exact (runeEqualFold_upper_lower table a c2 (by omega) u2).symm

theorem EqualFoldRunes_same_lower (table : Nat → Nat) (s : List Nat) :
    ∀ t1 t2 : List Nat, (∀ r ∈ t1, r < 128) → (∀ r ∈ t2, r < 128) →
      t1.map asciiLower = t2.map asciiLower →
      EqualFoldRunes table s t1 = EqualFoldRunes table s t2 := by
  induction s with
  | nil =>
    intro t1 t2 _ _ h
    cases t1 <;> cases t2 <;> simp_all [EqualFoldRunes]
  | cons sr s ih =>
    intro t1 t2 h1 h2 h
    cases t1 with
    | nil =>
      cases t2 with
      | nil => rfl
      | cons _ _ => simp at h
    | cons c1 t1 =>
      cases t2 with
      | nil => simp at h
      | cons c2 t2 =>
        simp only [List.map_cons, List.cons.injEq] at h
        unfold EqualFoldRunes
        rw [runeEqualFold_same_lower table sr c1 c2 (h1 c1 (List.mem_cons_self _ _))
            (h2 c2 (List.mem_cons_self _ _)) h.1,
          ih t1 t2 (fun r hr => h1 r (List.mem_cons_of_mem _ hr))
            (fun r hr => h2 r (List.mem_cons_of_mem _ hr)) h.2]

theorem runes_eq_nil {s : String} (h : runes s = []) : s = "" := by
  unfold runes at h
  have h2 : s.toList = [] := List.map_eq_nil_iff.1 h
  exact String.ext h2

/-- C13: for a non-empty type string `FilterByType` keeps, in input order, exactly the agents
whose `AgentType` equals it under `strings.EqualFold`, which between ASCII strings is equality of
the lower-case forms; two ASCII filters that differ only in letter case, such as "CC" and "cc",
give the same result on every agent list; the empty type string returns the input unchanged.  On
the test agents "cc" and "CC" both select the two agents of type cc. -/
theorem FilterByType_case_insensitive (table : Nat → Nat) (agents : List ScoredAgent)
    (agentType : String) :
    (agentType ≠ "" →
      FilterByType table agents agentType
        = agents.filter fun a => EqualFold table a.AgentType agentType)
    ∧ FilterByType table agents "" = agents
    ∧ (∀ s : String, (∀ r ∈ runes s, r < 128) → (∀ r ∈ runes agentType, r < 128) →
        EqualFold table s agentType
          = decide ((runes s).map asciiLower = (runes agentType).map asciiLower))
    ∧ (∀ other : String, (∀ r ∈ runes agentType, r < 128) → (∀ r ∈ runes other, r < 128) →
        (runes agentType).map asciiLower = (runes other).map asciiLower →
        FilterByType table agents agentType = FilterByType table agents other)
    ∧ FilterByType table agents "CC" = FilterByType table agents "cc"
    ∧ (FilterByType table typedAgents "cc").map (fun a => a.PaneID) = ["cc_1", "cc_2"]
    ∧ (FilterByType table typedAgents "CC").map (fun a => a.PaneID) = ["cc_1", "cc_2"]
    ∧ FilterByType table typedAgents "" = typedAgents := by
  have hsame : ∀ t1 t2 : String, (∀ r ∈ runes t1, r < 128) → (∀ r ∈ runes t2, r < 128) →
      (runes t1).map asciiLower = (runes t2).map asciiLower →
      FilterByType table agents t1 = FilterByType table agents t2 := by
    intro t1 t2 h1 h2 h
    unfold FilterByType
    by_cases e1 : t1 = ""
    · have e2 : t2 = "" := by
        apply runes_eq_nil
        rw [e1] at h
        have : runes "" = [] := by decide
        rw [this] at h
        exact List.map_eq_nil_iff.1 h.symm
      simp only [e1, e2, if_true]
    · have e2 : ¬ t2 = "" := by
        intro e2
        apply e1
        apply runes_eq_nil
        rw [e2] at h
        have : runes "" = [] := by decide
        rw [this] at h
        exact List.map_eq_nil_iff.1 h
      simp only [e1, e2, if_false]
      congr 1
      funext a
      exact EqualFoldRunes_same_lower table _ _ _ h1 h2 h
  have hascii : ∀ s t : String, (∀ r ∈ runes s, r < 128) → (∀ r ∈ runes t, r < 128) →
      EqualFold table s t = decide ((runes s).map asciiLower = (runes t).map asciiLower) := by
    intro s t hs ht
    exact EqualFoldRunes_ascii table _ _ hs ht
  have hcc : ∀ t : String, t = "cc" ∨ t = "CC" →
      (FilterByType table typedAgents t).map (fun a => a.PaneID) = ["cc_1", "cc_2"] := by
    intro t ht
    have k1 : EqualFold table "cc" t = true := by
      rcases ht with ht | ht <;> subst ht
      · rw [hascii _ _ (by decide) (by decide)]
        decide
      · rw [hascii _ _ (by decide) (by decide)]
        decide
    have k2 : EqualFold table "cod" t = false := by
      rcases ht with ht | ht <;> subst ht
      · rw [hascii _ _ (by decide) (by decide)]
        decide
      · rw [hascii _ _ (by decide) (by decide)]
        decide
    have k3 : EqualFold table "gmi" t = false := by
      rcases ht with ht | ht <;> subst ht
      · rw [hascii _ _ (by decide) (by decide)]
        decide
      · rw [hascii _ _ (by decide) (by decide)]
        decide
    have ne : ¬ t = "" := by
      rcases ht with ht | ht <;> subst ht <;> decide
    unfold FilterByType typedAgents
    simp only [ne, if_false, List.filter_cons, k1, k2, k3, if_true, Bool.false_eq_true,
      List.filter_nil, List.map_cons, List.map_nil]
  refine ⟨?_, rfl, ?_, ?_, ?_, hcc "cc" (Or.inl rfl), hcc "CC" (Or.inr rfl), rfl⟩
  · intro h
    unfold FilterByType
    simp only [h, if_false]
  · intro s hs ht
    exact hascii s agentType hs ht
  · intro other h1 h2 h
    exact hsame agentType other h1 h2 h
  · exact hsame "CC" "cc" (by decide) (by decide) (by decide)

/-- Witness of C13: the filter "Cod" is not empty and has the lower-case form of "cod". -/
theorem FilterByType_case_insensitive_witness :
    ("Cod" : String) ≠ ""
    ∧ FilterByType id typedAgents "Cod" = FilterByType id typedAgents "cod"
    ∧ FilterByType id typedAgents "Cod"
        = typedAgents.filter fun a => EqualFold id a.AgentType "Cod" :=
  ⟨by decide,
   (FilterByType_case_insensitive id typedAgents "Cod").2.2.2.1 "cod" (by decide) (by decide)
     (by decide),
   (FilterByType_case_insensitive id typedAgents "Cod").1 (by decide)⟩

/-! ## Claims on the filters -/

theorem makeIndexSet_foldl (indices : List Int) :
    ∀ (set : Int → Bool) (key : Int),
      (indices.foldl (fun set idx key => if key = idx then true else set key) set) key
        = (decide (key ∈ indices) || set key) := by
  induction indices with
  | nil =>
    intro set key
    simp
  | cons idx rest ih =>
    intro set key
    rw [List.foldl_cons, ih]
    by_cases h : key = idx
    · simp [h]
    · by_cases h2 : key ∈ rest <;> simp [h, h2]

/-- The index set is membership in the list of indices. -/
theorem makeIndexSet_eq (indices : List Int) (key : Int) :
    makeIndexSet indices key = decide (key ∈ indices) := by
  unfold makeIndexSet
  rw [makeIndexSet_foldl]
  simp

/-- C14: for a non-empty list of indices `FilterByPanes` keeps, in input order, exactly the agents
whose pane index is in the list and `ExcludePanes` exactly those whose pane index is not, so the
two results partition the input; for an empty list both return the whole input.  On the test
agents with indices 1 to 4 and the list 2, 3 they return the agents 2, 3 and 1, 4. -/
theorem FilterByPanes_ExcludePanes (agents : List ScoredAgent) (indices : List Int) :
    (indices ≠ [] →
      FilterByPanes agents indices = agents.filter (fun a => decide (a.PaneIndex ∈ indices))
      ∧ ExcludePanes agents indices = agents.filter (fun a => !decide (a.PaneIndex ∈ indices))
      ∧ (FilterByPanes agents indices ++ ExcludePanes agents indices).Perm agents
      ∧ ∀ a, a ∈ FilterByPanes agents indices → a ∉ ExcludePanes agents indices)
    ∧ FilterByPanes agents [] = agents
    ∧ ExcludePanes agents [] = agents
    ∧ (FilterByPanes panedAgents [2, 3]).map (fun a => a.PaneID) = ["cc_2", "cc_3"]
    ∧ (ExcludePanes panedAgents [2, 3]).map (fun a => a.PaneID) = ["cc_1", "cc_4"] := by
  refine ⟨?_, rfl, rfl, by decide, by decide⟩
  intro hne
  have hlen : ¬ indices.length = 0 := by
    intro h
    exact hne (List.length_eq_zero.1 h)
  have e1 : FilterByPanes agents indices
      = agents.filter (fun a => decide (a.PaneIndex ∈ indices)) := by
    unfold FilterByPanes
    simp only [hlen, if_false, makeIndexSet_eq]
  have e2 : ExcludePanes agents indices
      = agents.filter (fun a => !decide (a.PaneIndex ∈ indices)) := by
    unfold ExcludePanes
    simp only [hlen, if_false, makeIndexSet_eq]
  refine ⟨e1, e2, ?_, ?_⟩
  · rw [e1, e2]
    exact List.filter_append_perm _ _
  · intro a ha hb
    rw [e1] at ha
    rw [e2] at hb
    have h1 := (List.mem_filter.1 ha).2
    have h2 := (List.mem_filter.1 hb).2
    simp only [h1, Bool.not_true, Bool.false_eq_true] at h2

/-- Witness of C14: the test agents and the index list 2, 3. -/
theorem FilterByPanes_ExcludePanes_witness :
    ([2, 3] : List Int) ≠ []
    ∧ (FilterByPanes panedAgents [2, 3] ++ ExcludePanes panedAgents [2, 3]).Perm panedAgents :=
  ⟨by decide, ((FilterByPanes_ExcludePanes panedAgents [2, 3]).1 (by decide)).2.2.1⟩

/-! ## Claims on `ScoreAgents` -/

/-- C15: `ScoreAgents` returns an error exactly when the pane enumeration fails, and then the
enumeration's error; otherwise it returns, in pane order, one agent for each pane with a
recognised agent type whose classification succeeds, and a pane whose classification fails
is left out without any effect on the other entries. -/
theorem ScoreAgents_errors {ε : Type} (config : RoutingConfig) (now : Pane → Time)
    (detect : String → String) (classify : Pane → String → Except ε Activity)
    (prompt : String) :
    (∀ err, ScoreAgents config now (Except.error err) detect classify prompt = Except.error err)
    ∧ (∀ panes,
        (∃ err, ScoreAgents config now panes detect classify prompt = Except.error err)
          ↔ ∃ err, panes = Except.error err)
    ∧ (∀ ps, ∃ scored,
        ScoreAgents config now (Except.ok ps) detect classify prompt = Except.ok scored
        ∧ scored.map (fun a => (a.PaneID, a.PaneIndex, a.AgentType))
          = (ps.filter fun p =>
              decide (detect p.Title ≠ "")
                && (match classify p (detect p.Title) with
                    | Except.ok _ => true
                    | Except.error _ => false)).map
              fun p => (p.ID, p.Index, detect p.Title))
    ∧ (∀ ps1 p ps2 err, classify p (detect p.Title) = Except.error err →
        ScoreAgents config now (Except.ok (ps1 ++ p :: ps2)) detect classify prompt
          = ScoreAgents config now (Except.ok (ps1 ++ ps2)) detect classify prompt) := by
  refine ⟨fun _ => rfl, ?_, ?_, ?_⟩
  · intro panes
    cases panes with
    | error e =>
      constructor
      · intro _
        exact ⟨e, rfl⟩
      · intro _
        exact ⟨e, rfl⟩
    | ok ps =>
      constructor
      · rintro ⟨err, h⟩
        simp [ScoreAgents] at h
      · rintro ⟨err, h⟩
        cases h
  · intro ps
    refine ⟨_, rfl, ?_⟩
    induction ps with
    | nil => rfl
    | cons p rest ih =>
      by_cases hd : detect p.Title = ""
      · simp only [List.filterMap_cons, hd, if_true, List.filter_cons, ne_eq, not_true_eq_false,
          decide_False, Bool.false_and, Bool.false_eq_true, if_false]
        simpa [hd] using ih
      · cases hc : classify p (detect p.Title) with
        | error e =>
          simp only [List.filterMap_cons, hd, if_false, hc, List.filter_cons, ne_eq,
            not_false_eq_true, decide_True, Bool.true_and, Bool.false_eq_true]
          simpa [hd] using ih
        | ok act =>
          simp only [List.filterMap_cons, hd, if_false, hc, List.filter_cons, ne_eq,
            not_false_eq_true, decide_True, Bool.true_and, if_true, List.map_cons]
          have hp : (scorePane config (now p) prompt p (detect p.Title) act).PaneID = p.ID
              ∧ (scorePane config (now p) prompt p (detect p.Title) act).PaneIndex = p.Index
              ∧ (scorePane config (now p) prompt p (detect p.Title) act).AgentType
                = detect p.Title := by
            unfold scorePane
            simp only []
            split <;> simp [newScoredAgent]
          rw [hp.1, hp.2.1, hp.2.2]
          congr 1
  · intro ps1 p ps2 err hc
    unfold ScoreAgents
    simp only [List.filterMap_append, List.filterMap_cons, hc]
    by_cases hd : detect p.Title = "" <;> simp [hd]

/-- Witness of C15: of two panes the second fails to classify; the result is that of the first
pane alone. -/
theorem ScoreAgents_errors_witness :
    ScoreAgents DefaultRoutingConfig (fun _ => 0)
        (Except.ok ([⟨"%1", "cc_1", 1⟩] ++ ⟨"%2", "cc_2", 2⟩ :: [])) (fun _ => "cc")
        (fun p _ =>
          if p.Index = 2 then Except.error "capture failed"
          else Except.ok ⟨AgentState.Waiting, F64.ofNat 1, F64.ofNat 0, 0⟩)
        ""
      = ScoreAgents DefaultRoutingConfig (fun _ => 0)
        (Except.ok ([⟨"%1", "cc_1", 1⟩] ++ [])) (fun _ => "cc")
        (fun p _ =>
          if p.Index = 2 then Except.error "capture failed"
          else Except.ok ⟨AgentState.Waiting, F64.ofNat 1, F64.ofNat 0, 0⟩)
        "" :=
  (@ScoreAgents_errors String DefaultRoutingConfig (fun _ => 0) (fun _ => "cc")
    (fun p _ =>
      if p.Index = 2 then Except.error "capture failed"
      else Except.ok ⟨AgentState.Waiting, F64.ofNat 1, F64.ofNat 0, 0⟩)
    "").2.2.2 [⟨"%1", "cc_1", 1⟩] ⟨"%2", "cc_2", 2⟩ [] "capture failed" (if_pos rfl)

/-! ## Claims on the effectiveness integrator -/

/-- C19: `EffectivenessWeight` is 0 for every mode when the scoring is disabled; when enabled it
is 0.6 for Exploitation, 0.2 for Learning, 0.4 for Balanced and 0.4 for every other mode
string. -/
theorem EffectivenessWeight_table (mode : AssignmentMode) (windowDays minSamples : Int) :
    EffectivenessConfig.EffectivenessWeight
        { Enabled := false, Mode := mode, WindowDays := windowDays, MinSamples := minSamples }
      = F64.ofNat 0
    ∧ EffectivenessConfig.EffectivenessWeight
        { Enabled := true, Mode := ModeExploitation, WindowDays := windowDays,
          MinSamples := minSamples }
      = F64.lit 6 10
    ∧ EffectivenessConfig.EffectivenessWeight
        { Enabled := true, Mode := ModeLearning, WindowDays := windowDays,
          MinSamples := minSamples }
      = F64.lit 2 10
    ∧ EffectivenessConfig.EffectivenessWeight
        { Enabled := true, Mode := ModeBalanced, WindowDays := windowDays,
          MinSamples := minSamples }
      = F64.lit 4 10
    ∧ (mode ≠ ModeExploitation → mode ≠ ModeLearning →
        EffectivenessConfig.EffectivenessWeight
            { Enabled := true, Mode := mode, WindowDays := windowDays, MinSamples := minSamples }
          = F64.lit 4 10)
    ∧ EffectivenessConfig.EffectivenessWeight
        { DefaultEffectivenessConfig with Mode := "unknown" } = F64.lit 4 10 := by
  refine ⟨?_, ?_, ?_, ?_, ?_, ?_⟩
  · unfold EffectivenessConfig.EffectivenessWeight
    simp only [Bool.not_false, if_true, F64.ofNat_zero]
  · unfold EffectivenessConfig.EffectivenessWeight
    simp only [Bool.not_true, Bool.false_eq_true, if_false, if_true]
  · unfold EffectivenessConfig.EffectivenessWeight
    have h : ¬ ModeLearning = ModeExploitation := by decide
    simp only [Bool.not_true, Bool.false_eq_true, if_false, h, if_true]
  · unfold EffectivenessConfig.EffectivenessWeight
    have h1 : ¬ ModeBalanced = ModeExploitation := by decide
    have h2 : ¬ ModeBalanced = ModeLearning := by decide
    simp only [Bool.not_true, Bool.false_eq_true, if_false, h1, h2, ite_self]
  · intro h1 h2
    unfold EffectivenessConfig.EffectivenessWeight
    simp only [Bool.not_true, Bool.false_eq_true, if_false, h1, h2, ite_self]
  · unfold EffectivenessConfig.EffectivenessWeight DefaultEffectivenessConfig
    have h1 : ¬ ("unknown" : String) = ModeExploitation := by decide
    have h2 : ¬ ("unknown" : String) = ModeLearning := by decide
    simp only [Bool.not_true, Bool.false_eq_true, if_false, h1, h2, ite_self]

/-- Witness of C19: the mode string "unknown" is neither Exploitation nor Learning. -/
theorem EffectivenessWeight_table_witness :
    ("unknown" : AssignmentMode) ≠ ModeExploitation ∧ ("unknown" : AssignmentMode) ≠ ModeLearning
    ∧ EffectivenessConfig.EffectivenessWeight
        { Enabled := true, Mode := "unknown", WindowDays := 14, MinSamples := 3 }
      = F64.lit 4 10 :=
  ⟨by decide, by decide,
   (EffectivenessWeight_table "unknown" 14 3).2.2.2.2.1 (by decide) (by decide)⟩

/-- C18: `GetEffectivenessBonus` returns `(0, "effectiveness scoring disabled")` for every pair
when the config is disabled, whatever the history holds; when enabled it returns
`(0, "insufficient historical data")` for every pair without a record, with a record that holds
no data, or with fewer samples than `MinSamples`. -/
theorem GetEffectivenessBonus_zero (config : EffectivenessConfig)
    (history : String → String → Option AgentTaskEffectiveness)
    (describe : AgentTaskEffectiveness → String) (agentType taskType : String) :
    (config.Enabled = false →
      GetEffectivenessBonus config history describe agentType taskType
        = (F64.ofNat 0, "effectiveness scoring disabled"))
    ∧ (config.Enabled = true →
        (history agentType taskType = none
          ∨ ∃ e, history agentType taskType = some e
              ∧ (e.HasData = false ∨ e.SampleCount < config.MinSamples)) →
        GetEffectivenessBonus config history describe agentType taskType
          = (F64.ofNat 0, "insufficient historical data")) := by
  constructor
  · intro h
    unfold GetEffectivenessBonus
    simp only [h, Bool.not_false, if_true, F64.ofNat_zero]
  · intro h hdata
    unfold GetEffectivenessBonus
    simp only [h, Bool.not_true, Bool.false_eq_true, if_false]
    rcases hdata with hn | ⟨e, he, hlow⟩
    · rw [hn]
      simp only [F64.ofNat_zero]
    · rw [he]
      have hc : (!e.HasData || decide (e.SampleCount < config.MinSamples)) = true := by
        rcases hlow with h1 | h1
        · simp [h1]
        · simp [h1]
      simp only [hc, if_true, F64.ofNat_zero]

/-- Witness of C18: the default config disabled, with a full record in the history; and the
default config enabled, for a pair without a record. -/
theorem GetEffectivenessBonus_zero_witness :
    GetEffectivenessBonus { DefaultEffectivenessConfig with Enabled := false }
        (fun a t =>
          some { AgentType := a, TaskType := t, Score := F64.lit 85 100, SampleCount := 10,
                 Confidence := F64.lit 9 10, HasData := true, DecayApplied := true })
        (fun _ => "") "claude" "bug"
      = (F64.ofNat 0, "effectiveness scoring disabled")
    ∧ GetEffectivenessBonus DefaultEffectivenessConfig (fun _ _ => none) (fun _ => "")
        "nonexistent" "invalid_task"
      = (F64.ofNat 0, "insufficient historical data") :=
  ⟨(GetEffectivenessBonus_zero _ _ _ _ _).1 rfl,
   (GetEffectivenessBonus_zero _ _ _ _ _).2 rfl (Or.inl rfl)⟩

/-! ## Claims on the capability matrix -/

/-- Clamping to `[0, 1]` leaves a score of `[0, 1]` as it is. -/
theorem clamp_unit_of_mem {s : F64} (h0 : F64.le (F64.ofNat 0) s = true)
    (h1 : F64.le s (F64.ofNat 1) = true) :
    F64.clamp s (F64.ofNat 0) (F64.ofNat 1) = s := by
  rw [F64.le_iff] at h0 h1
  have k0 : F64.lt s (F64.ofNat 0) = false := by
    rw [← Bool.not_eq_true, F64.lt_iff]
    rintro ⟨_, _, h⟩
    omega
  have k1 : F64.gt s (F64.ofNat 1) = false := by
    rw [F64.gt_false_iff]
    intro _ _
    exact h1.2.2
  unfold F64.clamp
  simp only [k0, k1, Bool.false_eq_true, if_false]

/-- C20: after `SetLearned(agent, task, s)` with `s` in `[0, 1]`, `GetScore` returns `s`; after a
following `ClearLearned` it returns the base value of the pair again (0.80 for claude/bug on a new
matrix); `ClearLearned` leaves the base table as it is. -/
theorem CapabilityMatrix_learned_then_cleared (m : CapabilityMatrix)
    (agentType taskType : String) (s : F64) :
    (F64.le (F64.ofNat 0) s = true → F64.le s (F64.ofNat 1) = true →
      (m.SetLearned agentType taskType s).GetScore agentType taskType = s)
    ∧ (m.SetLearned agentType taskType s).ClearLearned.GetScore agentType taskType
        = m.ClearLearned.GetScore agentType taskType
    ∧ (∀ v, m.base agentType taskType = some v →
        (m.SetLearned agentType taskType s).ClearLearned.GetScore agentType taskType = v)
    ∧ (m.learned agentType taskType = none →
        (m.SetLearned agentType taskType s).ClearLearned.GetScore agentType taskType
          = m.GetScore agentType taskType)
    ∧ m.ClearLearned.base = m.base
    ∧ (m.SetLearned agentType taskType s).ClearLearned.base = m.base
    ∧ ∀ seed : String → String → Option F64,
        (NewCapabilityMatrix seed).GetScore AgentClaude TaskBug = F64.lit 80 100
        ∧ ((NewCapabilityMatrix seed).SetLearned AgentClaude TaskBug (F64.lit 95 100)).GetScore
            AgentClaude TaskBug = F64.lit 95 100
        ∧ ((NewCapabilityMatrix seed).SetLearned AgentClaude TaskBug
              (F64.lit 95 100)).ClearLearned.GetScore AgentClaude TaskBug
            = F64.lit 80 100 := by
  have hset : ∀ (m : CapabilityMatrix) (a t : String) (x : F64),
      F64.le (F64.ofNat 0) x = true → F64.le x (F64.ofNat 1) = true →
      (m.SetLearned a t x).GetScore a t = x := by
    intro m a t x h0 h1
    unfold CapabilityMatrix.GetScore CapabilityMatrix.SetLearned
    simp only [and_self, if_true, clamp_unit_of_mem h0 h1]
  have hnew : ∀ seed : String → String → Option F64,
      (NewCapabilityMatrix seed).GetScore AgentClaude TaskBug = F64.lit 80 100 := by
    intro seed
    unfold CapabilityMatrix.GetScore NewCapabilityMatrix
    simp only [and_self, if_true]
  refine ⟨hset m agentType taskType s, rfl, ?_, ?_, rfl, rfl, ?_⟩
  · intro v hv
    unfold CapabilityMatrix.GetScore CapabilityMatrix.ClearLearned CapabilityMatrix.SetLearned
    simp only [hv]
  · intro hl
    unfold CapabilityMatrix.GetScore CapabilityMatrix.ClearLearned CapabilityMatrix.SetLearned
    simp only [hl]
  · intro seed
    refine ⟨hnew seed, hset _ _ _ _ (by decide!) (by decide!), ?_⟩
    exact hnew seed

/-- Witness of C20: the learned score 0.95 on a new matrix. -/
theorem CapabilityMatrix_learned_then_cleared_witness :
    F64.le (F64.ofNat 0) (F64.lit 95 100) = true
    ∧ F64.le (F64.lit 95 100) (F64.ofNat 1) = true
    ∧ ((NewCapabilityMatrix fun _ _ => none).SetLearned AgentClaude TaskBug
          (F64.lit 95 100)).GetScore AgentClaude TaskBug = F64.lit 95 100 :=
  ⟨by decide!, by decide!,
   (CapabilityMatrix_learned_then_cleared (NewCapabilityMatrix fun _ _ => none) AgentClaude
      TaskBug (F64.lit 95 100)).1 (by decide!) (by decide!)⟩

/-! ## Claims on the ranking -/

theorem insertByScore_perm (entry : AgentRanking) (l : List AgentRanking) :
    (insertByScore entry l).Perm (entry :: l) := by
  induction l with
  | nil => simp [insertByScore]
  | cons e rest ih =>
    unfold insertByScore
    split
    · exact List.Perm.refl _
    · exact (ih.cons e).trans (List.Perm.swap _ _ _)

/-- Inserting keeps the order in which no entry has a greater score than one before it. -/
theorem insertByScore_pairwise (entry : AgentRanking) (l : List AgentRanking)
    (h : l.Pairwise fun a b => F64.gt b.Score a.Score = false) :
    (insertByScore entry l).Pairwise fun a b => F64.gt b.Score a.Score = false := by
  induction l with
  | nil => simp [insertByScore]
  | cons e rest ih =>
    obtain ⟨he, hrest⟩ := List.pairwise_cons.1 h
    unfold insertByScore
    by_cases hgt : F64.gt entry.Score e.Score = true
    · simp only [hgt, if_true]
      refine List.Pairwise.cons ?_ h
      intro x hx
      rcases List.mem_cons.1 hx with hx | hx
      · rw [hx]
        exact F64.gt_asymm hgt
      · exact F64.gt_false_of_gt hgt (he x hx)
    · have hgt2 : F64.gt entry.Score e.Score = false := by simpa using hgt
      simp only [hgt2, Bool.false_eq_true, if_false]
      refine List.Pairwise.cons ?_ (ih hrest)
      intro x hx
      rcases List.mem_cons.1 ((insertByScore_perm entry rest).mem_iff.1 hx) with hx | hx
      · rw [hx]
        exact hgt2
      · exact he x hx

theorem sortByScore_foldl (l : List AgentRanking) :
    ∀ acc : List AgentRanking, (acc.Pairwise fun a b => F64.gt b.Score a.Score = false) →
      (l.foldl (fun sorted entry => insertByScore entry sorted) acc).Perm (l ++ acc)
      ∧ (l.foldl (fun sorted entry => insertByScore entry sorted) acc).Pairwise
          fun a b => F64.gt b.Score a.Score = false := by
  induction l with
  | nil =>
    intro acc h
    exact ⟨List.Perm.refl _, h⟩
  | cons e rest ih =>
    intro acc h
    obtain ⟨h1, h2⟩ := ih (insertByScore e acc) (insertByScore_pairwise e acc h)
    refine ⟨?_, h2⟩
    simp only [List.foldl_cons, List.cons_append]
    exact h1.trans ((List.Perm.append_left rest (insertByScore_perm e acc)).trans
      List.perm_middle)

theorem assignRanks_map (l : List AgentRanking) :
    ∀ n : Nat,
      (assignRanks n l).map (fun e => (e.AgentType, e.Score))
        = l.map (fun e => (e.AgentType, e.Score)) := by
  induction l with
  | nil =>
    intro n
    rfl
  | cons e rest ih =>
    intro n
    simp only [assignRanks, List.map_cons, ih]

theorem assignRanks_rank (l : List AgentRanking) :
    ∀ (n i : Nat) (e : AgentRanking), (assignRanks n l)[i]? = some e →
      e.Rank = (n : Int) + (i : Int) + 1 := by
  induction l with
  | nil =>
    intro n i e h
    simp [assignRanks] at h
  | cons x rest ih =>
    intro n i e h
    cases i with
    | zero =>
      simp only [assignRanks, List.getElem?_cons_zero, Option.some.injEq] at h
      rw [← h]
      simp
    | succ j =>
      simp only [assignRanks, List.getElem?_cons_succ] at h
      have := ih (n + 1) j e h
      rw [this]
      push_cast
      ring


/-- C17: for every task type and every history `RankAgentsForTask` returns one ranking entry
for each of the 3 known agent types, the entry at position `i` has rank `i + 1`, and the scores
never increase along the ranking: no entry has a greater score than one before it, and each score
is greater than or equal to those behind it when no score is NaN. -/
theorem RankAgentsForTask_ranks (config : EffectivenessConfig)
    (history : String → String → Option AgentTaskEffectiveness)
    (describe : AgentTaskEffectiveness → String) (matrix : CapabilityMatrix)
    (combine : F64 → F64 → F64) (taskType : String) :
    ∃ ranking,
      RankAgentsForTask config history describe matrix combine taskType = Except.ok ranking
      ∧ ranking.TaskType = taskType
      ∧ ranking.Rankings.length = 3
      ∧ (ranking.Rankings.map fun e => e.AgentType).Perm knownAgentTypes
      ∧ (∀ (i : Nat) (e : AgentRanking), ranking.Rankings[i]? = some e → e.Rank = (i : Int) + 1)
      ∧ (ranking.Rankings.Pairwise fun a b => F64.gt b.Score a.Score = false)
      ∧ ((∀ e ∈ ranking.Rankings, e.Score.isNaN = false) →
          ranking.Rankings.Pairwise fun a b => F64.ge a.Score b.Score = true)
      ∧ ∀ e ∈ ranking.Rankings,
          e.Score = combine (matrix.GetScore e.AgentType taskType)
            (GetEffectivenessBonus config history describe e.AgentType taskType).1 := by
  refine ⟨_, rfl, rfl, ?_⟩
  simp only []
  generalize hentries : (knownAgentTypes.map fun agentType =>
      ({ AgentType := agentType
         Score :=
           combine (matrix.GetScore agentType taskType)
             (GetEffectivenessBonus config history describe agentType taskType).1
         Rank := 0 } : AgentRanking)) = entries
  have hsorted := sortByScore_foldl entries [] List.Pairwise.nil
  have hperm : (sortByScore entries).Perm entries := by
    have := hsorted.1
    simpa [sortByScore] using this
  have hpw : (sortByScore entries).Pairwise fun a b => F64.gt b.Score a.Score = false :=
    hsorted.2
  have hmap := assignRanks_map (sortByScore entries) 0
  have hlen : (assignRanks 0 (sortByScore entries)).length = entries.length := by
    have h1 := congrArg List.length hmap
    simp only [List.length_map] at h1
    rw [h1]
    exact hperm.length_eq
  have htypes : (assignRanks 0 (sortByScore entries)).map (fun e => e.AgentType)
      = (sortByScore entries).map (fun e => e.AgentType) := by
    have h1 := congrArg (List.map Prod.fst) hmap
    simpa [List.map_map, Function.comp] using h1
  have hscores : (assignRanks 0 (sortByScore entries)).map (fun e => e.Score)
      = (sortByScore entries).map (fun e => e.Score) := by
    have h1 := congrArg (List.map Prod.snd) hmap
    simpa [List.map_map, Function.comp] using h1
  have hpw2 : (assignRanks 0 (sortByScore entries)).Pairwise
      fun a b => F64.gt b.Score a.Score = false := by
    have h1 : ((sortByScore entries).map fun e => e.Score).Pairwise
        fun x y => F64.gt y x = false := by
      rw [List.pairwise_map]
      exact hpw
    rw [← hscores, List.pairwise_map] at h1
    exact h1
  have hformula : ∀ e ∈ assignRanks 0 (sortByScore entries),
      e.Score = combine (matrix.GetScore e.AgentType taskType)
        (GetEffectivenessBonus config history describe e.AgentType taskType).1 := by
    intro e he
    have h1 : (e.AgentType, e.Score)
        ∈ (assignRanks 0 (sortByScore entries)).map (fun e => (e.AgentType, e.Score)) :=
      List.mem_map.2 ⟨e, he, rfl⟩
    rw [hmap] at h1
    obtain ⟨x, hx, hxe⟩ := List.mem_map.1 h1
    have hx2 : x ∈ entries := hperm.mem_iff.1 hx
    rw [← hentries] at hx2
    obtain ⟨a, _, hax⟩ := List.mem_map.1 hx2
    simp only [Prod.mk.injEq] at hxe
    rw [← hxe.1, ← hxe.2, ← hax]
  refine ⟨?_, ?_, ?_, hpw2, ?_, hformula⟩
  · rw [hlen, ← hentries]
    rfl
  · rw [htypes]
    have h1 : ((sortByScore entries).map fun e => e.AgentType).Perm
        (entries.map fun e => e.AgentType) := hperm.map _
    refine h1.trans ?_
    rw [← hentries, List.map_map]
    exact List.Perm.of_eq (List.map_id knownAgentTypes)
  · intro i e h
    have := assignRanks_rank (sortByScore entries) 0 i e h
    simpa using this
  · intro hnan
    refine List.Pairwise.imp_of_mem ?_ hpw2
    intro a b ha hb hgt
    exact F64.ge_of_gt_false (hnan b hb) (hnan a ha) hgt

/-- Witness of C17: no history at all; the three capability scores are not NaN, so the ranking
is ordered by greater-or-equal. -/
theorem RankAgentsForTask_ranks_witness :
    ∃ ranking,
      RankAgentsForTask DefaultEffectivenessConfig (fun _ _ => none) (fun _ => "")
          (NewCapabilityMatrix fun _ _ => none) F64.add "bug" = Except.ok ranking
      ∧ ranking.Rankings.length = 3
      ∧ ranking.Rankings.map (fun e => (e.AgentType, e.Rank))
          = [("claude", 1), ("codex", 2), ("gemini", 3)] := by
  obtain ⟨ranking, h, _, hlen, _⟩ :=
    RankAgentsForTask_ranks DefaultEffectivenessConfig (fun _ _ => none) (fun _ => "")
      (NewCapabilityMatrix fun _ _ => none) F64.add "bug"
  refine ⟨ranking, h, hlen, ?_⟩
  have e : (match RankAgentsForTask DefaultEffectivenessConfig (fun _ _ => none) (fun _ => "")
      (NewCapabilityMatrix fun _ _ => none) F64.add "bug" with
      | Except.ok r => r.Rankings.map (fun e => (e.AgentType, e.Rank))
      | Except.error _ => []) = [("claude", 1), ("codex", 2), ("gemini", 3)] := by
    decide!
  rw [h] at e
  exact e

/-! ## The order of strings -/

theorem lessRunes_nil_right (s : List Nat) : lessRunes s [] = false := by
  cases s <;> rfl

theorem lessRunes_cons (a b : Nat) (s t : List Nat) :
    lessRunes (a :: s) (b :: t) = (decide (a < b) || (decide (a = b) && lessRunes s t)) := rfl

theorem lessRunes_irrefl (s : List Nat) : lessRunes s s = false := by
  induction s with
  | nil => rfl
  | cons a s ih => simp [lessRunes_cons, ih]

theorem lessRunes_trichotomy (s : List Nat) :
    ∀ t : List Nat, lessRunes s t = true ∨ s = t ∨ lessRunes t s = true := by
  induction s with
  | nil =>
    intro t
    cases t with
    | nil => exact Or.inr (Or.inl rfl)
    | cons b t => exact Or.inl rfl
  | cons a s ih =>
    intro t
    cases t with
    | nil => exact Or.inr (Or.inr rfl)
    | cons b t =>
      rcases Nat.lt_trichotomy a b with h | h | h
      · left
        simp [lessRunes_cons, h]
      · subst h
        rcases ih t with h1 | h1 | h1
        · left
          simp [lessRunes_cons, h1]
        · right
          left
          rw [h1]
        · right
          right
          simp [lessRunes_cons, h1]
      · right
        right
        simp [lessRunes_cons, h]

theorem lessRunes_trans (s : List Nat) :
    ∀ t u : List Nat, lessRunes s t = true → lessRunes t u = true → lessRunes s u = true := by
  induction s with
  | nil =>
    intro t u h1 h2
    cases u with
    | nil => rw [lessRunes_nil_right] at h2; cases h2
    | cons c u => rfl
  | cons a s ih =>
    intro t u h1 h2
    cases t with
    | nil => rw [lessRunes_nil_right] at h1; cases h1
    | cons b t =>
      cases u with
      | nil => rw [lessRunes_nil_right] at h2; cases h2
      | cons c u =>
        simp only [lessRunes_cons, Bool.or_eq_true, Bool.and_eq_true, decide_eq_true_eq] at h1 h2 ⊢
        rcases h1 with h1 | ⟨h1, h1r⟩
        · rcases h2 with h2 | ⟨h2, _⟩
          · left; omega
          · left; omega
        · rcases h2 with h2 | ⟨h2, h2r⟩
          · left; omega
          · right
            exact ⟨by omega, ih t u h1r h2r⟩

theorem lessRunes_asymm {s t : List Nat} (h : lessRunes s t = true) : lessRunes t s = false := by
  cases h2 : lessRunes t s with
  | false => rfl
  | true =>
    have h3 := lessRunes_trans s t s h h2
    rw [lessRunes_irrefl] at h3
    cases h3

theorem runes_injective {a b : String} (h : runes a = runes b) : a = b := by
  unfold runes at h
  have h1 : a.toList = b.toList := by
    refine List.map_injective_iff.2 ?_ h
    intro x y hxy
    exact Char.ext (UInt32.ext (by simpa [Char.toNat, UInt32.toNat] using hxy))
  exact String.ext h1

theorem stringLE_total (a b : String) : stringLE a b = true ∨ stringLE b a = true := by
  unfold stringLE
  cases h : lessRunes (runes b) (runes a) with
  | false => left; rfl
  | true => right; rw [lessRunes_asymm h]; rfl

theorem stringLE_trans {a b c : String} (h1 : stringLE a b = true) (h2 : stringLE b c = true) :
    stringLE a c = true := by
  unfold stringLE at *
  simp only [Bool.not_eq_true'] at h1 h2 ⊢
  cases h : lessRunes (runes c) (runes a) with
  | false => rfl
  | true =>
    rcases lessRunes_trichotomy (runes a) (runes b) with h3 | h3 | h3
    · rw [lessRunes_trans _ _ _ h h3] at h2
      cases h2
    · rw [← h3, h] at h2
      cases h2
    · rw [h3] at h1
      cases h1

theorem less_of_stringLE_of_ne {a b : String} (h1 : stringLE a b = true) (h2 : a ≠ b) :
    lessRunes (runes a) (runes b) = true := by
  unfold stringLE at h1
  simp only [Bool.not_eq_true'] at h1
  rcases lessRunes_trichotomy (runes a) (runes b) with h3 | h3 | h3
  · exact h3
  · exact absurd (runes_injective h3) h2
  · rw [h3] at h1
    cases h1

theorem sortStrings_perm (names : List String) : (sortStrings names).Perm names :=
  List.perm_insertionSort _ names

theorem sortStrings_pairwise (names : List String) (h : names.Nodup) :
    (sortStrings names).Pairwise fun a b => lessRunes (runes a) (runes b) = true := by
  haveI : IsTotal String (fun a b => stringLE a b = true) := ⟨stringLE_total⟩
  haveI : IsTrans String (fun a b => stringLE a b = true) := ⟨fun _ _ _ => stringLE_trans⟩
  have h1 : (sortStrings names).Sorted (fun a b => stringLE a b = true) :=
    List.sorted_insertionSort _ names
  have h2 : (sortStrings names).Nodup := (sortStrings_perm names).nodup_iff.2 h
  have h3 := List.Pairwise.and h1 h2
  exact h3.imp fun hab => less_of_stringLE_of_ne hab.1 hab.2

/-- Two lists with the same members, each strictly increasing under a key, are equal. -/
theorem eq_of_perm_of_increasing {α : Type} (key : α → List Nat) {l1 l2 : List α}
    (hp : l1.Perm l2)
    (h1 : l1.Pairwise fun a b => lessRunes (key a) (key b) = true)
    (h2 : l2.Pairwise fun a b => lessRunes (key a) (key b) = true) : l1 = l2 := by
  haveI : IsAntisymm α (fun a b => lessRunes (key a) (key b) = true) :=
    ⟨fun a b hab hba => by rw [lessRunes_asymm hab] at hba; cases hba⟩
  exact List.eq_of_perm_of_sorted hp h1 h2

/-! ## Go maps -/

theorem lookup_cons_eq {V : Type} (k a : String) (v : V) (m : List (String × V)) :
    List.lookup k ((a, v) :: m) = if k = a then some v else List.lookup k m := by
  by_cases h : k = a
  · subst h
    simp [List.lookup]
  · have h1 : (k == a) = false := by simpa using h
    simp [List.lookup, h1, h]

theorem lookup_eq_none_iff {V : Type} (k : String) (m : List (String × V)) :
    List.lookup k m = none ↔ k ∉ m.map Prod.fst := by
  induction m with
  | nil => simp [List.lookup]
  | cons e m ih =>
    obtain ⟨a, v⟩ := e
    rw [lookup_cons_eq]
    by_cases h : k = a
    · simp [h]
    · simp [h, ih]

theorem lookup_append {V : Type} (k : String) (m rest : List (String × V)) :
    List.lookup k (m ++ rest)
      = match List.lookup k m with
        | some v => some v
        | none => List.lookup k rest := by
  induction m with
  | nil => simp [List.lookup]
  | cons e m ih =>
    obtain ⟨a, v⟩ := e
    rw [List.cons_append, lookup_cons_eq, lookup_cons_eq]
    by_cases h : k = a
    · simp [h]
    · simp only [h, if_false]
      exact ih

theorem GoMap.set_of_absent {V : Type} (m : GoMap V) (k : String) (v : V)
    (h : m.get? k = none) : m.set k v = m ++ [(k, v)] := by
  unfold GoMap.set
  unfold GoMap.get? at h
  rw [h]
  simp

theorem GoMap.get?_append_self {V : Type} (m : GoMap V) (k : String) (v : V)
    (h : m.get? k = none) : GoMap.get? (m ++ [(k, v)]) k = some v := by
  unfold GoMap.get? at *
  rw [lookup_append, h]
  simp [lookup_cons_eq]

theorem GoMap.get?_append_other {V : Type} (m : GoMap V) (k k2 : String) (v : V)
    (h : k2 ≠ k) : GoMap.get? (m ++ [(k, v)]) k2 = m.get? k2 := by
  unfold GoMap.get?
  rw [lookup_append]
  cases h1 : List.lookup k2 m with
  | some w => rfl
  | none =>
    show List.lookup k2 [(k, v)] = none
    rw [lookup_cons_eq, if_neg h]
    rfl

/-- Reading every key of a map in the order of its entries gives the values in that order. -/
theorem commandsOf_keys (m : GoMap Command) (h : m.keys.Nodup) :
    commandsOf m m.keys = m.map Prod.snd := by
  unfold commandsOf GoMap.keys at *
  induction m with
  | nil => rfl
  | cons e m ih =>
    obtain ⟨a, v⟩ := e
    simp only [List.map_cons, List.nodup_cons] at h ⊢
    congr 1
    · simp [GoMap.get?, lookup_cons_eq]
    · rw [← ih h.2]
      apply List.map_congr_left
      intro k hk
      have hne : k ≠ a := by
        rintro rfl
        exact h.1 hk
      simp [GoMap.get?, lookup_cons_eq, hne]

theorem commandsOf_perm (m : GoMap Command) {names1 names2 : List String}
    (h : names1.Perm names2) : (commandsOf m names1).Perm (commandsOf m names2) :=
  h.map _

/-! ## The registry -/

/-- What one call of `Register` does: an error and no change, or no error and one new entry in
the command map (and one in the REST index when the command has a binding). -/
theorem Register_cases (table : Nat → Nat) (r : Registry) (cmd : Command) :
    ((r.Register table cmd).1 ≠ none ∧ (r.Register table cmd).2 = r)
    ∨ ((r.Register table cmd).1 = none
        ∧ validateCommand cmd = none
        ∧ r.commands.get? (TrimSpace cmd.Name) = none
        ∧ (r.Register table cmd).2.commands = r.commands ++ [(TrimSpace cmd.Name, cmd)]
        ∧ ((cmd.REST = none ∧ (r.Register table cmd).2.restIndex = r.restIndex)
          ∨ ∃ rest, cmd.REST = some rest
              ∧ r.restIndex.get? (restKey table rest.Method rest.Path) = none
              ∧ (r.Register table cmd).2.restIndex
                = r.restIndex ++ [(restKey table rest.Method rest.Path, TrimSpace cmd.Name)])) := by
  cases hv : validateCommand cmd with
  | some err =>
    left
    have e : r.Register table cmd = (some err, r) := by
      unfold Registry.Register
      rw [hv]
    rw [e]
    exact ⟨by simp, rfl⟩
  | none =>
    by_cases h1 : TrimSpace cmd.Name = ""
    · left
      have e : r.Register table cmd = (some RegisterError.emptyName, r) := by
        unfold Registry.Register
        rw [hv]
        simp only [h1, if_true]
      rw [e]
      exact ⟨by simp, rfl⟩
    · cases h2 : r.commands.get? (TrimSpace cmd.Name) with
      | some c =>
        left
        have e : r.Register table cmd
            = (some (RegisterError.alreadyRegistered (TrimSpace cmd.Name)), r) := by
          unfold Registry.Register
          rw [hv]
          simp only [h1, if_false, h2, Option.isSome_some, if_true]
        rw [e]
        exact ⟨by simp, rfl⟩
      | none =>
        cases h3 : cmd.REST with
        | none =>
          right
          have e : r.Register table cmd
              = (none, { r with commands := r.commands.set (TrimSpace cmd.Name) cmd }) := by
            unfold Registry.Register
            rw [hv]
            simp only [h1, if_false, h2, Option.isSome_none, Bool.false_eq_true, h3]
          rw [e]
          exact ⟨rfl, rfl, rfl, GoMap.set_of_absent _ _ _ h2, Or.inl ⟨rfl, rfl⟩⟩
        | some rest =>
          by_cases h4 : restKey table rest.Method rest.Path = ""
          · left
            have e : r.Register table cmd = (some RegisterError.restRequired, r) := by
              unfold Registry.Register
              rw [hv]
              simp only [h1, if_false, h2, Option.isSome_none, Bool.false_eq_true, h3, h4,
                if_true]
            rw [e]
            exact ⟨by simp, rfl⟩
          · cases h5 : r.restIndex.get? (restKey table rest.Method rest.Path) with
            | some existing =>
              left
              have e : r.Register table cmd
                  = (some (RegisterError.restConflict (restKey table rest.Method rest.Path)
                      existing), r) := by
                unfold Registry.Register
                rw [hv]
                simp only [h1, if_false, h2, Option.isSome_none, Bool.false_eq_true, h3, h4, h5]
              rw [e]
              exact ⟨by simp, rfl⟩
            | none =>
              right
              have e : r.Register table cmd
                  = (none,
                      { commands := r.commands.set (TrimSpace cmd.Name) cmd
                        restIndex :=
                          r.restIndex.set (restKey table rest.Method rest.Path)
                            (TrimSpace cmd.Name) }) := by
                unfold Registry.Register
                rw [hv]
                simp only [h1, if_false, h2, Option.isSome_none, Bool.false_eq_true, h3, h4, h5]
              rw [e]
              exact ⟨rfl, rfl, rfl, GoMap.set_of_absent _ _ _ h2,
                Or.inr ⟨rest, rfl, h5, GoMap.set_of_absent _ _ _ h5⟩⟩

theorem get?_eq_none_iff {V : Type} (m : GoMap V) (k : String) :
    m.get? k = none ↔ k ∉ m.keys :=
  lookup_eq_none_iff k m

theorem Register_keys_nodup (table : Nat → Nat) (r : Registry) (cmd : Command)
    (h : r.commands.keys.Nodup) : (r.Register table cmd).2.commands.keys.Nodup := by
  rcases Register_cases table r cmd with ⟨_, h1⟩ | ⟨_, _, h2, h3, _⟩
  · rw [h1]
    exact h
  · rw [h3]
    unfold GoMap.keys at *
    rw [List.map_append, List.nodup_append]
    refine ⟨h, by simp, ?_⟩
    intro a ha hb
    simp only [List.map_cons, List.map_nil, List.mem_singleton] at hb
    subst hb
    exact (get?_eq_none_iff _ _).1 h2 ha

theorem Register_consistent (table : Nat → Nat) (r : Registry) (cmd : Command)
    (h : r.Consistent table) : (r.Register table cmd).2.Consistent table := by
  rcases Register_cases table r cmd with ⟨_, h1⟩ | ⟨_, _, h2, h3, h4⟩
  · rw [h1]
    exact h
  · intro name c hget
    rw [h3] at hget
    by_cases hn : name = TrimSpace cmd.Name
    · subst hn
      rw [GoMap.get?_append_self _ _ _ h2] at hget
      cases hget
      refine ⟨rfl, ?_⟩
      intro rest hrest
      rcases h4 with ⟨h5, _⟩ | ⟨rest2, h5, h6, h7⟩
      · rw [h5] at hrest
        cases hrest
      · rw [h5] at hrest
        cases hrest
        rw [h7, GoMap.get?_append_self _ _ _ h6]
        rfl
    · rw [GoMap.get?_append_other _ _ _ _ hn] at hget
      obtain ⟨k1, k2⟩ := h name c hget
      refine ⟨k1, ?_⟩
      intro rest hrest
      have k3 := k2 rest hrest
      rcases h4 with ⟨_, h5⟩ | ⟨rest2, _, _, h7⟩
      · rw [h5]
        exact k3
      · rw [h7]
        unfold GoMap.get? at *
        rw [lookup_append]
        cases h8 : List.lookup (restKey table rest.Method rest.Path) r.restIndex with
        | some v => rfl
        | none =>
          rw [h8] at k3
          cases k3

theorem NewRegistry_consistent (table : Nat → Nat) : NewRegistry.Consistent table := by
  intro name cmd h
  cases h

theorem registerAll_cons (table : Nat → Nat) (r : Registry) (cmd : Command)
    (rest : List Command) :
    registerAll table r (cmd :: rest) = registerAll table (r.Register table cmd).2 rest := rfl

/-- After a sequence of `Register` calls the command map holds its old entries followed by the
commands registered successfully, each under its trimmed name, in the order of the calls. -/
theorem registerAll_spec (table : Nat → Nat) (cmds : List Command) :
    ∀ r : Registry, r.commands.keys.Nodup → r.Consistent table →
      (registerAll table r cmds).commands.keys.Nodup
      ∧ (registerAll table r cmds).Consistent table
      ∧ (registerAll table r cmds).commands
        = r.commands ++ (registeredOf table r cmds).map fun c => (TrimSpace c.Name, c) := by
  induction cmds with
  | nil =>
    intro r h1 h2
    exact ⟨h1, h2, by simp [registerAll, registeredOf]⟩
  | cons cmd rest ih =>
    intro r h1 h2
    obtain ⟨k1, k2, k3⟩ := ih (r.Register table cmd).2 (Register_keys_nodup table r cmd h1)
      (Register_consistent table r cmd h2)
    rw [registerAll_cons]
    refine ⟨k1, k2, ?_⟩
    rw [k3]
    rcases Register_cases table r cmd with ⟨h3, h4⟩ | ⟨h3, _, _, h5, _⟩
    · have e : registeredOf table r (cmd :: rest)
          = registeredOf table (r.Register table cmd).2 rest := by
        rw [registeredOf, if_neg h3]
      rw [e, h4]
    · have e : registeredOf table r (cmd :: rest)
          = cmd :: registeredOf table (r.Register table cmd).2 rest := by
        rw [registeredOf, if_pos h3]
      rw [e, h5]
      simp

theorem dropWhile_rdropWhile (p : Char → Bool) (l : List Char) :
    ((l.dropWhile p).rdropWhile p).dropWhile p = (l.dropWhile p).rdropWhile p := by
  have h1 : ∃ t, (l.dropWhile p).rdropWhile p ++ t = l.dropWhile p := by
    obtain ⟨t, ht⟩ :=
      (List.dropWhile_suffix p :
        List.dropWhile p (l.dropWhile p).reverse <:+ (l.dropWhile p).reverse)
    refine ⟨t.reverse, ?_⟩
    have h3 := congrArg List.reverse ht
    rw [List.reverse_append, List.reverse_reverse] at h3
    exact h3
  have h2 : (l.dropWhile p).dropWhile p = l.dropWhile p := List.dropWhile_idempotent p l
  generalize l.dropWhile p = front at h1 h2 ⊢
  generalize front.rdropWhile p = kept at h1 ⊢
  obtain ⟨t, ht⟩ := h1
  cases kept with
  | nil => rfl
  | cons a kept =>
    subst ht
    rw [List.cons_append, List.dropWhile_cons] at h2
    rw [List.dropWhile_cons]
    by_cases hp : p a = true
    · rw [if_pos hp] at h2
      have h3 := congrArg List.length h2
      have h4 : (List.dropWhile p (kept ++ t)).length ≤ (kept ++ t).length :=
        (List.dropWhile_sublist p).length_le
      simp only [List.length_cons] at h3
      omega
    · rw [if_neg hp]

theorem TrimSpace_eq (s : String) :
    TrimSpace s = String.mk ((s.toList.dropWhile IsSpace).rdropWhile IsSpace) := rfl

/-- Trimming twice is trimming once. -/
theorem TrimSpace_idempotent (s : String) : TrimSpace (TrimSpace s) = TrimSpace s := by
  rw [TrimSpace_eq (TrimSpace s), TrimSpace_eq s]
  simp only [String.toList]
  rw [dropWhile_rdropWhile, List.rdropWhile_idempotent]

theorem registerAll_NewRegistry (table : Nat → Nat) (cmds : List Command) :
    (registerAll table NewRegistry cmds).commands.keys.Nodup
    ∧ (registerAll table NewRegistry cmds).Consistent table
    ∧ (registerAll table NewRegistry cmds).commands
      = (registeredOf table NewRegistry cmds).map fun c => (TrimSpace c.Name, c) := by
  have h := registerAll_spec table cmds NewRegistry List.nodup_nil (NewRegistry_consistent table)
  simpa [NewRegistry] using h

/-- Reading names that are keys of a consistent registry gives commands with these names. -/
theorem commandsOf_names (table : Nat → Nat) (r : Registry) (h : r.Consistent table)
    (names : List String) (hn : ∀ name ∈ names, name ∈ r.commands.keys) :
    (commandsOf r.commands names).map (fun c => TrimSpace c.Name) = names := by
  induction names with
  | nil => rfl
  | cons name rest ih =>
    have h1 : name ∈ r.commands.keys := hn name (List.mem_cons_self _ _)
    have h2 : ∀ n ∈ rest, n ∈ r.commands.keys := fun n hmem => hn n (List.mem_cons_of_mem _ hmem)
    unfold commandsOf at *
    simp only [List.map_cons]
    rw [ih h2]
    congr 1
    cases h3 : r.commands.get? name with
    | none => exact absurd h1 ((get?_eq_none_iff _ _).1 h3)
    | some c => exact ((h name c h3).1).symm

/-- The list `Registry.List` returns for a registry built by `Register` calls: a permutation of
the commands registered successfully, strictly increasing in the trimmed name. -/
theorem List_spec (table : Nat → Nat) (cmds : List Command) (order : List String)
    (horder : order.Perm (registerAll table NewRegistry cmds).commands.keys) :
    ((registerAll table NewRegistry cmds).List order).Perm (registeredOf table NewRegistry cmds)
    ∧ ((registerAll table NewRegistry cmds).List order).Pairwise
        fun a b => lessRunes (runes (TrimSpace a.Name)) (runes (TrimSpace b.Name)) = true := by
  obtain ⟨h1, h2, h3⟩ := registerAll_NewRegistry table cmds
  generalize registerAll table NewRegistry cmds = r at *
  unfold Registry.List
  by_cases h0 : r.commands.length = 0
  · rw [if_pos h0]
    have h4 : r.commands = [] := List.length_eq_zero.1 h0
    rw [h4] at h3
    have h5 : registeredOf table NewRegistry cmds = [] := by
      cases h6 : registeredOf table NewRegistry cmds with
      | nil => rfl
      | cons a l =>
        rw [h6] at h3
        cases h3
    rw [h5]
    exact ⟨List.Perm.refl _, List.Pairwise.nil⟩
  · rw [if_neg h0]
    constructor
    · have k1 : (commandsOf r.commands (sortStrings order)).Perm
          (commandsOf r.commands r.commands.keys) :=
        commandsOf_perm _ ((sortStrings_perm order).trans horder)
      rw [commandsOf_keys _ h1] at k1
      have k2 : r.commands.map Prod.snd = registeredOf table NewRegistry cmds := by
        rw [h3, List.map_map]
        exact List.map_id _
      rw [k2] at k1
      exact k1
    · have k1 : ∀ name ∈ sortStrings order, name ∈ r.commands.keys := by
        intro name hmem
        exact horder.subset ((sortStrings_perm order).subset hmem)
      have k2 := commandsOf_names table r h2 (sortStrings order) k1
      have k3 := sortStrings_pairwise order (horder.nodup_iff.2 h1)
      rw [← k2, List.pairwise_map] at k3
      exact k3

theorem upper_of_asciiLower (table : Nat → Nat) (l1 : List Char) :
    ∀ l2 : List Char, (∀ c ∈ l1, c.toNat < 128) → (∀ c ∈ l2, c.toNat < 128) →
      (l1.map fun c => asciiLower c.toNat) = (l2.map fun c => asciiLower c.toNat) →
      (l1.map fun c =>
          if 97 ≤ c.toNat ∧ c.toNat ≤ 122 then Char.ofNat (c.toNat - 32)
          else if c.toNat < 128 then c
          else Char.ofNat (table c.toNat))
        = l2.map fun c =>
          if 97 ≤ c.toNat ∧ c.toNat ≤ 122 then Char.ofNat (c.toNat - 32)
          else if c.toNat < 128 then c
          else Char.ofNat (table c.toNat) := by
  induction l1 with
  | nil =>
    intro l2 _ _ h
    cases l2 with
    | nil => rfl
    | cons b l2 => cases h
  | cons a l1 ih =>
    intro l2 h1 h2 h
    cases l2 with
    | nil => cases h
    | cons b l2 =>
      simp only [List.map_cons, List.cons.injEq] at h ⊢
      have ha : a.toNat < 128 := h1 a (List.mem_cons_self _ _)
      have hb : b.toNat < 128 := h2 b (List.mem_cons_self _ _)
      refine ⟨?_, ih l2 (fun c hc => h1 c (List.mem_cons_of_mem _ hc))
        (fun c hc => h2 c (List.mem_cons_of_mem _ hc)) h.2⟩
      have h3 := h.1
      unfold asciiLower at h3
      have ea : Char.ofNat a.toNat = a := Char.ofNat_toNat a
      have eb : Char.ofNat b.toNat = b := Char.ofNat_toNat b
      by_cases ca : 65 ≤ a.toNat ∧ a.toNat ≤ 90 <;> by_cases cb : 65 ≤ b.toNat ∧ b.toNat ≤ 90
      · rw [if_pos ca, if_pos cb] at h3
        have e : a.toNat = b.toNat := by omega
        have e2 : a = b := by rw [← ea, ← eb, e]
        rw [e2]
      · rw [if_pos ca, if_neg cb] at h3
        have c1 : ¬ (97 ≤ a.toNat ∧ a.toNat ≤ 122) := by omega
        have c2 : 97 ≤ b.toNat ∧ b.toNat ≤ 122 := by omega
        rw [if_neg c1, if_pos ha, if_pos c2]
        have e : b.toNat - 32 = a.toNat := by omega
        rw [e, ea]
      · rw [if_neg ca, if_pos cb] at h3
        have c1 : 97 ≤ a.toNat ∧ a.toNat ≤ 122 := by omega
        have c2 : ¬ (97 ≤ b.toNat ∧ b.toNat ≤ 122) := by omega
        rw [if_pos c1, if_neg c2, if_pos hb]
        have e : a.toNat - 32 = b.toNat := by omega
        rw [e, eb]
      · rw [if_neg ca, if_neg cb] at h3
        have e2 : a = b := by rw [← ea, ← eb, h3]
        rw [e2]

/-- On ASCII strings `strings.ToUpper` identifies exactly the strings that differ in letter
case only. -/
theorem ToUpper_of_asciiLower (table : Nat → Nat) (m1 m2 : String)
    (h1 : ∀ r ∈ runes m1, r < 128) (h2 : ∀ r ∈ runes m2, r < 128)
    (h : (runes m1).map asciiLower = (runes m2).map asciiLower) :
    ToUpper table m1 = ToUpper table m2 := by
  unfold ToUpper
  unfold runes at h1 h2 h
  rw [List.map_map, List.map_map] at h
  have k1 : ∀ c ∈ m1.toList, c.toNat < 128 := fun c hc => h1 c.toNat (List.mem_map.2 ⟨c, hc, rfl⟩)
  have k2 : ∀ c ∈ m2.toList, c.toNat < 128 := fun c hc => h2 c.toNat (List.mem_map.2 ⟨c, hc, rfl⟩)
  rw [upper_of_asciiLower table m1.toList m2.toList k1 k2 h]

/-- The method `Register` returns nil exactly for a well-formed command whose name and REST key are new. -/
theorem Register_ok_iff (table : Nat → Nat) (r : Registry) (cmd : Command) :
    (r.Register table cmd).1 = none
      ↔ wellFormed table cmd ∧ TrimSpace cmd.Name ∉ r.commands.keys
        ∧ ∀ b, cmd.REST = some b → restKey table b.Method b.Path ∉ r.restIndex.keys := by
  unfold wellFormed
  cases hv : validateCommand cmd with
  | some err =>
    have e : r.Register table cmd = (some err, r) := by
      unfold Registry.Register
      rw [hv]
    rw [e]
    simp
  | none =>
    by_cases h1 : TrimSpace cmd.Name = ""
    · have e : r.Register table cmd = (some RegisterError.emptyName, r) := by
        unfold Registry.Register
        rw [hv]
        simp only [h1, if_true]
      rw [e]
      simp [h1]
    · cases h2 : r.commands.get? (TrimSpace cmd.Name) with
      | some c =>
        have e : r.Register table cmd
            = (some (RegisterError.alreadyRegistered (TrimSpace cmd.Name)), r) := by
          unfold Registry.Register
          rw [hv]
          simp only [h1, if_false, h2, Option.isSome_some, if_true]
        rw [e]
        have h3 : ¬ (TrimSpace cmd.Name ∉ r.commands.keys) := by
          intro h4
          rw [(get?_eq_none_iff _ _).2 h4] at h2
          cases h2
        simp [h3]
      | none =>
        have h2b := (get?_eq_none_iff _ _).1 h2
        cases h3 : cmd.REST with
        | none =>
          have e : r.Register table cmd
              = (none, { r with commands := r.commands.set (TrimSpace cmd.Name) cmd }) := by
            unfold Registry.Register
            rw [hv]
            simp only [h1, if_false, h2, Option.isSome_none, Bool.false_eq_true, h3]
          rw [e]
          simp [h1, h2b]
        | some rest =>
          by_cases h4 : restKey table rest.Method rest.Path = ""
          · have e : r.Register table cmd = (some RegisterError.restRequired, r) := by
              unfold Registry.Register
              rw [hv]
              simp only [h1, if_false, h2, Option.isSome_none, Bool.false_eq_true, h3, h4,
                if_true]
            rw [e]
            simp [h4]
          · cases h5 : r.restIndex.get? (restKey table rest.Method rest.Path) with
            | some existing =>
              have e : r.Register table cmd
                  = (some (RegisterError.restConflict (restKey table rest.Method rest.Path)
                      existing), r) := by
                unfold Registry.Register
                rw [hv]
                simp only [h1, if_false, h2, Option.isSome_none, Bool.false_eq_true, h3, h4, h5]
              rw [e]
              have h6 : ¬ (restKey table rest.Method rest.Path ∉ r.restIndex.keys) := by
                intro h7
                rw [(get?_eq_none_iff _ _).2 h7] at h5
                cases h5
              simp [h6]
            | none =>
              have h5b := (get?_eq_none_iff _ _).1 h5
              have e : r.Register table cmd
                  = (none,
                      { commands := r.commands.set (TrimSpace cmd.Name) cmd
                        restIndex :=
                          r.restIndex.set (restKey table rest.Method rest.Path)
                            (TrimSpace cmd.Name) }) := by
                unfold Registry.Register
                rw [hv]
                simp only [h1, if_false, h2, Option.isSome_none, Bool.false_eq_true, h3, h4, h5]
              rw [e]
              simp [h1, h2b, h4, h5b]

theorem registeredOf_length (table : Nat → Nat) (cmds : List Command) :
    ∀ r : Registry, (registeredOf table r cmds).length ≤ cmds.length := by
  induction cmds with
  | nil => intro r; simp [registeredOf]
  | cons c rest ih =>
    intro r
    rw [registeredOf]
    split
    · simp only [List.length_cons]
      have := ih (r.Register table c).2
      omega
    · simp only [List.length_cons]
      have := ih (r.Register table c).2
      omega

/-- The keys of the two maps after a successful `Register`. -/
theorem Register_ok_keys (table : Nat → Nat) (r : Registry) (cmd : Command)
    (h : (r.Register table cmd).1 = none) :
    (r.Register table cmd).2.commands.keys = r.commands.keys ++ [TrimSpace cmd.Name]
    ∧ (r.Register table cmd).2.restIndex.keys = r.restIndex.keys ++ restKeysOf table [cmd] := by
  rcases Register_cases table r cmd with ⟨h1, _⟩ | ⟨_, _, _, h3, h4⟩
  · exact absurd h h1
  · constructor
    · rw [h3]
      simp [GoMap.keys]
    · rcases h4 with ⟨h5, h6⟩ | ⟨rest, h5, _, h7⟩
      · rw [h6]
        simp [restKeysOf, h5]
      · rw [h7]
        simp [restKeysOf, h5, GoMap.keys]

/-- Every call of a sequence returns nil exactly when the commands are well-formed and their
names and REST keys are new and pairwise different. -/
theorem registeredOf_eq_self_iff (table : Nat → Nat) (cmds : List Command) :
    ∀ r : Registry,
      registeredOf table r cmds = cmds
        ↔ (∀ c ∈ cmds, wellFormed table c)
          ∧ (∀ n ∈ namesOf cmds, n ∉ r.commands.keys) ∧ (namesOf cmds).Nodup
          ∧ (∀ k ∈ restKeysOf table cmds, k ∉ r.restIndex.keys)
          ∧ (restKeysOf table cmds).Nodup := by
  induction cmds with
  | nil =>
    intro r
    simp [registeredOf, namesOf, restKeysOf]
  | cons c rest ih =>
    intro r
    have hsplit : restKeysOf table (c :: rest) = restKeysOf table [c] ++ restKeysOf table rest := by
      unfold restKeysOf
      rw [← List.filterMap_append]
      rfl
    have hnames : namesOf (c :: rest) = TrimSpace c.Name :: namesOf rest := rfl
    by_cases hok : (r.Register table c).1 = none
    · have e : registeredOf table r (c :: rest)
          = c :: registeredOf table (r.Register table c).2 rest := by
        rw [registeredOf, if_pos hok]
      obtain ⟨k1, k2⟩ := Register_ok_keys table r c hok
      obtain ⟨w1, w2, w3⟩ := (Register_ok_iff table r c).1 hok
      have w4 : ∀ k ∈ restKeysOf table [c], k ∉ r.restIndex.keys := by
        intro k hk
        unfold restKeysOf at hk
        simp only [List.filterMap_cons, List.filterMap_nil] at hk
        cases hr : c.REST with
        | none => rw [hr] at hk; simp at hk
        | some b =>
          rw [hr] at hk
          simp only [Option.map_some', List.mem_singleton] at hk
          rw [hk]
          exact w3 b hr
      have w5 : (restKeysOf table [c]).Nodup := by
        cases hr : c.REST <;> simp [restKeysOf, hr]
      rw [e, List.cons.injEq, ih (r.Register table c).2, k1, k2, hsplit, hnames]
      constructor
      · rintro ⟨_, a1, a2, a3, a4, a5⟩
        refine ⟨?_, ?_, ?_, ?_, ?_⟩
        · intro c2 hc2
          rcases List.mem_cons.1 hc2 with h | h
          · rw [h]
            exact w1
          · exact a1 c2 h
        · intro n hn
          rcases List.mem_cons.1 hn with h | h
          · rw [h]
            exact w2
          · exact fun hmem => a2 n h (List.mem_append_left _ hmem)
        · rw [List.nodup_cons]
          refine ⟨?_, a3⟩
          intro hmem
          exact a2 _ hmem (List.mem_append_right _ (List.mem_singleton_self _))
        · intro k hk
          rcases List.mem_append.1 hk with h | h
          · exact w4 k h
          · exact fun hmem => a4 k h (List.mem_append_left _ hmem)
        · rw [List.nodup_append]
          refine ⟨w5, a5, ?_⟩
          intro k hk1 hk2
          exact a4 k hk2 (List.mem_append_right _ hk1)
      · rintro ⟨a1, a2, a3, a4, a5⟩
        rw [List.nodup_cons] at a3
        rw [List.nodup_append] at a5
        refine ⟨rfl, ?_, ?_, a3.2, ?_, a5.2.1⟩
        · exact fun c2 hc2 => a1 c2 (List.mem_cons_of_mem _ hc2)
        · intro n hn hmem
          rcases List.mem_append.1 hmem with h | h
          · exact a2 n (List.mem_cons_of_mem _ hn) h
          · rw [List.mem_singleton] at h
            rw [h] at hn
            exact a3.1 hn
        · intro k hk hmem
          rcases List.mem_append.1 hmem with h | h
          · exact a4 k (List.mem_append_right _ hk) h
          · exact a5.2.2 h hk
    · have e : registeredOf table r (c :: rest)
          = registeredOf table (r.Register table c).2 rest := by
        rw [registeredOf, if_neg hok]
      have hlen := registeredOf_length table rest (r.Register table c).2
      constructor
      · intro h
        rw [e] at h
        have := congrArg List.length h
        simp only [List.length_cons] at this
        omega
      · rintro ⟨a1, a2, a3, a4, a5⟩
        exfalso
        apply hok
        rw [Register_ok_iff]
        refine ⟨a1 c (List.mem_cons_self _ _), a2 _ (by rw [hnames]; exact List.mem_cons_self _ _),
          ?_⟩
        intro b hb
        apply a4
        rw [hsplit]
        apply List.mem_append_left
        simp [restKeysOf, hb]

/-- When every call of a sequence returns nil, so does every call of a rearranged sequence. -/
theorem registeredOf_perm (table : Nat → Nat) {cmds cmds2 : List Command}
    (hp : cmds2.Perm cmds) (h : registeredOf table NewRegistry cmds = cmds) :
    registeredOf table NewRegistry cmds2 = cmds2 := by
  rw [registeredOf_eq_self_iff] at h ⊢
  obtain ⟨a1, _, a3, _, a5⟩ := h
  refine ⟨fun c hc => a1 c (hp.subset hc), ?_, ?_, ?_, ?_⟩
  · intro n _
    simp [NewRegistry, GoMap.keys]
  · exact ((hp.map _).nodup_iff).2 a3
  · intro k _
    simp [NewRegistry, GoMap.keys]
  · exact ((hp.filterMap _).nodup_iff).2 a5


theorem validateCommand_rest {cmd : Command} {b : RESTBinding}
    (hv : validateCommand cmd = none) (hb : cmd.REST = some b) :
    TrimSpace b.Method ≠ "" ∧ TrimSpace b.Path ≠ "" := by
  unfold validateCommand at hv
  rw [hb] at hv
  split_ifs at hv with h1 h2 h3 h4
  simp only [] at hv
  split_ifs at hv with h5
  exact ⟨fun h => h5 (Or.inl h), fun h => h5 (Or.inr h)⟩

theorem ToUpper_ne_empty (table : Nat → Nat) {s : String} (h : s ≠ "") :
    ToUpper table s ≠ "" := by
  intro h1
  apply h
  have h2 := congrArg String.toList h1
  unfold ToUpper at h2
  have h3 : s.toList = [] := by
    simpa using h2
  exact String.ext h3

/-- The REST key of a command that passes validation is not empty. -/
theorem restKey_ne_empty (table : Nat → Nat) {cmd : Command} {b : RESTBinding}
    (hv : validateCommand cmd = none) (hb : cmd.REST = some b) :
    restKey table b.Method b.Path ≠ "" := by
  obtain ⟨h1, h2⟩ := validateCommand_rest hv hb
  have h3 := ToUpper_ne_empty table h1
  unfold restKey
  rw [if_neg (by tauto)]
  intro h4
  have h5 := congrArg String.length h4
  simp only [String.length_append] at h5
  have h6 : "".length = 0 := rfl
  have h7 : " ".length = 1 := rfl
  omega

/-! ## Claims on the command registry -/

/-- C21, as stated, fails: the command named `" kernel.list "` is registered without an error,
under its trimmed name, and `Get` with the name of the command finds nothing. -/
theorem Get_misses_untrimmed_name :
    (NewRegistry.Register id (testCommand " kernel.list ")).1 = none
    ∧ (NewRegistry.Register id (testCommand " kernel.list ")).2.Get
        (testCommand " kernel.list ").Name = none := by
  decide

/-- C21, amended: after a `Register(cmd)` that returned nil, `Get` with the trimmed name of the
command reports found and returns `cmd` itself (so the name of the result is `cmd.Name`); `Get`
with `cmd.Name` does so when the name has no white space around it; and in a registry built by
`Register` calls alone `Get` with `cmd.Name` finds nothing when the name has white space around
it. -/
theorem Register_then_Get (table : Nat → Nat) (r : Registry) (cmd : Command)
    (h : (r.Register table cmd).1 = none) :
    (r.Register table cmd).2.Get (TrimSpace cmd.Name) = some cmd
    ∧ (TrimSpace cmd.Name = cmd.Name → (r.Register table cmd).2.Get cmd.Name = some cmd)
    ∧ (r.Consistent table → TrimSpace cmd.Name ≠ cmd.Name →
        (r.Register table cmd).2.Get cmd.Name = none)
    ∧ ∀ cmds, (registerAll table NewRegistry cmds).Consistent table := by
  have h1 : (r.Register table cmd).2.Get (TrimSpace cmd.Name) = some cmd := by
    rcases Register_cases table r cmd with ⟨k1, _⟩ | ⟨_, _, k2, k3, _⟩
    · exact absurd h k1
    · unfold Registry.Get
      rw [k3]
      exact GoMap.get?_append_self _ _ _ k2
  refine ⟨h1, ?_, ?_, fun cmds => (registerAll_NewRegistry table cmds).2.1⟩
  · intro h2
    rw [h2] at h1
    exact h1
  · intro hc hne
    have hc2 := Register_consistent table r cmd hc
    cases hg : (r.Register table cmd).2.Get cmd.Name with
    | none => rfl
    | some c =>
      exfalso
      apply hne
      have h3 := (hc2 cmd.Name c hg).1
      rw [h3, TrimSpace_idempotent]

/-- Witness of C21 (amended): the command of `TestRegistryRegisterAndGet` on a new registry. -/
theorem Register_then_Get_witness :
    (NewRegistry.Register id (testCommand "kernel.list")).1 = none
    ∧ (NewRegistry.Register id (testCommand "kernel.list")).2.Get "kernel.list"
      = some (testCommand "kernel.list") :=
  ⟨by decide,
    (Register_then_Get id NewRegistry (testCommand "kernel.list") (by decide)).2.1 (by decide)⟩

/-- C22: when the trimmed name of the command is already registered, `Register` returns an error
and the registry is what it was: the command map and the REST index are unchanged, `Get` answers
as before for every name, and for a command that passes validation the error is the one about the
duplicate name. -/
theorem Register_duplicate_name (table : Nat → Nat) (r : Registry) (cmd : Command)
    (h : (r.Get (TrimSpace cmd.Name)).isSome = true) :
    (r.Register table cmd).1 ≠ none
    ∧ (r.Register table cmd).2 = r
    ∧ (r.Register table cmd).2.commands = r.commands
    ∧ (r.Register table cmd).2.restIndex = r.restIndex
    ∧ (∀ name, (r.Register table cmd).2.Get name = r.Get name)
    ∧ (validateCommand cmd = none →
        (r.Register table cmd).1
          = some (RegisterError.alreadyRegistered (TrimSpace cmd.Name))) := by
  have h1 : (r.Register table cmd).1 ≠ none ∧ (r.Register table cmd).2 = r := by
    rcases Register_cases table r cmd with k | ⟨_, _, k2, _⟩
    · exact k
    · unfold Registry.Get at h
      rw [k2] at h
      cases h
  refine ⟨h1.1, h1.2, by rw [h1.2], by rw [h1.2], fun name => by rw [h1.2], ?_⟩
  intro hv
  have h2 : TrimSpace cmd.Name ≠ "" := by
    intro h3
    unfold validateCommand at hv
    rw [if_pos h3] at hv
    cases hv
  unfold Registry.Get at h
  unfold Registry.Register
  rw [hv]
  simp only [h2, if_false, h, if_true]

/-- Witness of C22: the command of `TestRegistryDuplicateName`, registered twice. -/
theorem Register_duplicate_name_witness :
    ((NewRegistry.Register id (testCommand "dup")).2.Get (TrimSpace (testCommand "dup").Name)).isSome
      = true
    ∧ ((NewRegistry.Register id (testCommand "dup")).2.Register id (testCommand "dup")).1
      = some (RegisterError.alreadyRegistered "dup")
    ∧ ((NewRegistry.Register id (testCommand "dup")).2.Register id (testCommand "dup")).2
      = (NewRegistry.Register id (testCommand "dup")).2 :=
  ⟨by decide,
    (Register_duplicate_name id (NewRegistry.Register id (testCommand "dup")).2 (testCommand "dup")
      (by decide)).2.2.2.2.2 (by decide),
    (Register_duplicate_name id (NewRegistry.Register id (testCommand "dup")).2 (testCommand "dup")
      (by decide)).2.1⟩

/-- C23: in a registry built by `Register` calls, registering a command whose REST binding has
the trimmed path and the upper-cased trimmed method of the binding of a registered command
returns an error and leaves the registry as it was, so `Get` answers as before for every name and
finds nothing under a new name; for a command that passes validation under a new name the error
is the REST conflict.  ASCII methods that differ in letter case only have the same upper-cased
form. -/
theorem Register_rest_conflict (table : Nat → Nat) (cmds : List Command) (name : String)
    (first cmd : Command) (b0 b : RESTBinding)
    (hfirst : (registerAll table NewRegistry cmds).Get name = some first)
    (hb0 : first.REST = some b0) (hb : cmd.REST = some b)
    (hpath : TrimSpace b.Path = TrimSpace b0.Path)
    (hmethod : ToUpper table (TrimSpace b.Method) = ToUpper table (TrimSpace b0.Method)) :
    ((registerAll table NewRegistry cmds).Register table cmd).1 ≠ none
    ∧ ((registerAll table NewRegistry cmds).Register table cmd).2
      = registerAll table NewRegistry cmds
    ∧ (∀ n, ((registerAll table NewRegistry cmds).Register table cmd).2.Get n
        = (registerAll table NewRegistry cmds).Get n)
    ∧ ((registerAll table NewRegistry cmds).Get cmd.Name = none →
        ((registerAll table NewRegistry cmds).Register table cmd).2.Get cmd.Name = none)
    ∧ (validateCommand cmd = none →
        (registerAll table NewRegistry cmds).Get (TrimSpace cmd.Name) = none →
        ∃ existing,
          ((registerAll table NewRegistry cmds).Register table cmd).1
            = some (RegisterError.restConflict (restKey table b.Method b.Path) existing))
    ∧ ∀ m1 m2 : String, (∀ r ∈ runes m1, r < 128) → (∀ r ∈ runes m2, r < 128) →
        (runes m1).map asciiLower = (runes m2).map asciiLower →
        ToUpper table m1 = ToUpper table m2 := by
  obtain ⟨_, hc, _⟩ := registerAll_NewRegistry table cmds
  generalize registerAll table NewRegistry cmds = r at *
  have hkey : restKey table b.Method b.Path = restKey table b0.Method b0.Path := by
    unfold restKey
    rw [hpath, hmethod]
  have hidx : (r.restIndex.get? (restKey table b.Method b.Path)).isSome = true := by
    rw [hkey]
    exact (hc name first hfirst).2 b0 hb0
  have h1 : (r.Register table cmd).1 ≠ none ∧ (r.Register table cmd).2 = r := by
    rcases Register_cases table r cmd with k | ⟨_, _, _, _, k4⟩
    · exact k
    · rcases k4 with ⟨k5, _⟩ | ⟨rest, k5, k6, _⟩
      · rw [hb] at k5
        cases k5
      · rw [hb] at k5
        cases k5
        rw [k6] at hidx
        cases hidx
  refine ⟨h1.1, h1.2, fun n => by rw [h1.2], fun hn => by rw [h1.2]; exact hn, ?_,
    fun m1 m2 k1 k2 k3 => ToUpper_of_asciiLower table m1 m2 k1 k2 k3⟩
  intro hv hnew
  have h2 : TrimSpace cmd.Name ≠ "" := by
    intro h3
    unfold validateCommand at hv
    rw [if_pos h3] at hv
    cases hv
  have h4 : restKey table b.Method b.Path ≠ "" := restKey_ne_empty table hv hb
  cases h5 : r.restIndex.get? (restKey table b.Method b.Path) with
  | none =>
    rw [h5] at hidx
    cases hidx
  | some existing =>
    refine ⟨existing, ?_⟩
    unfold Registry.Get at hnew
    unfold Registry.Register
    rw [hv]
    simp only [h2, if_false, hnew, Option.isSome_none, Bool.false_eq_true, hb, h4, h5]

/-- Witness of C23: the two commands of `TestRegistryRestConflict`, the second with its method in
lower case and white space around method and path. -/
theorem Register_rest_conflict_witness :
    (registerAll id NewRegistry [restCommandOne]).Get "cmd.one" = some restCommandOne
    ∧ ((registerAll id NewRegistry [restCommandOne]).Register id restCommandTwo).1 ≠ none
    ∧ ((registerAll id NewRegistry [restCommandOne]).Register id restCommandTwo).2
      = registerAll id NewRegistry [restCommandOne] :=
  ⟨by decide,
    (Register_rest_conflict id [restCommandOne] "cmd.one" restCommandOne restCommandTwo
      { Method := "GET", Path := "/api/test" } { Method := " get", Path := "/api/test " }
      (by decide) rfl rfl (by decide) (by decide)).1,
    (Register_rest_conflict id [restCommandOne] "cmd.one" restCommandOne restCommandTwo
      { Method := "GET", Path := "/api/test" } { Method := " get", Path := "/api/test " }
      (by decide) rfl rfl (by decide) (by decide)).2.1⟩

/-- C24: for a registry built by a sequence of `Register` calls on a new registry, whatever the
order in which the map yields its keys, `List` returns a permutation of the commands registered
successfully, strictly increasing in the name they are registered under.  The result depends on
the set of these commands only, not on the order of the calls, and when every call of a sequence
succeeds so does every call of a rearranged sequence.  A registry without commands gives the
empty list; "bravo" then "alpha" gives alpha, bravo. -/
theorem List_sorted_by_name (table : Nat → Nat) (cmds : List Command) (order : List String)
    (horder : order.Perm (registerAll table NewRegistry cmds).commands.keys) :
    ((registerAll table NewRegistry cmds).List order).Perm (registeredOf table NewRegistry cmds)
    ∧ ((registerAll table NewRegistry cmds).List order).Pairwise
        (fun a b => lessRunes (runes (TrimSpace a.Name)) (runes (TrimSpace b.Name)) = true)
    ∧ (∀ cmds2 order2, order2.Perm (registerAll table NewRegistry cmds2).commands.keys →
        (registeredOf table NewRegistry cmds2).Perm (registeredOf table NewRegistry cmds) →
        (registerAll table NewRegistry cmds2).List order2
          = (registerAll table NewRegistry cmds).List order)
    ∧ (∀ cmds2, cmds2.Perm cmds → registeredOf table NewRegistry cmds = cmds →
        registeredOf table NewRegistry cmds2 = cmds2)
    ∧ (∀ (r : Registry) (names : List String), r.commands = [] → r.List names = [])
    ∧ (registerAll id NewRegistry [testCommand "bravo", testCommand "alpha"]).List
        ["bravo", "alpha"] = [testCommand "alpha", testCommand "bravo"]
    ∧ (registerAll id NewRegistry [testCommand "bravo", testCommand "alpha"]).List
        ["alpha", "bravo"] = [testCommand "alpha", testCommand "bravo"] := by
  obtain ⟨h1, h2⟩ := List_spec table cmds order horder
  refine ⟨h1, h2, ?_, fun cmds2 hp h => registeredOf_perm table hp h, ?_, by decide, by decide⟩
  · intro cmds2 order2 horder2 hp
    obtain ⟨k1, k2⟩ := List_spec table cmds2 order2 horder2
    exact eq_of_perm_of_increasing (fun c => runes (TrimSpace c.Name))
      ((k1.trans hp).trans h1.symm) k2 h2
  · intro r names hr
    unfold Registry.List
    rw [hr]
    rfl

/-- Witness of C24: the registry of `TestRegistryListDeterministic`, its keys read in the order
of insertion. -/
theorem List_sorted_by_name_witness :
    ((registerAll id NewRegistry [testCommand "bravo", testCommand "alpha"]).List
        ["bravo", "alpha"]).Perm
      (registeredOf id NewRegistry [testCommand "bravo", testCommand "alpha"]) :=
  (List_sorted_by_name id [testCommand "bravo", testCommand "alpha"] ["bravo", "alpha"]
    (List.Perm.of_eq (by decide))).1

/-! ## Claims on `TruncateRunes` -/

/-- C25, as stated, fails: with room for 2 runes and the 3-rune suffix "...", "hello" is cut to
"he": the suffix is not appended, so the result is not an initial part of the string followed by
the suffix. -/
theorem TruncateRunes_suffix_left_out :
    TruncateRunes "hello" 2 "..." = "he"
    ∧ ¬ ∃ front back : List Char,
        "hello".toList = front ++ back
        ∧ TruncateRunes "hello" 2 "..." = String.mk front ++ "..." := by
  have e : TruncateRunes "hello" 2 "..." = "he" := by decide
  refine ⟨e, ?_⟩
  rintro ⟨front, back, _, h⟩
  rw [e] at h
  have h1 := congrArg String.length h
  rw [String.length_append] at h1
  have h2 : "he".length = 2 := rfl
  have h3 : "...".length = 3 := rfl
  omega

/-- C25, amended: for `max <= 0` the result is the empty string; for `max > 0` a string of at
most `max` runes is returned as it is; a longer string is cut to its first `max - len(suffix)`
runes followed by the suffix when the suffix has at most `max` runes, and to its first `max`
runes, without the suffix, when the suffix has more than `max` runes; in both cases the result has
exactly `max` runes. -/
theorem TruncateRunes_cases (s suffix : String) (max : Int) :
    (max ≤ 0 → TruncateRunes s max suffix = "")
    ∧ (0 < max → (s.toList.length : Int) ≤ max → TruncateRunes s max suffix = s)
    ∧ (0 < max → max < (s.toList.length : Int) → (suffix.toList.length : Int) ≤ max →
        TruncateRunes s max suffix
          = String.mk (s.toList.take (max.toNat - suffix.toList.length)) ++ suffix
        ∧ ((TruncateRunes s max suffix).toList.length : Int) = max)
    ∧ (0 < max → max < (s.toList.length : Int) → max < (suffix.toList.length : Int) →
        TruncateRunes s max suffix = String.mk (s.toList.take max.toNat)
        ∧ ((TruncateRunes s max suffix).toList.length : Int) = max)
    ∧ (0 < max → ((TruncateRunes s max suffix).toList.length : Int) ≤ max) := by
  have c3 : 0 < max → max < (s.toList.length : Int) → (suffix.toList.length : Int) ≤ max →
      TruncateRunes s max suffix
        = String.mk (s.toList.take (max.toNat - suffix.toList.length)) ++ suffix
      ∧ ((TruncateRunes s max suffix).toList.length : Int) = max := by
    intro h0 h1 h2
    have e1 : (max - (suffix.toList.length : Int)).toNat = max.toNat - suffix.toList.length := by
      omega
    have e : TruncateRunes s max suffix
        = String.mk (s.toList.take (max.toNat - suffix.toList.length)) ++ suffix := by
      unfold TruncateRunes
      rw [if_neg (by omega), if_neg (by omega), if_neg (by omega), e1]
    refine ⟨e, ?_⟩
    rw [e]
    simp only [String.toList, String.data_append, List.length_append, List.length_take]
    have : s.data.length = s.toList.length := rfl
    have : suffix.data.length = suffix.toList.length := rfl
    omega
  have c4 : 0 < max → max < (s.toList.length : Int) → max < (suffix.toList.length : Int) →
      TruncateRunes s max suffix = String.mk (s.toList.take max.toNat)
      ∧ ((TruncateRunes s max suffix).toList.length : Int) = max := by
    intro h0 h1 h2
    have e : TruncateRunes s max suffix = String.mk (s.toList.take max.toNat) := by
      unfold TruncateRunes
      rw [if_neg (by omega), if_neg (by omega), if_pos h2]
    refine ⟨e, ?_⟩
    rw [e]
    simp only [String.toList, List.length_take]
    have : s.data.length = s.toList.length := rfl
    omega
  have c2 : 0 < max → (s.toList.length : Int) ≤ max → TruncateRunes s max suffix = s := by
    intro h0 h1
    unfold TruncateRunes
    rw [if_neg (by omega), if_pos h1]
  refine ⟨?_, c2, c3, c4, ?_⟩
  · intro h
    unfold TruncateRunes
    rw [if_pos h]
  · intro h0
    by_cases h1 : (s.toList.length : Int) ≤ max
    · rw [c2 h0 h1]
      exact h1
    · by_cases h2 : max < (suffix.toList.length : Int)
      · exact le_of_eq (c4 h0 (by omega) h2).2
      · exact le_of_eq (c3 h0 (by omega) (by omega)).2

/-- Witness of C25 (amended): "hello world" cut to 8 runes with the suffix "...". -/
theorem TruncateRunes_cases_witness :
    TruncateRunes "hello world" 8 "..." = "hello..."
    ∧ ((TruncateRunes "hello world" 8 "...").toList.length : Int) = 8 :=
  ⟨((TruncateRunes_cases "hello world" "..." 8).2.2.1 (by decide) (by decide) (by decide)).1.trans
      (by decide),
    ((TruncateRunes_cases "hello world" "..." 8).2.2.1 (by decide) (by decide) (by decide)).2⟩

/-! ## Claims on `conflictSeverity` -/

/-- C26: the code takes 10 minutes where its comment, and the claim, say 2: two agents whose
changes lie 5 minutes apart get "critical" from `conflictSeverity` and "warning" from the rule of
the comment; for two changes in order of time made after the zero instant and two agents the
result is "critical" exactly when they lie at most 10 minutes apart. -/
theorem conflictSeverity_ten_minutes :
    conflictSeverity
        [{ Timestamp := 1000 * Minute, Agents := ["cc_1"] },
          { Timestamp := 1005 * Minute, Agents := ["cod_1"] }] 2 = "critical"
    ∧ documentedSeverity (1000 * Minute) (1005 * Minute) 2 = "warning"
    ∧ ∀ (t1 t2 : Time) (a1 a2 : List String), 0 < t1 → t1 ≤ t2 →
        (conflictSeverity [{ Timestamp := t1, Agents := a1 }, { Timestamp := t2, Agents := a2 }] 2
            = "critical"
          ↔ t2 - t1 ≤ 10 * Minute) := by
  refine ⟨by decide, by decide, ?_⟩
  intro t1 t2 a1 a2 h1 h2
  have e : conflictSeverityLoop
      [{ Timestamp := t1, Agents := a1 }, { Timestamp := t2, Agents := a2 }] 0 (0, 0)
      = (t1, t2) := by
    simp only [conflictSeverityLoop, Time.Before, Time.After, decide_eq_true_eq, true_or, if_true,
      h1, Nat.zero_add, Nat.one_ne_zero, false_or]
    have k1 : ¬ t2 < t1 := by
      dsimp only [Time] at *
      omega
    rw [if_neg k1]
    by_cases k2 : t1 < t2
    · rw [if_pos k2]
    · rw [if_neg k2]
      have : t1 = t2 := by
        dsimp only [Time] at *
        omega
      rw [this]
  unfold conflictSeverity
  rw [e]
  have k3 : ¬ ((2 : Int) ≥ 3) := by decide
  rw [if_neg k3]
  simp only [Time.Sub, Since]
  rw [maxDuration_eq, minDuration_eq, Minute_eq]
  dsimp only [Time, Duration] at *
  constructor
  · intro h
    split_ifs at h with c1 c2 c3 <;> first | omega | (exfalso; revert h; decide)
  · intro h
    split_ifs with c1 c2 c3 <;> first | omega | rfl

/-! ## `GetBestAgent` and `GetAvailableAgents` together -/

/-- With a candidate `b`, the loop of `GetBestAgent` ends on the agent the inner loop of
`GetAvailableAgents` leaves in front when it starts from `b`. -/
theorem GetBestAgentLoop_some (l : List ScoredAgent) :
    ∀ (i bi : Nat) (b : ScoredAgent),
      (GetBestAgentLoop l i (some (bi, b))).map Prod.snd
        = some (innerPass b (l.filter fun agent => !agent.Excluded)).1 := by
  induction l with
  | nil =>
    intro i bi b
    rfl
  | cons a rest ih =>
    intro i bi b
    by_cases hx : a.Excluded = true
    · have e : (a :: rest).filter (fun agent => !agent.Excluded)
          = rest.filter fun agent => !agent.Excluded := by
        rw [List.filter_cons, hx]
        rfl
      rw [e, GetBestAgentLoop, if_pos hx]
      exact ih (i + 1) bi b
    · have hx2 : a.Excluded = false := by simpa using hx
      have e : (a :: rest).filter (fun agent => !agent.Excluded)
          = a :: rest.filter fun agent => !agent.Excluded := by
        rw [List.filter_cons, hx2]
        rfl
      rw [e, GetBestAgentLoop, if_neg hx, innerPass]
      by_cases hg : F64.gt a.Score b.Score = true
      · rw [if_pos hg, if_pos hg]
        exact ih (i + 1) i a
      · rw [if_neg hg, if_neg hg]
        exact ih (i + 1) bi b

/-- Without a candidate, the loop of `GetBestAgent` ends on the head of the sorted list of the
agents that are not excluded. -/
theorem GetBestAgentLoop_none (l : List ScoredAgent) :
    ∀ i : Nat,
      (GetBestAgentLoop l i none).map Prod.snd
        = (outerPass (l.filter fun agent => !agent.Excluded).length
            (l.filter fun agent => !agent.Excluded)).head? := by
  induction l with
  | nil =>
    intro i
    rfl
  | cons a rest ih =>
    intro i
    by_cases hx : a.Excluded = true
    · have e : (a :: rest).filter (fun agent => !agent.Excluded)
          = rest.filter fun agent => !agent.Excluded := by
        rw [List.filter_cons, hx]
        rfl
      rw [e, GetBestAgentLoop, if_pos hx]
      exact ih (i + 1)
    · have hx2 : a.Excluded = false := by simpa using hx
      have e : (a :: rest).filter (fun agent => !agent.Excluded)
          = a :: rest.filter fun agent => !agent.Excluded := by
        rw [List.filter_cons, hx2]
        rfl
      rw [e, GetBestAgentLoop, if_neg hx]
      simp only [List.length_cons, outerPass, List.head?_cons]
      exact GetBestAgentLoop_some rest (i + 1) i a

/-- C27: `GetBestAgent` returns the first element of the list `GetAvailableAgents` returns (and
nothing when that list is empty), for every list of scored agents, ties and NaN scores
included; on the list with two agents tied at 80 both give the first of them, cc_2. -/
theorem GetBestAgent_eq_first_available (scored : List ScoredAgent) :
    GetBestAgent scored = (GetAvailableAgents scored).head?
    ∧ (GetBestAgent scored = none ↔ GetAvailableAgents scored = [])
    ∧ (∀ best, GetBestAgent scored = some best →
        ∃ rest, GetAvailableAgents scored = best :: rest)
    ∧ GetBestAgent tiedAgents = some (testAgent "cc_2" (F64.ofNat 80) false)
    ∧ (GetAvailableAgents tiedAgents).head? = some (testAgent "cc_2" (F64.ofNat 80) false) := by
  have h : GetBestAgent scored = (GetAvailableAgents scored).head? := by
    rw [GetAvailableAgents_eq_outerPass]
    exact GetBestAgentLoop_none scored 0
  refine ⟨h, ?_, ?_, by decide!, by decide!⟩
  · rw [h]
    cases GetAvailableAgents scored with
    | nil => simp
    | cons a l => simp
  · intro best hb
    rw [h] at hb
    cases hl : GetAvailableAgents scored with
    | nil =>
      rw [hl] at hb
      cases hb
    | cons a l =>
      rw [hl] at hb
      simp only [List.head?_cons, Option.some.injEq] at hb
      exact ⟨l, by rw [hb]⟩

/-! ## What `ScoreAgents` never sets -/

/-- The rules of `checkExclusion` read the state, the rate-limit flag, the health state and the
context usage of the agent, nothing else. -/
theorem checkExclusion_congr (config : RoutingConfig) (a b : ScoredAgent)
    (h1 : a.State = b.State) (h2 : a.RateLimited = b.RateLimited)
    (h3 : a.HealthState = b.HealthState) (h4 : a.ContextUsage = b.ContextUsage) :
    checkExclusion config a = checkExclusion config b := by
  unfold checkExclusion
  rw [h1, h2, h3, h4]

/-- The fields of the record the per-pane step builds that do not depend on the scores. -/
theorem scorePane_record (config : RoutingConfig) (now : Time) (prompt : String)
    (pane : Pane) (agentType : String) (activity : Activity) :
    (scorePane config now prompt pane agentType activity).State = activity.State
    ∧ (scorePane config now prompt pane agentType activity).ContextUsage = ⟨false, 0⟩
    ∧ (scorePane config now prompt pane agentType activity).RateLimited = false
    ∧ (scorePane config now prompt pane agentType activity).HealthState
      = deriveHealthState activity.State
    ∧ (scorePane config now prompt pane agentType activity).ExcludeReason
      = (if (checkExclusion config (newScoredAgent pane agentType activity)).1 = true then
          (checkExclusion config (newScoredAgent pane agentType activity)).2
        else "")
    ∧ (scorePane config now prompt pane agentType activity).Excluded
      = (checkExclusion config (newScoredAgent pane agentType activity)).1 := by
  have e : checkExclusion config
      { newScoredAgent pane agentType activity with
        ScoreDetail :=
          calculateScoreComponents config now (newScoredAgent pane agentType activity) prompt }
      = checkExclusion config (newScoredAgent pane agentType activity) :=
    checkExclusion_congr config _ _ rfl rfl rfl rfl
  unfold scorePane
  simp only [e]
  by_cases h : (checkExclusion config (newScoredAgent pane agentType activity)).1 = true
  · rw [if_pos h, if_pos h]
    exact ⟨rfl, rfl, rfl, rfl, rfl, h.symm⟩
  · rw [if_neg h, if_neg h]
    refine ⟨rfl, rfl, rfl, rfl, rfl, ?_⟩
    simp only [Bool.not_eq_true] at h
    rw [h]
    rfl

/-- The outcome of `checkExclusion` on a record built by `ScoreAgents`: only the ERROR rule, the
context rule and the generating rule can match. -/
theorem checkExclusion_newScoredAgent (config : RoutingConfig) (pane : Pane)
    (agentType : String) (activity : Activity) :
    checkExclusion config (newScoredAgent pane agentType activity)
      = (if activity.State = StateError then (true, "agent in ERROR state")
        else if F64.gt ⟨false, 0⟩ config.ExcludeContextAbove = true then
          (true, "context usage above threshold")
        else if config.ExcludeIfGenerating = true ∧ activity.State = StateGenerating then
          (true, "agent is currently generating")
        else (false, "")) := by
  unfold checkExclusion
  have e1 : (newScoredAgent pane agentType activity).State = activity.State := rfl
  have e2 : (newScoredAgent pane agentType activity).RateLimited = false := rfl
  have e3 : (newScoredAgent pane agentType activity).HealthState
      = deriveHealthState activity.State := rfl
  have e4 : (newScoredAgent pane agentType activity).ContextUsage = ⟨false, 0⟩ := rfl
  rw [e1, e2, e3, e4]
  by_cases h1 : activity.State = StateError
  · rw [if_pos h1, if_pos h1]
  · rw [if_neg h1, if_neg h1]
    have h2 : ¬ (deriveHealthState activity.State = HealthUnhealthy) := by
      intro h3
      apply h1
      revert h3
      cases activity.State <;>
        simp [deriveHealthState, HealthHealthy, HealthDegraded, HealthUnhealthy]
    simp only [Bool.and_false, Bool.false_eq_true, if_false, h2, Bool.and_eq_true,
      decide_eq_true_eq]

/-- C28: every agent `ScoreAgents` returns has `ContextUsage` 0, hence `ContextScore` 100 and
`ContextContrib` 100 times the context weight, and with a threshold `ExcludeContextAbove >= 0`
none of them carries the reason "context usage above threshold". -/
theorem ScoreAgents_context_unused {ε : Type} (config : RoutingConfig) (nowOf : Pane → Time)
    (panes : Except ε (List Pane)) (detect : String → String)
    (classify : Pane → String → Except ε Activity) (prompt : String)
    (scored : List ScoredAgent)
    (h : ScoreAgents config nowOf panes detect classify prompt = Except.ok scored) :
    ∀ a ∈ scored,
      a.ContextUsage = F64.ofNat 0
      ∧ a.ScoreDetail.ContextScore = F64.ofNat 100
      ∧ a.ScoreDetail.ContextContrib = F64.mul (F64.ofNat 100) config.ContextWeight
      ∧ (F64.ge config.ExcludeContextAbove (F64.ofNat 0) = true →
          a.ExcludeReason ≠ "context usage above threshold") := by
  intro a ha
  obtain ⟨pane, activity, rfl⟩ :=
    ScoreAgents_mem config nowOf panes detect classify prompt scored h a ha
  obtain ⟨_, r2, _, _, r5, _⟩ :=
    scorePane_record config (nowOf pane) prompt pane (detect pane.Title) activity
  have d := (scorePane_fields config (nowOf pane) prompt pane (detect pane.Title) activity).2.1
  have k0 : F64.sub (F64.ofNat 100) ⟨false, 0⟩ = F64.ofNat 100 := by decide!
  have k1 : F64.lt (F64.ofNat 100) (F64.ofNat 0) = false := by decide!
  have u : (newScoredAgent pane (detect pane.Title) activity).ContextUsage = ⟨false, 0⟩ := rfl
  have s1 : (calculateScoreComponents config (nowOf pane)
      (newScoredAgent pane (detect pane.Title) activity) prompt).ContextScore = F64.ofNat 100 := by
    unfold calculateScoreComponents
    simp only []
    rw [u, k0, k1]
    rfl
  have s2 : (calculateScoreComponents config (nowOf pane)
      (newScoredAgent pane (detect pane.Title) activity) prompt).ContextContrib
      = F64.mul (F64.ofNat 100) config.ContextWeight := by
    unfold calculateScoreComponents
    simp only []
    rw [u, k0, k1]
    rfl
  refine ⟨?_, ?_, ?_, ?_⟩
  · rw [r2, F64.ofNat_zero]
  · rw [d, s1]
  · rw [d, s2]
  · intro hge
    rw [r5, checkExclusion_newScoredAgent]
    have hgt : F64.gt ⟨false, 0⟩ config.ExcludeContextAbove = false := by
      rw [← Bool.not_eq_true, F64.gt_iff]
      rintro ⟨_, _, h3⟩
      rw [F64.ge_iff, F64.ofNat_zero] at hge
      obtain ⟨_, _, h4⟩ := hge
      omega
    rw [hgt]
    simp only [Bool.false_eq_true, if_false]
    split_ifs <;> decide

/-- Witness of C28: one pane with a waiting agent, default configuration. -/
theorem ScoreAgents_context_unused_witness :
    (scorePane DefaultRoutingConfig 0 "" ⟨"%1", "cc_1", 1⟩ "cc"
        ⟨StateWaiting, F64.ofNat 1, F64.ofNat 0, 0⟩).ContextUsage = F64.ofNat 0
    ∧ (scorePane DefaultRoutingConfig 0 "" ⟨"%1", "cc_1", 1⟩ "cc"
        ⟨StateWaiting, F64.ofNat 1, F64.ofNat 0, 0⟩).ScoreDetail.ContextScore = F64.ofNat 100 :=
  ⟨(@ScoreAgents_context_unused String DefaultRoutingConfig (fun _ => 0)
      (Except.ok [⟨"%1", "cc_1", 1⟩]) (fun _ => "cc")
      (fun _ _ => Except.ok ⟨StateWaiting, F64.ofNat 1, F64.ofNat 0, 0⟩) ""
      [scorePane DefaultRoutingConfig 0 "" ⟨"%1", "cc_1", 1⟩ "cc"
        ⟨StateWaiting, F64.ofNat 1, F64.ofNat 0, 0⟩]
      (by simp only [ScoreAgents, List.filterMap_cons, List.filterMap_nil]; rfl) _
      (List.mem_singleton_self _)).1,
    (@ScoreAgents_context_unused String DefaultRoutingConfig (fun _ => 0)
      (Except.ok [⟨"%1", "cc_1", 1⟩]) (fun _ => "cc")
      (fun _ _ => Except.ok ⟨StateWaiting, F64.ofNat 1, F64.ofNat 0, 0⟩) ""
      [scorePane DefaultRoutingConfig 0 "" ⟨"%1", "cc_1", 1⟩ "cc"
        ⟨StateWaiting, F64.ofNat 1, F64.ofNat 0, 0⟩]
      (by simp only [ScoreAgents, List.filterMap_cons, List.filterMap_nil]; rfl) _
      (List.mem_singleton_self _)).2.1⟩

/-- C29: in the agents `ScoreAgents` returns the reasons "agent is rate limited" and "agent is
unhealthy" never occur, whatever the configuration and the classifier output: `RateLimited` is
false, `HealthState` is the value derived from `State`, which is Unhealthy only for the state
Error, and an agent in that state is excluded with the reason "agent in ERROR state". -/
theorem ScoreAgents_reasons_never {ε : Type} (config : RoutingConfig) (nowOf : Pane → Time)
    (panes : Except ε (List Pane)) (detect : String → String)
    (classify : Pane → String → Except ε Activity) (prompt : String)
    (scored : List ScoredAgent)
    (h : ScoreAgents config nowOf panes detect classify prompt = Except.ok scored) :
    ∀ a ∈ scored,
      a.RateLimited = false
      ∧ a.HealthState = deriveHealthState a.State
      ∧ (a.HealthState = HealthUnhealthy ↔ a.State = StateError)
      ∧ a.ExcludeReason ≠ "agent is rate limited"
      ∧ a.ExcludeReason ≠ "agent is unhealthy"
      ∧ (a.State = StateError → a.Excluded = true ∧ a.ExcludeReason = "agent in ERROR state") := by
  intro a ha
  obtain ⟨pane, activity, rfl⟩ :=
    ScoreAgents_mem config nowOf panes detect classify prompt scored h a ha
  obtain ⟨r1, _, r3, r4, r5, r6⟩ :=
    scorePane_record config (nowOf pane) prompt pane (detect pane.Title) activity
  rw [r1, r3, r4, r5, r6, checkExclusion_newScoredAgent]
  refine ⟨rfl, rfl, ?_, ?_, ?_, ?_⟩
  · cases activity.State <;>
      simp [deriveHealthState, HealthHealthy, HealthDegraded, HealthUnhealthy]
  · split_ifs <;> decide
  · split_ifs <;> decide
  · intro he
    rw [if_pos he]
    exact ⟨rfl, rfl⟩

/-- Witness of C29: one pane whose agent is in the state Error, default configuration. -/
theorem ScoreAgents_reasons_never_witness :
    (scorePane DefaultRoutingConfig 0 "" ⟨"%1", "cc_1", 1⟩ "cc"
        ⟨StateError, F64.ofNat 1, F64.ofNat 0, 0⟩).RateLimited = false
    ∧ (scorePane DefaultRoutingConfig 0 "" ⟨"%1", "cc_1", 1⟩ "cc"
        ⟨StateError, F64.ofNat 1, F64.ofNat 0, 0⟩).ExcludeReason ≠ "agent is unhealthy" :=
  ⟨(@ScoreAgents_reasons_never String DefaultRoutingConfig (fun _ => 0)
      (Except.ok [⟨"%1", "cc_1", 1⟩]) (fun _ => "cc")
      (fun _ _ => Except.ok ⟨StateError, F64.ofNat 1, F64.ofNat 0, 0⟩) ""
      [scorePane DefaultRoutingConfig 0 "" ⟨"%1", "cc_1", 1⟩ "cc"
        ⟨StateError, F64.ofNat 1, F64.ofNat 0, 0⟩]
      (by simp only [ScoreAgents, List.filterMap_cons, List.filterMap_nil]; rfl) _
      (List.mem_singleton_self _)).1,
    (@ScoreAgents_reasons_never String DefaultRoutingConfig (fun _ => 0)
      (Except.ok [⟨"%1", "cc_1", 1⟩]) (fun _ => "cc")
      (fun _ _ => Except.ok ⟨StateError, F64.ofNat 1, F64.ofNat 0, 0⟩) ""
      [scorePane DefaultRoutingConfig 0 "" ⟨"%1", "cc_1", 1⟩ "cc"
        ⟨StateError, F64.ofNat 1, F64.ofNat 0, 0⟩]
      (by simp only [ScoreAgents, List.filterMap_cons, List.filterMap_nil]; rfl) _
      (List.mem_singleton_self _)).2.2.2.2.1⟩

/-! ## The error of one rounding -/

namespace F64

/-- The nearest integer to `a / b` is within one half of it. -/
theorem rhe_error (a b : Nat) (hb : 0 < b) :
    2 * (rhe a b * b) ≤ 2 * a + b ∧ 2 * a ≤ 2 * (rhe a b * b) + b := by
  have d : b * (a / b) + a % b = a := Nat.div_add_mod a b
  have hr : a % b < b := Nat.mod_lt a hb
  have e0 : a / b * b = b * (a / b) := Nat.mul_comm _ _
  have e1 : (a / b + 1) * b = b * (a / b) + b := by ring
  unfold rhe
  split_ifs with h1 h2 h3
  · rw [e0]
    omega
  · rw [e1]
    omega
  · rw [e0]
    omega
  · rw [e1]
    omega

/-- The absolute value encoded by the shift `s` and the rounded significand `q`: `q * 2^s`
units, also when the significand is subnormal or has carried into the exponent. -/
theorem units_encode (b : Bool) (s q : Nat) (hq : q ≤ 2 ^ 53) (hs : 0 < s → 2 ^ 52 ≤ q) :
    units ⟨b, s * 2 ^ 52 + q⟩ = q * 2 ^ s := by
  have p52 : 0 < 2 ^ 52 := by norm_num
  have e53 : (2 : Nat) ^ 53 = 2 ^ 52 + 2 ^ 52 := by norm_num
  unfold units
  simp only []
  by_cases c1 : q < 2 ^ 52
  · have s0 : s = 0 := by
      by_contra hne
      have := hs (by omega)
      omega
    subst s0
    have e1 : (0 * 2 ^ 52 + q) / 2 ^ 52 = 0 := by
      rw [Nat.zero_mul, Nat.zero_add]
      exact Nat.div_eq_of_lt c1
    have e2 : (0 * 2 ^ 52 + q) % 2 ^ 52 = q := by
      rw [Nat.zero_mul, Nat.zero_add]
      exact Nat.mod_eq_of_lt c1
    rw [if_pos e1, e2]
    simp
  · by_cases c2 : q < 2 ^ 53
    · have em : s * 2 ^ 52 + q = (q - 2 ^ 52) + (s + 1) * 2 ^ 52 := by
        have : (s + 1) * 2 ^ 52 = s * 2 ^ 52 + 2 ^ 52 := by ring
        omega
      have hlt : q - 2 ^ 52 < 2 ^ 52 := by omega
      have e1 : (s * 2 ^ 52 + q) / 2 ^ 52 = s + 1 := by
        rw [em, Nat.add_mul_div_right _ _ p52, Nat.div_eq_of_lt hlt]
        omega
      have e2 : (s * 2 ^ 52 + q) % 2 ^ 52 = q - 2 ^ 52 := by
        rw [em, Nat.add_mul_mod_self_right, Nat.mod_eq_of_lt hlt]
      rw [if_neg (by omega), e1, e2]
      have e3 : 2 ^ 52 + (q - 2 ^ 52) = q := by omega
      rw [e3, Nat.add_sub_cancel]
    · have hq2 : q = 2 ^ 53 := by omega
      have em : s * 2 ^ 52 + q = 0 + (s + 2) * 2 ^ 52 := by
        have : (s + 2) * 2 ^ 52 = s * 2 ^ 52 + (2 ^ 52 + 2 ^ 52) := by ring
        omega
      have e1 : (s * 2 ^ 52 + q) / 2 ^ 52 = s + 2 := by
        rw [em, Nat.add_mul_div_right _ _ p52, Nat.zero_div]
        omega
      have e2 : (s * 2 ^ 52 + q) % 2 ^ 52 = 0 := by
        rw [em, Nat.add_mul_mod_self_right, Nat.zero_mod]
      rw [if_neg (by omega), e1, e2, hq2]
      have e3 : s + 2 - 1 = s + 1 := by omega
      rw [e3, Nat.add_zero, pow_succ]
      ring

/-- The rounded significand of `roundMag` has at most 53 bits, a carry included. -/
theorem rhe_shifted_le (num den : Nat) :
    rhe num (den * 2 ^ (log2 (num / den) - 52)) ≤ 2 ^ 53 := by
  have := shifted_lt num den
  have := rhe_le num (den * 2 ^ (log2 (num / den) - 52))
  omega

theorem rhe_shifted_ge (num den : Nat) (hs : 0 < log2 (num / den) - 52) :
    2 ^ 52 ≤ rhe num (den * 2 ^ (log2 (num / den) - 52)) := by
  have := shifted_ge num den hs
  have := rhe_ge num (den * 2 ^ (log2 (num / den) - 52))
  omega

/-- Rounding up: the rounded value is at most `(1 + 2^-53)` times the exact one, plus half a
unit. -/
theorem units_roundMag_le (b : Bool) (num den : Nat) (hd : 0 < den) :
    units ⟨b, roundMag num den⟩ * den * 2 ^ 53 ≤ num * (2 ^ 53 + 1) + den * 2 ^ 52 := by
  have hp : 0 < 2 ^ (log2 (num / den) - 52) := Nat.pow_pos (by norm_num)
  have hD : 0 < den * 2 ^ (log2 (num / den) - 52) := Nat.mul_pos hd hp
  have h1 : units ⟨b, roundMag num den⟩
      ≤ units ⟨b, (log2 (num / den) - 52) * 2 ^ 52
          + rhe num (den * 2 ^ (log2 (num / den) - 52))⟩ := by
    apply units_mono
    unfold roundMag
    exact min_le_left _ _
  rw [units_encode b _ _ (rhe_shifted_le num den) (rhe_shifted_ge num den)] at h1
  obtain ⟨e1, _⟩ := rhe_error num (den * 2 ^ (log2 (num / den) - 52)) hD
  generalize rhe num (den * 2 ^ (log2 (num / den) - 52)) = q at h1 e1
  have hle : (2 ^ (log2 (num / den) - 52) = 1 ∧ log2 (num / den) - 52 = 0)
      ∨ (0 < log2 (num / den) - 52
          ∧ 2 ^ 52 * (den * 2 ^ (log2 (num / den) - 52)) ≤ num) := by
    by_cases hs : log2 (num / den) - 52 = 0
    · left
      rw [hs]
      exact ⟨rfl, rfl⟩
    · right
      refine ⟨by omega, ?_⟩
      have := shifted_ge num den (by omega)
      rw [Nat.le_div_iff_mul_le hD] at this
      exact this
  generalize 2 ^ (log2 (num / den) - 52) = t at *
  generalize units ⟨b, roundMag num den⟩ = u at *
  have h2 : u * den ≤ q * (den * t) := by
    calc u * den ≤ q * t * den := Nat.mul_le_mul_right _ h1
      _ = q * (den * t) := by ring
  have h3 : u * den * 2 ^ 53 ≤ q * (den * t) * 2 ^ 53 := Nat.mul_le_mul_right _ h2
  rcases hle with ⟨ht, _⟩ | ⟨_, hbig⟩
  · subst ht
    rw [Nat.mul_one] at e1 h3
    omega
  · omega

/-- Rounding down: the exact value is at most `(1 + 2^-53)` times the rounded one, plus half a
unit, when the rounding does not overflow. -/
theorem le_units_roundMag (b : Bool) (num den : Nat) (hd : 0 < den)
    (hfin : roundMag num den < infMag) :
    num * 2 ^ 53 ≤ units ⟨b, roundMag num den⟩ * den * (2 ^ 53 + 1) + den * 2 ^ 52 := by
  have hp : 0 < 2 ^ (log2 (num / den) - 52) := Nat.pow_pos (by norm_num)
  have hD : 0 < den * 2 ^ (log2 (num / den) - 52) := Nat.mul_pos hd hp
  have h0 : roundMag num den
      = (log2 (num / den) - 52) * 2 ^ 52 + rhe num (den * 2 ^ (log2 (num / den) - 52)) := by
    unfold roundMag at hfin ⊢
    simp only [] at hfin ⊢
    rw [min_def] at hfin ⊢
    split_ifs at hfin ⊢ with hc
    · rfl
    · omega
  rw [h0, units_encode b _ _ (rhe_shifted_le num den) (rhe_shifted_ge num den)]
  obtain ⟨_, e2⟩ := rhe_error num (den * 2 ^ (log2 (num / den) - 52)) hD
  have hq : 0 < log2 (num / den) - 52 →
      2 ^ 52 ≤ rhe num (den * 2 ^ (log2 (num / den) - 52)) := rhe_shifted_ge num den
  generalize rhe num (den * 2 ^ (log2 (num / den) - 52)) = q at e2 hq
  have hle : (2 ^ (log2 (num / den) - 52) = 1 ∧ log2 (num / den) - 52 = 0)
      ∨ 0 < log2 (num / den) - 52 := by
    by_cases hs : log2 (num / den) - 52 = 0
    · left
      rw [hs]
      exact ⟨rfl, rfl⟩
    · right
      omega
  generalize 2 ^ (log2 (num / den) - 52) = t at *
  have e3 : q * t * den = q * (den * t) := by ring
  rw [e3]
  rcases hle with ⟨ht, _⟩ | hs
  · subst ht
    rw [Nat.mul_one] at e2 ⊢
    have e4 : q * den * (2 ^ 53 + 1) = q * den * 2 ^ 53 + q * den := by ring
    omega
  · have hq2 := hq hs
    have h5 : 2 ^ 52 * (den * t) ≤ q * (den * t) := Nat.mul_le_mul_right _ hq2
    have e4 : q * (den * t) * (2 ^ 53 + 1) = q * (den * t) * 2 ^ 53 + q * (den * t) := by ring
    omega

end F64

/-! ## Arithmetic on values that are not negative -/

namespace F64

theorem finite_of_add_finite {x y : F64} (h : (add x y).mag < infMag) :
    x.mag < infMag ∧ y.mag < infMag := by
  unfold add at h
  split_ifs at h with h1 h2 h3 h4
  · exact absurd h (by decide)
  · exact absurd h (by decide)
  · simp only [isInf, decide_eq_true_eq] at h2
    omega
  · simp only [isInf, decide_eq_true_eq] at h4
    omega
  all_goals
    simp only [Bool.or_eq_true, not_or, Bool.not_eq_true, isNaN, decide_eq_false_iff_not,
      isInf] at h1 h2 h4
    omega

/-- The sum of two finite values that are not negative: the rounded exact sum, not negative. -/
theorem add_of_nonneg {x y : F64} (hx : x.mag < infMag) (hy : y.mag < infMag)
    (sx : x.neg = true → x.mag = 0) (sy : y.neg = true → y.mag = 0) :
    (add x y).mag = roundMag (x.units + y.units) 1
    ∧ ((add x y).neg = true → (add x y).mag = 0) := by
  have zx : x.mag = 0 → x.units = 0 := units_of_mag_zero
  have zy : y.mag = 0 → y.units = 0 := units_of_mag_zero
  have r0 : roundMag 0 1 = 0 := roundMag_zero 1 (by norm_num)
  unfold add
  simp only [isNaN_false_of_le (Nat.le_of_lt hx), isNaN_false_of_le (Nat.le_of_lt hy),
    isInf_false_of_lt hx, isInf_false_of_lt hy, Bool.or_false, Bool.false_eq_true, if_false]
  split_ifs with h1 h2 h3
  · refine ⟨rfl, ?_⟩
    intro hn
    rw [round_neg] at hn
    rw [round_mag, zx (sx hn), zy (sy (h1 ▸ hn))]
    exact r0
  · have hz : x.units = 0 ∧ y.units = 0 := by
      cases hxn : x.neg
      · have hyn : y.neg = true := by
          cases hyn : y.neg
          · rw [hxn, hyn] at h1
            exact absurd rfl h1
          · rfl
        have := zy (sy hyn)
        omega
      · have := zx (sx hxn)
        omega
    refine ⟨?_, fun hn => rfl⟩
    rw [hz.1, hz.2]
    exact r0.symm
  · have hxn : x.neg = false := by
      cases hxn : x.neg
      · rfl
      · have := zx (sx hxn)
        omega
    have hyn : y.neg = true := by
      cases hyn : y.neg
      · rw [hxn, hyn] at h1
        exact absurd rfl h1
      · rfl
    have hyu := zy (sy hyn)
    rw [round_mag, round_neg, hyu, hxn]
    exact ⟨rfl, fun hn => absurd hn (by decide)⟩
  · have hyn : y.neg = false := by
      cases hyn : y.neg
      · rfl
      · have := zy (sy hyn)
        omega
    have hxn : x.neg = true := by
      cases hxn : x.neg
      · rw [hxn, hyn] at h1
        exact absurd rfl h1
      · rfl
    have hxu := zx (sx hxn)
    rw [round_mag, round_neg, hxu, hyn]
    refine ⟨?_, fun hn => absurd hn (by decide)⟩
    rw [Nat.sub_zero, Nat.zero_add]

/-- The product of two finite values that are not negative: the rounded exact product, not
negative. -/
theorem mul_of_nonneg {x y : F64} (hx : x.mag < infMag) (hy : y.mag < infMag)
    (sx : x.neg = true → x.mag = 0) (sy : y.neg = true → y.mag = 0) :
    (mul x y).mag = roundMag (x.units * y.units) (2 ^ 1074)
    ∧ ((mul x y).neg = true → (mul x y).mag = 0) := by
  rw [mul_of_finite hx hy, round_mag, round_neg]
  refine ⟨rfl, ?_⟩
  intro hn
  have hz : x.units * y.units = 0 := by
    cases hxn : x.neg
    · cases hyn : y.neg
      · rw [hxn, hyn] at hn
        exact absurd hn (by decide)
      · rw [units_of_mag_zero (sy hyn), Nat.mul_zero]
    · rw [units_of_mag_zero (sx hxn), Nat.zero_mul]
  rw [hz]
  exact roundMag_zero _ (by positivity)

/-- A value that is `>= 0` is not NaN and is negative only as `-0`. -/
theorem nonneg_of_ge_zero {x : F64} (h : ge x (ofNat 0) = true) :
    x.mag ≤ infMag ∧ (x.neg = true → x.mag = 0) := by
  rw [ge_iff, ofNat_zero] at h
  obtain ⟨h1, _, h3⟩ := h
  simp only [isNaN, decide_eq_false_iff_not] at h1
  refine ⟨by omega, ?_⟩
  intro hn
  unfold key at h3
  simp only [hn, if_true, Bool.false_eq_true, if_false] at h3
  omega

/-- A value that is not NaN and negative only as `-0` is `>= 0`. -/
theorem ge_zero_of_nonneg {x : F64} (h1 : x.mag ≤ infMag) (h2 : x.neg = true → x.mag = 0) :
    le (ofNat 0) x = true := by
  rw [le_iff, ofNat_zero]
  refine ⟨by decide, isNaN_false_of_le h1, ?_⟩
  unfold key
  cases hn : x.neg
  · simp
  · simp [h2 hn]

theorem mag_lt_of_units_lt {x y : F64} (h : x.units < y.units) : x.mag < y.mag := by
  by_contra hc
  have := units_mono (Nat.le_of_not_lt hc)
  omega

end F64

/-! ## The weighted sum -/

/-- The chain of roundings of the weighted sum, on the absolute values in units of `2^-1074`:
`a`, `b`, `c` are the weights, which sum to 1 in floating point (`f1` is the rounded `a + b`) or
exactly; `p1`, `p2`, `p3` the rounded products with scores of at most 100; `s0`, `s1`, `s2` the
rounded running sums.  Every value stays far below the overflow threshold, and the last is below
`100 + 5 * 2^-46`. -/
theorem weightedSum_chain (a b c f1 p1 p2 p3 s0 s1 s2 : Nat)
    (hw : ((a + b) * 2 ^ 53 ≤ f1 * (2 ^ 53 + 1) + 2 ^ 52
          ∧ (f1 + c) * 2 ^ 53 ≤ 2 ^ 1074 * (2 ^ 53 + 1) + 2 ^ 52)
        ∨ a + b + c = 2 ^ 1074)
    (q1 : p1 * 2 ^ 53 ≤ 100 * a * (2 ^ 53 + 1) + 2 ^ 52)
    (q2 : p2 * 2 ^ 53 ≤ 100 * b * (2 ^ 53 + 1) + 2 ^ 52)
    (q3 : p3 * 2 ^ 53 ≤ 100 * c * (2 ^ 53 + 1) + 2 ^ 52) :
    p1 < 2 ^ 2098 ∧ p2 < 2 ^ 2098 ∧ p3 < 2 ^ 2098
    ∧ (s0 * 2 ^ 53 ≤ (p1 + p2) * (2 ^ 53 + 1) + 2 ^ 52 →
        s0 < 2 ^ 2098
        ∧ (s1 * 2 ^ 53 ≤ (s0 + p3) * (2 ^ 53 + 1) + 2 ^ 52 →
            s1 < 2 ^ 2098
            ∧ (s2 * 2 ^ 53 ≤ (s1 + 0) * (2 ^ 53 + 1) + 2 ^ 52 →
                s2 < 100 * 2 ^ 1074 + 5 * 2 ^ 1028))) := by
  norm_num at *
  rcases hw with ⟨w1, w2⟩ | w
  · refine ⟨by omega, by omega, by omega, ?_⟩
    intro t0
    refine ⟨by omega, ?_⟩
    intro t1
    refine ⟨by omega, ?_⟩
    intro t2
    omega
  · refine ⟨by omega, by omega, by omega, ?_⟩
    intro t0
    refine ⟨by omega, ?_⟩
    intro t1
    refine ⟨by omega, ?_⟩
    intro t2
    omega

namespace F64

theorem units_one : (ofNat 1).units = 2 ^ 1074 := by decide!

theorem units_hundred : (ofNat 100).units = 100 * 2 ^ 1074 := by decide!

theorem units_inf : units ⟨false, infMag⟩ = 2 ^ 2098 := by decide!

theorem units_above_hundred :
    units ⟨false, 4636737291354636293⟩ = 100 * 2 ^ 1074 + 5 * 2 ^ 1028 := by decide!

theorem finite_of_units_lt {x : F64} (h : x.units < 2 ^ 2098) : x.mag < infMag := by
  rw [← units_inf] at h
  exact mag_lt_of_units_lt h

/-- One rounded product of a score of at most 100 and a weight. -/
theorem mul_score_weight {c w : F64} (hc : c.mag ≤ 4636737291354636288)
    (sc : c.neg = true → c.mag = 0) (hw : w.mag < infMag) (sw : w.neg = true → w.mag = 0) :
    (mul c w).units * 2 ^ 53 ≤ 100 * w.units * (2 ^ 53 + 1) + 2 ^ 52
    ∧ ((mul c w).neg = true → (mul c w).mag = 0) := by
  have hcf : c.mag < infMag := by
    rw [infMag_eq]
    omega
  obtain ⟨h1, h2⟩ := mul_of_nonneg hcf hw sc sw
  refine ⟨?_, h2⟩
  have hu : c.units ≤ 100 * 2 ^ 1074 := by
    rw [← units_hundred]
    apply units_mono
    rw [ofNat_hundred]
    exact hc
  have h3 := units_roundMag_le (mul c w).neg (c.units * w.units) (2 ^ 1074) (by positivity)
  have e : units ⟨(mul c w).neg, roundMag (c.units * w.units) (2 ^ 1074)⟩ = (mul c w).units := by
    rw [← h1]
  rw [e] at h3
  have h4 : c.units * w.units ≤ 100 * 2 ^ 1074 * w.units := Nat.mul_le_mul_right _ hu
  have h5 : (mul c w).units * 2 ^ 1074 * 2 ^ 53
      ≤ 100 * 2 ^ 1074 * w.units * (2 ^ 53 + 1) + 2 ^ 1074 * 2 ^ 52 :=
    le_trans h3 (Nat.add_le_add_right (Nat.mul_le_mul_right _ h4) _)
  have h6 : 2 ^ 1074 * ((mul c w).units * 2 ^ 53)
      ≤ 2 ^ 1074 * (100 * w.units * (2 ^ 53 + 1) + 2 ^ 52) := by
    calc 2 ^ 1074 * ((mul c w).units * 2 ^ 53) = (mul c w).units * 2 ^ 1074 * 2 ^ 53 := by ring
      _ ≤ 100 * 2 ^ 1074 * w.units * (2 ^ 53 + 1) + 2 ^ 1074 * 2 ^ 52 := h5
      _ = 2 ^ 1074 * (100 * w.units * (2 ^ 53 + 1) + 2 ^ 52) := by ring
  exact Nat.le_of_mul_le_mul_left h6 (by positivity)

/-- One rounded sum of finite values that are not negative. -/
theorem add_units_le {x y : F64} (hx : x.mag < infMag) (hy : y.mag < infMag)
    (sx : x.neg = true → x.mag = 0) (sy : y.neg = true → y.mag = 0) :
    (add x y).units * 2 ^ 53 ≤ (x.units + y.units) * (2 ^ 53 + 1) + 2 ^ 52
    ∧ ((add x y).neg = true → (add x y).mag = 0) := by
  obtain ⟨h1, h2⟩ := add_of_nonneg hx hy sx sy
  refine ⟨?_, h2⟩
  have h3 := units_roundMag_le (add x y).neg (x.units + y.units) 1 (by norm_num)
  have e : units ⟨(add x y).neg, roundMag (x.units + y.units) 1⟩ = (add x y).units := by
    rw [← h1]
  rw [e] at h3
  omega

/-- The exact sum is near the rounded one when two values that are not negative add up to a
finite value. -/
theorem le_add_units {x y : F64} (hx : x.mag < infMag) (hy : y.mag < infMag)
    (sx : x.neg = true → x.mag = 0) (sy : y.neg = true → y.mag = 0)
    (hfin : (add x y).mag < infMag) :
    (x.units + y.units) * 2 ^ 53 ≤ (add x y).units * (2 ^ 53 + 1) + 2 ^ 52 := by
  obtain ⟨h1, _⟩ := add_of_nonneg hx hy sx sy
  rw [h1] at hfin
  have h3 := le_units_roundMag (add x y).neg (x.units + y.units) 1 (by norm_num) hfin
  have e : units ⟨(add x y).neg, roundMag (x.units + y.units) 1⟩ = (add x y).units := by
    rw [← h1]
  rw [e] at h3
  omega

end F64

/-- The weighted sum of three scores of at most 100 with weights that are not negative and sum
to 1 (in floating point, or exactly), plus a zero bonus: it is not negative and at most
`100 + 4 * 2^-46`. -/
theorem weightedSum_range {cs ss rs cw sw rw : F64}
    (hcs : cs.mag ≤ 4636737291354636288) (ncs : cs.neg = true → cs.mag = 0)
    (hss : ss.mag ≤ 4636737291354636288) (nss : ss.neg = true → ss.mag = 0)
    (hrs : rs.mag ≤ 4636737291354636288) (nrs : rs.neg = true → rs.mag = 0)
    (hcw : F64.ge cw (F64.ofNat 0) = true) (hsw : F64.ge sw (F64.ofNat 0) = true)
    (hrw : F64.ge rw (F64.ofNat 0) = true)
    (hsum : F64.add (F64.add cw sw) rw = F64.ofNat 1
      ∨ cw.units + sw.units + rw.units = (F64.ofNat 1).units) :
    (F64.add (F64.add (F64.add (F64.mul cs cw) (F64.mul ss sw)) (F64.mul rs rw)) ⟨false, 0⟩).mag
      ≤ 4636737291354636292
    ∧ ((F64.add (F64.add (F64.add (F64.mul cs cw) (F64.mul ss sw)) (F64.mul rs rw))
          ⟨false, 0⟩).neg = true →
        (F64.add (F64.add (F64.add (F64.mul cs cw) (F64.mul ss sw)) (F64.mul rs rw))
          ⟨false, 0⟩).mag = 0) := by
  obtain ⟨mcw, ncw⟩ := F64.nonneg_of_ge_zero hcw
  obtain ⟨msw, nsw⟩ := F64.nonneg_of_ge_zero hsw
  obtain ⟨mrw, nrw⟩ := F64.nonneg_of_ge_zero hrw
  have one_fin : (F64.ofNat 1).mag < F64.infMag := by decide!
  -- the weights are finite, and their sum is near 1
  have hfin : cw.mag < F64.infMag ∧ sw.mag < F64.infMag ∧ rw.mag < F64.infMag := by
    rcases hsum with h | h
    · have h1 : (F64.add (F64.add cw sw) rw).mag < F64.infMag := by
        rw [h]
        exact one_fin
      obtain ⟨h2, h3⟩ := F64.finite_of_add_finite h1
      obtain ⟨h4, h5⟩ := F64.finite_of_add_finite h2
      exact ⟨h4, h5, h3⟩
    · rw [F64.units_one] at h
      have e : (2 : Nat) ^ 1074 < 2 ^ 2098 := by norm_num
      exact ⟨F64.finite_of_units_lt (by omega), F64.finite_of_units_lt (by omega),
        F64.finite_of_units_lt (by omega)⟩
  obtain ⟨fcw, fsw, frw⟩ := hfin
  have hw : ((cw.units + sw.units) * 2 ^ 53 ≤ (F64.add cw sw).units * (2 ^ 53 + 1) + 2 ^ 52
        ∧ ((F64.add cw sw).units + rw.units) * 2 ^ 53 ≤ 2 ^ 1074 * (2 ^ 53 + 1) + 2 ^ 52)
      ∨ cw.units + sw.units + rw.units = 2 ^ 1074 := by
    rcases hsum with h | h
    · left
      have h1 : (F64.add (F64.add cw sw) rw).mag < F64.infMag := by
        rw [h]
        exact one_fin
      obtain ⟨h2, _⟩ := F64.finite_of_add_finite h1
      obtain ⟨_, n2⟩ := F64.add_of_nonneg fcw fsw ncw nsw
      have k1 := F64.le_add_units fcw fsw ncw nsw h2
      have k2 := F64.le_add_units h2 frw n2 nrw h1
      rw [h, F64.units_one] at k2
      exact ⟨k1, k2⟩
    · right
      rw [F64.units_one] at h
      exact h
  -- the three products
  obtain ⟨q1, n1⟩ := F64.mul_score_weight hcs ncs fcw ncw
  obtain ⟨q2, n2⟩ := F64.mul_score_weight hss nss fsw nsw
  obtain ⟨q3, n3⟩ := F64.mul_score_weight hrs nrs frw nrw
  obtain ⟨b1, b2, b3, rest0⟩ := weightedSum_chain cw.units sw.units rw.units
    (F64.add cw sw).units (F64.mul cs cw).units (F64.mul ss sw).units (F64.mul rs rw).units
    (F64.add (F64.mul cs cw) (F64.mul ss sw)).units
    (F64.add (F64.add (F64.mul cs cw) (F64.mul ss sw)) (F64.mul rs rw)).units
    (F64.add (F64.add (F64.add (F64.mul cs cw) (F64.mul ss sw)) (F64.mul rs rw)) ⟨false, 0⟩).units
    hw q1 q2 q3
  have f1 := F64.finite_of_units_lt b1
  have f2 := F64.finite_of_units_lt b2
  have f3 := F64.finite_of_units_lt b3
  -- the three sums
  obtain ⟨t0, m0⟩ := F64.add_units_le f1 f2 n1 n2
  obtain ⟨b4, rest1⟩ := rest0 t0
  have f4 := F64.finite_of_units_lt b4
  obtain ⟨t1, m1⟩ := F64.add_units_le f4 f3 m0 n3
  obtain ⟨b5, rest2⟩ := rest1 t1
  have f5 := F64.finite_of_units_lt b5
  have z1 : (⟨false, 0⟩ : F64).mag < F64.infMag := by decide
  have z2 : (⟨false, 0⟩ : F64).neg = true → (⟨false, 0⟩ : F64).mag = 0 := fun _ => rfl
  obtain ⟨t2, m2⟩ := F64.add_units_le f5 z1 m1 z2
  have z3 : (⟨false, 0⟩ : F64).units = 0 := rfl
  rw [z3] at t2
  have b6 := rest2 t2
  refine ⟨?_, m2⟩
  by_contra hc
  have h5 : (4636737291354636293 : Nat)
      ≤ (F64.add (F64.add (F64.add (F64.mul cs cw) (F64.mul ss sw)) (F64.mul rs rw))
          ⟨false, 0⟩).mag := by omega
  have h6 := @F64.units_mono ⟨false, 4636737291354636293⟩ _ h5
  rw [F64.units_above_hundred] at h6
  omega

/-! ## The range of the three scores -/

namespace F64

/-- The difference `100 - usage` for a usage in `[0, 100]`: the rounded exact difference. -/
theorem sub_hundred_eq {usage : F64} (hs : usage.neg = true → usage.mag = 0)
    (hle : usage.units ≤ (ofNat 100).units) :
    sub (ofNat 100) usage = ⟨false, roundMag ((ofNat 100).units - usage.units) 1⟩ := by
  have hm : usage.mag < infMag := by
    apply finite_of_units_lt
    rw [units_hundred] at hle
    have : (100 : Nat) * 2 ^ 1074 < 2 ^ 2098 := by norm_num
    omega
  have hn : (ofNat 100).isNaN = false := by decide!
  have hi : (ofNat 100).isInf = false := by decide!
  have hsg : (ofNat 100).neg = false := by decide!
  have e1 : (fneg usage).isNaN = false := isNaN_false_of_le (Nat.le_of_lt hm)
  have e2 : (fneg usage).isInf = false := isInf_false_of_lt hm
  have e3 : (fneg usage).units = usage.units := rfl
  have e4 : (fneg usage).neg = !usage.neg := rfl
  unfold sub add
  simp only [hn, hi, hsg, e1, e2, e3, e4, Bool.false_or, Bool.false_eq_true, if_false]
  generalize (ofNat 100).units = h at hle ⊢
  split_ifs with h1 h2 h3
  · have hneg : usage.neg = true := by
      cases hu : usage.neg
      · rw [hu] at h1
        exact absurd h1 (by decide)
      · rfl
    rw [units_of_mag_zero (hs hneg), Nat.add_zero, Nat.sub_zero]
    rfl
  · rw [← h2, Nat.sub_self, roundMag_zero 1 (by norm_num)]
  · rfl
  · omega

/-- The difference `100 - usage` for a usage above 100 (`+Inf` included) is below 0. -/
theorem sub_hundred_lt_zero {usage : F64} (hm : usage.mag ≤ infMag)
    (hs : usage.neg = true → usage.mag = 0) (hgt : (ofNat 100).units < usage.units) :
    lt (sub (ofNat 100) usage) (ofNat 0) = true := by
  have hn : (ofNat 100).isNaN = false := by decide!
  have hi : (ofNat 100).isInf = false := by decide!
  have hsg : (ofNat 100).neg = false := by decide!
  have e1 : (fneg usage).isNaN = false := isNaN_false_of_le hm
  have e3 : (fneg usage).units = usage.units := rfl
  have hpos : usage.mag ≠ 0 := by
    intro h0
    rw [units_of_mag_zero h0] at hgt
    omega
  have hneg : usage.neg = false := by
    cases hu : usage.neg
    · rfl
    · exact absurd (hs hu) hpos
  have e4 : (fneg usage).neg = true := by
    show (!usage.neg) = true
    rw [hneg]
    rfl
  have key : ∀ r : F64, r.neg = true → r.mag ≤ infMag → 0 < r.mag → lt r (ofNat 0) = true := by
    intro r h1 h2 h3
    rw [lt_iff, ofNat_zero]
    refine ⟨isNaN_false_of_le h2, by decide, ?_⟩
    unfold F64.key
    simp only [h1, if_true, Bool.false_eq_true, if_false]
    omega
  unfold sub add
  simp only [hn, hi, hsg, e1, e3, e4, Bool.false_or, Bool.false_eq_true, if_false]
  generalize (ofNat 100).units = h at hgt ⊢
  split_ifs with h1 h2 h3
  · apply key _ e4 hm
    show 0 < usage.mag
    omega
  · omega
  · omega
  · apply key _ (round_neg _ _ _) (roundMag_le_infMag _ _)
    rw [round_mag]
    exact roundMag_pos _ (by omega)

end F64

/-- The context score for a usage that is `>= 0`: between 0 and 100. -/
theorem contextScore_range {usage : F64} (h : F64.ge usage (F64.ofNat 0) = true) :
    (if F64.lt (F64.sub (F64.ofNat 100) usage) (F64.ofNat 0) = true then F64.ofNat 0
      else F64.sub (F64.ofNat 100) usage).mag ≤ 4636737291354636288
    ∧ ((if F64.lt (F64.sub (F64.ofNat 100) usage) (F64.ofNat 0) = true then F64.ofNat 0
        else F64.sub (F64.ofNat 100) usage).neg = true →
      (if F64.lt (F64.sub (F64.ofNat 100) usage) (F64.ofNat 0) = true then F64.ofNat 0
        else F64.sub (F64.ofNat 100) usage).mag = 0) := by
  obtain ⟨hm, hs⟩ := F64.nonneg_of_ge_zero h
  by_cases hle : usage.units ≤ (F64.ofNat 100).units
  · have e := F64.sub_hundred_eq hs hle
    have hlt : F64.lt (F64.sub (F64.ofNat 100) usage) (F64.ofNat 0) = false := by
      rw [e, ← Bool.not_eq_true, F64.lt_iff, F64.ofNat_zero]
      rintro ⟨_, _, h3⟩
      unfold F64.key at h3
      simp only [Bool.false_eq_true, if_false] at h3
      omega
    rw [hlt, e]
    simp only [Bool.false_eq_true, if_false]
    refine ⟨?_, fun hn => absurd hn (by decide)⟩
    have k : F64.roundMag (F64.ofNat 100).units 1 = 4636737291354636288 := by decide!
    rw [← k]
    exact F64.roundMag_mono (by norm_num) (by norm_num) (by omega)
  · have hlt := F64.sub_hundred_lt_zero hm hs (by omega)
    rw [hlt]
    simp only [if_true]
    rw [F64.ofNat_zero]
    exact ⟨by norm_num, fun _ => rfl⟩

/-- The normalized state score: between 0 and 100. -/
theorem stateScore_range (state : AgentState) :
    (F64.div (F64.add (stateToScore state) (F64.ofNat 100)) (F64.ofNat 2)).mag
      ≤ 4636737291354636288
    ∧ (F64.div (F64.add (stateToScore state) (F64.ofNat 100)) (F64.ofNat 2)).neg = false := by
  cases state <;> simp only [stateToScore] <;> decide!

/-- The recency score: between 0 and 100. -/
theorem recencyToScore_range (now lastActivity : Time) :
    (recencyToScore now lastActivity).mag ≤ 4636737291354636288
    ∧ (recencyToScore now lastActivity).neg = false := by
  unfold recencyToScore
  split_ifs <;> decide!

/-- The affinity bonus is zero in every case. -/
theorem affinityBonus_zero (config : RoutingConfig) (now : Time) (agent : ScoredAgent)
    (prompt : String) :
    (calculateScoreComponents config now agent prompt).AffinityBonus = ⟨false, 0⟩ := by
  unfold calculateScoreComponents
  simp only [calculateAffinity, ScoreBreakdown.zero, F64.ofNat_zero, ite_self]

/-! ## The final score of a weighted sum -/

/-- Where the weighted sum can lie, clamping to `[0, 100]` does not change the value rounded to
2 decimals. -/
theorem roundTo2Decimals_clamp (s : F64) (h1 : s.mag ≤ 4636737291354636292)
    (h2 : s.neg = true → s.mag = 0) :
    roundTo2Decimals (F64.clamp s (F64.ofNat 0) (F64.ofNat 100)) = roundTo2Decimals s := by
  have hn : s.isNaN = false := F64.isNaN_false_of_le (by rw [F64.infMag_eq]; omega)
  have hlt : F64.lt s (F64.ofNat 0) = false := by
    rw [← Bool.not_eq_true, F64.lt_iff, F64.ofNat_zero]
    rintro ⟨_, _, h3⟩
    unfold F64.key at h3
    cases hneg : s.neg
    · simp only [hneg, Bool.false_eq_true, if_false] at h3
      omega
    · simp only [hneg, if_true, Bool.false_eq_true, if_false, h2 hneg] at h3
      omega
  unfold F64.clamp
  rw [hlt]
  simp only [Bool.false_eq_true, if_false]
  by_cases hle : s.mag ≤ 4636737291354636288
  · have hgt : F64.gt s (F64.ofNat 100) = false := by
      rw [F64.gt_false_iff, F64.ofNat_hundred]
      intro _ _
      unfold F64.key
      cases hneg : s.neg
      · simp only [Bool.false_eq_true, if_false]
        omega
      · simp only [if_true, Bool.false_eq_true, if_false]
        omega
    rw [hgt]
    simp only [Bool.false_eq_true, if_false]
  · have hneg : s.neg = false := by
      cases hneg : s.neg
      · rfl
      · have := h2 hneg
        omega
    obtain ⟨n, m⟩ := s
    simp only at hneg h1 hle
    subst hneg
    have hm : m = 4636737291354636289 ∨ m = 4636737291354636290 ∨ m = 4636737291354636291
        ∨ m = 4636737291354636292 := by omega
    rcases hm with rfl | rfl | rfl | rfl <;> decide!

/-! ## Bounds by monotonicity -/

namespace F64

/-- A sum of finite values that are not negative lies between the rounded sums of the bounds of
its terms. -/
theorem add_between {x y lx ly ux uy : F64} (hx : x.mag < infMag) (hy : y.mag < infMag)
    (sx : x.neg = true → x.mag = 0) (sy : y.neg = true → y.mag = 0)
    (h1 : lx.mag ≤ x.mag) (h2 : x.mag ≤ ux.mag) (h3 : ly.mag ≤ y.mag) (h4 : y.mag ≤ uy.mag) :
    roundMag (lx.units + ly.units) 1 ≤ (add x y).mag
    ∧ (add x y).mag ≤ roundMag (ux.units + uy.units) 1
    ∧ ((add x y).neg = true → (add x y).mag = 0) := by
  obtain ⟨e, n⟩ := add_of_nonneg hx hy sx sy
  rw [e]
  have a1 := units_mono h1
  have a2 := units_mono h2
  have a3 := units_mono h3
  have a4 := units_mono h4
  refine ⟨roundMag_mono (by norm_num) (by norm_num) (by omega),
    roundMag_mono (by norm_num) (by norm_num) (by omega), ?_⟩
  rw [← e]
  exact n

/-- A product of a bounded score and a weight, both finite and not negative, lies between the
rounded products of the bounds with the weight. -/
theorem mul_between {x w lx ux : F64} (hx : x.mag < infMag) (hw : w.mag < infMag)
    (sx : x.neg = true → x.mag = 0) (sw : w.neg = true → w.mag = 0)
    (h1 : lx.mag ≤ x.mag) (h2 : x.mag ≤ ux.mag) :
    roundMag (lx.units * w.units) (2 ^ 1074) ≤ (mul x w).mag
    ∧ (mul x w).mag ≤ roundMag (ux.units * w.units) (2 ^ 1074)
    ∧ ((mul x w).neg = true → (mul x w).mag = 0) := by
  obtain ⟨e, n⟩ := mul_of_nonneg hx hw sx sw
  rw [e]
  have a1 := units_mono h1
  have a2 := units_mono h2
  refine ⟨roundMag_mono (by positivity) (by positivity) ?_,
    roundMag_mono (by positivity) (by positivity) ?_, ?_⟩
  · exact Nat.mul_le_mul_right _ (Nat.mul_le_mul_right _ a1)
  · exact Nat.mul_le_mul_right _ (Nat.mul_le_mul_right _ a2)
  · rw [← e]
    exact n

/-- The function `math.Round` on a finite value lies between its values at the bounds. -/
theorem Round_between {x lx ux : F64} (hx : x.mag < infMag) (sx : x.neg = true → x.mag = 0)
    (h1 : lx.mag ≤ x.mag) (h2 : x.mag ≤ ux.mag) :
    roundMag ((2 * lx.units + 2 ^ 1074) / 2 ^ 1075 * 2 ^ 1074) 1 ≤ (Round x).mag
    ∧ (Round x).mag ≤ roundMag ((2 * ux.units + 2 ^ 1074) / 2 ^ 1075 * 2 ^ 1074) 1
    ∧ ((Round x).neg = true → (Round x).mag = 0) := by
  rw [Round_of_finite hx, round_mag, round_neg]
  have a1 := units_mono h1
  have a2 := units_mono h2
  refine ⟨roundMag_mono (by norm_num) (by norm_num) ?_,
    roundMag_mono (by norm_num) (by norm_num) ?_, ?_⟩
  · apply Nat.mul_le_mul_right
    apply Nat.mul_le_mul_right
    apply Nat.div_le_div_right
    omega
  · apply Nat.mul_le_mul_right
    apply Nat.mul_le_mul_right
    apply Nat.div_le_div_right
    omega
  · intro hneg
    rw [units_of_mag_zero (sx hneg)]
    have : (2 * 0 + 2 ^ 1074) / 2 ^ 1075 * 2 ^ 1074 = 0 := by decide!
    rw [this]
    exact roundMag_zero _ (by norm_num)

/-- A quotient by 100 of a finite value that is not negative lies between its values at the
bounds. -/
theorem div_hundred_between {x lx ux : F64} (hx : x.mag < infMag)
    (sx : x.neg = true → x.mag = 0) (h1 : lx.mag ≤ x.mag) (h2 : x.mag ≤ ux.mag) :
    roundMag (lx.units * 2 ^ 1074) (ofNat 100).units ≤ (div x (ofNat 100)).mag
    ∧ (div x (ofNat 100)).mag ≤ roundMag (ux.units * 2 ^ 1074) (ofNat 100).units
    ∧ ((div x (ofNat 100)).neg = true → (div x (ofNat 100)).mag = 0) := by
  have hh : (ofNat 100).mag < infMag := by decide!
  have hh0 : 0 < (ofNat 100).mag := by decide!
  have hs : (ofNat 100).neg = false := by decide!
  have hpos : 0 < (ofNat 100).units := by decide!
  rw [div_of_finite hx hh hh0, round_neg, round_mag, hs, Bool.bne_false]
  have a1 := units_mono h1
  have a2 := units_mono h2
  refine ⟨roundMag_mono hpos hpos ?_, roundMag_mono hpos hpos ?_, ?_⟩
  · exact Nat.mul_le_mul_right _ (Nat.mul_le_mul_right _ a1)
  · exact Nat.mul_le_mul_right _ (Nat.mul_le_mul_right _ a2)
  · intro hneg
    rw [units_of_mag_zero (sx hneg), Nat.zero_mul]
    exact roundMag_zero _ hpos

theorem finite_of_le_hundred {x : F64} (h : x.mag ≤ (ofNat 100).mag) : x.mag < infMag := by
  rw [ofNat_hundred] at h
  rw [infMag_eq]
  show x.mag < 9218868437227405312
  have e : ({ neg := false, mag := 4636737291354636288 } : F64).mag = 4636737291354636288 := rfl
  omega

end F64

/-- Rounding to 2 decimals keeps a value of `[20, 96]` in `[20, 96]`. -/
theorem roundTo2Decimals_between {s : F64} (sn : s.neg = true → s.mag = 0)
    (h1 : (F64.ofNat 20).mag ≤ s.mag) (h2 : s.mag ≤ (F64.ofNat 96).mag) :
    (F64.ofNat 20).mag ≤ (roundTo2Decimals s).mag
    ∧ (roundTo2Decimals s).mag ≤ (F64.ofNat 96).mag
    ∧ ((roundTo2Decimals s).neg = true → (roundTo2Decimals s).mag = 0) := by
  have k96 : (F64.ofNat 96).mag ≤ (F64.ofNat 100).mag := by decide!
  have hh : (F64.ofNat 100).mag < F64.infMag := by decide!
  have hhs : (F64.ofNat 100).neg = true → (F64.ofNat 100).mag = 0 := by decide!
  have sf : s.mag < F64.infMag := F64.finite_of_le_hundred (le_trans h2 k96)
  unfold roundTo2Decimals
  -- times 100
  obtain ⟨a1, a2, a3⟩ := F64.mul_between sf hh sn hhs h1 h2
  have c1 : F64.roundMag ((F64.ofNat 20).units * (F64.ofNat 100).units) (2 ^ 1074)
      = (F64.ofNat 2000).mag := by decide!
  have c2 : F64.roundMag ((F64.ofNat 96).units * (F64.ofNat 100).units) (2 ^ 1074)
      = (F64.ofNat 9600).mag := by decide!
  rw [c1] at a1
  rw [c2] at a2
  have f1 : (F64.mul s (F64.ofNat 100)).mag < F64.infMag := by
    have : (F64.ofNat 9600).mag < F64.infMag := by decide!
    omega
  -- to the nearest integer
  obtain ⟨b1, b2, b3⟩ := F64.Round_between f1 a3 a1 a2
  have c3 : F64.roundMag ((2 * (F64.ofNat 2000).units + 2 ^ 1074) / 2 ^ 1075 * 2 ^ 1074) 1
      = (F64.ofNat 2000).mag := by decide!
  have c4 : F64.roundMag ((2 * (F64.ofNat 9600).units + 2 ^ 1074) / 2 ^ 1075 * 2 ^ 1074) 1
      = (F64.ofNat 9600).mag := by decide!
  rw [c3] at b1
  rw [c4] at b2
  have f2 : (F64.Round (F64.mul s (F64.ofNat 100))).mag < F64.infMag := by
    have : (F64.ofNat 9600).mag < F64.infMag := by decide!
    omega
  -- by 100
  obtain ⟨d1, d2, d3⟩ := F64.div_hundred_between f2 b3 b1 b2
  have c5 : F64.roundMag ((F64.ofNat 2000).units * 2 ^ 1074) (F64.ofNat 100).units
      = (F64.ofNat 20).mag := by decide!
  have c6 : F64.roundMag ((F64.ofNat 9600).units * 2 ^ 1074) (F64.ofNat 100).units
      = (F64.ofNat 96).mag := by decide!
  rw [c5] at d1
  rw [c6] at d2
  exact ⟨d1, d2, d3⟩

/-! ## The score under the default configuration -/

/-- What eligibility under the default configuration says about state and context usage. -/
theorem eligible_default {agent : ScoredAgent}
    (h : (checkExclusion DefaultRoutingConfig agent).1 = false) :
    agent.State ≠ StateError
    ∧ F64.gt agent.ContextUsage (F64.ofNat 85) = false
    ∧ agent.State ≠ StateGenerating := by
  have e1 : DefaultRoutingConfig.ExcludeContextAbove = F64.ofNat 85 := rfl
  have e2 : DefaultRoutingConfig.ExcludeIfGenerating = true := rfl
  unfold checkExclusion at h
  rw [e1, e2] at h
  split_ifs at h with h1 h2 h3 h4 h5
  refine ⟨h1, by simpa using h4, ?_⟩
  intro hg
  apply h5
  simp [hg]

/-- The context contribution of an eligible agent under the default configuration: between 6 and
40. -/
theorem contextContrib_default {usage : F64} (h0 : F64.ge usage (F64.ofNat 0) = true)
    (h85 : F64.gt usage (F64.ofNat 85) = false) :
    (F64.ofNat 6).mag
      ≤ (F64.mul
          (if F64.lt (F64.sub (F64.ofNat 100) usage) (F64.ofNat 0) = true then F64.ofNat 0
            else F64.sub (F64.ofNat 100) usage) (F64.lit 4 10)).mag
    ∧ (F64.mul
          (if F64.lt (F64.sub (F64.ofNat 100) usage) (F64.ofNat 0) = true then F64.ofNat 0
            else F64.sub (F64.ofNat 100) usage) (F64.lit 4 10)).mag ≤ (F64.ofNat 40).mag
    ∧ ((F64.mul
          (if F64.lt (F64.sub (F64.ofNat 100) usage) (F64.ofNat 0) = true then F64.ofNat 0
            else F64.sub (F64.ofNat 100) usage) (F64.lit 4 10)).neg = true →
        (F64.mul
          (if F64.lt (F64.sub (F64.ofNat 100) usage) (F64.ofNat 0) = true then F64.ofNat 0
            else F64.sub (F64.ofNat 100) usage) (F64.lit 4 10)).mag = 0) := by
  obtain ⟨hm, hs⟩ := F64.nonneg_of_ge_zero h0
  have hn : usage.isNaN = false := F64.isNaN_false_of_le hm
  have k85 : (F64.ofNat 85).isNaN = false := by decide!
  have m85 : (F64.ofNat 85).key = 4635681760191971328 := by decide!
  have hu : usage.mag ≤ (F64.ofNat 85).mag := by
    rw [F64.gt_false_iff] at h85
    have h1 := h85 hn k85
    rw [m85] at h1
    have e : (F64.ofNat 85).mag = 4635681760191971328 := by decide!
    rw [e]
    unfold F64.key at h1
    cases hneg : usage.neg
    · simp only [hneg, Bool.false_eq_true, if_false] at h1
      omega
    · rw [hs hneg]
      omega
  have hu2 : usage.units ≤ (F64.ofNat 85).units := F64.units_mono hu
  have k1 : (F64.ofNat 85).units ≤ (F64.ofNat 100).units := by decide!
  have e := F64.sub_hundred_eq hs (le_trans hu2 k1)
  have hlt : F64.lt (F64.sub (F64.ofNat 100) usage) (F64.ofNat 0) = false := by
    rw [e, ← Bool.not_eq_true, F64.lt_iff, F64.ofNat_zero]
    rintro ⟨_, _, h3⟩
    unfold F64.key at h3
    simp only [Bool.false_eq_true, if_false] at h3
    omega
  rw [hlt, e]
  simp only [Bool.false_eq_true, if_false]
  have c15 : F64.roundMag ((F64.ofNat 100).units - (F64.ofNat 85).units) 1 = (F64.ofNat 15).mag := by
    decide!
  have c100 : F64.roundMag ((F64.ofNat 100).units - 0) 1 = (F64.ofNat 100).mag := by decide!
  have b1 : (F64.ofNat 15).mag
      ≤ (⟨false, F64.roundMag ((F64.ofNat 100).units - usage.units) 1⟩ : F64).mag := by
    rw [← c15]
    exact F64.roundMag_mono (by norm_num) (by norm_num) (by omega)
  have b2 : (⟨false, F64.roundMag ((F64.ofNat 100).units - usage.units) 1⟩ : F64).mag
      ≤ (F64.ofNat 100).mag := by
    rw [← c100]
    exact F64.roundMag_mono (by norm_num) (by norm_num) (by omega)
  have wf : (F64.lit 4 10).mag < F64.infMag := by decide!
  have ws : (F64.lit 4 10).neg = true → (F64.lit 4 10).mag = 0 := by decide!
  obtain ⟨a1, a2, a3⟩ := F64.mul_between (F64.finite_of_le_hundred b2)
    wf (fun hneg => by simp at hneg) ws b1 b2
  have c6 : F64.roundMag ((F64.ofNat 15).units * (F64.lit 4 10).units) (2 ^ 1074)
      = (F64.ofNat 6).mag := by decide!
  have c40 : F64.roundMag ((F64.ofNat 100).units * (F64.lit 4 10).units) (2 ^ 1074)
      = (F64.ofNat 40).mag := by decide!
  rw [c6] at a1
  rw [c40] at a2
  exact ⟨a1, a2, a3⟩

/-- The state contribution of an eligible agent under the default configuration: between 10
and 40. -/
theorem stateContrib_default {state : AgentState} (h1 : state ≠ StateError)
    (h2 : state ≠ StateGenerating) :
    (F64.ofNat 10).mag
      ≤ (F64.mul (F64.div (F64.add (stateToScore state) (F64.ofNat 100)) (F64.ofNat 2))
          (F64.lit 4 10)).mag
    ∧ (F64.mul (F64.div (F64.add (stateToScore state) (F64.ofNat 100)) (F64.ofNat 2))
          (F64.lit 4 10)).mag ≤ (F64.ofNat 40).mag
    ∧ (F64.mul (F64.div (F64.add (stateToScore state) (F64.ofNat 100)) (F64.ofNat 2))
          (F64.lit 4 10)).neg = false := by
  cases state with
  | Error => exact absurd rfl h1
  | Generating => exact absurd rfl h2
  | Waiting => simp only [stateToScore]; decide!
  | Thinking => simp only [stateToScore]; decide!
  | Stalled => simp only [stateToScore]; decide!
  | Unknown => simp only [stateToScore]; decide!
  | other raw => simp only [stateToScore]; decide!

/-- The recency contribution under the default configuration: between 4 and 16. -/
theorem recencyContrib_default (now lastActivity : Time) :
    (F64.ofNat 4).mag ≤ (F64.mul (recencyToScore now lastActivity) (F64.lit 2 10)).mag
    ∧ (F64.mul (recencyToScore now lastActivity) (F64.lit 2 10)).mag ≤ (F64.ofNat 16).mag
    ∧ (F64.mul (recencyToScore now lastActivity) (F64.lit 2 10)).neg = false := by
  unfold recencyToScore
  split_ifs <;> decide!

/-- The unclamped score of an eligible agent with context usage `>= 0` under the default
configuration: between 20 and 96. -/
theorem unclampedScore_default (now : Time) (agent : ScoredAgent) (prompt : String)
    (h0 : F64.ge agent.ContextUsage (F64.ofNat 0) = true)
    (helig : (checkExclusion DefaultRoutingConfig agent).1 = false) :
    (F64.ofNat 20).mag
      ≤ (unclampedScore (calculateScoreComponents DefaultRoutingConfig now agent prompt)).mag
    ∧ (unclampedScore (calculateScoreComponents DefaultRoutingConfig now agent prompt)).mag
      ≤ (F64.ofNat 96).mag
    ∧ ((unclampedScore (calculateScoreComponents DefaultRoutingConfig now agent prompt)).neg = true →
        (unclampedScore (calculateScoreComponents DefaultRoutingConfig now agent prompt)).mag = 0) := by
  obtain ⟨g1, g2, g3⟩ := eligible_default helig
  obtain ⟨a1, a2, a3⟩ := contextContrib_default h0 g2
  obtain ⟨b1, b2, b3⟩ := stateContrib_default g1 g3
  obtain ⟨c1, c2, c3⟩ := recencyContrib_default now agent.LastActivity
  have haff := affinityBonus_zero DefaultRoutingConfig now agent prompt
  have w1 : DefaultRoutingConfig.ContextWeight = F64.lit 4 10 := rfl
  have w2 : DefaultRoutingConfig.StateWeight = F64.lit 4 10 := rfl
  have w3 : DefaultRoutingConfig.RecencyWeight = F64.lit 2 10 := rfl
  unfold unclampedScore
  rw [haff]
  unfold calculateScoreComponents
  simp only []
  rw [w1, w2, w3]
  generalize F64.mul
      (if F64.lt (F64.sub (F64.ofNat 100) agent.ContextUsage) (F64.ofNat 0) = true then
        F64.ofNat 0
      else F64.sub (F64.ofNat 100) agent.ContextUsage) (F64.lit 4 10) = cc at a1 a2 a3 ⊢
  generalize F64.mul (F64.div (F64.add (stateToScore agent.State) (F64.ofNat 100)) (F64.ofNat 2))
      (F64.lit 4 10) = sc at b1 b2 b3 ⊢
  generalize F64.mul (recencyToScore now agent.LastActivity) (F64.lit 2 10) = rc at c1 c2 c3 ⊢
  have k40 : (F64.ofNat 40).mag ≤ (F64.ofNat 100).mag := by decide!
  have k16 : (F64.ofNat 16).mag ≤ (F64.ofNat 100).mag := by decide!
  have k80 : (F64.ofNat 80).mag ≤ (F64.ofNat 100).mag := by decide!
  have k96 : (F64.ofNat 96).mag ≤ (F64.ofNat 100).mag := by decide!
  have fcc := F64.finite_of_le_hundred (le_trans a2 k40)
  have fsc := F64.finite_of_le_hundred (le_trans b2 k40)
  have frc := F64.finite_of_le_hundred (le_trans c2 k16)
  have nsc : sc.neg = true → sc.mag = 0 := fun hneg => by rw [b3] at hneg; cases hneg
  have nrc : rc.neg = true → rc.mag = 0 := fun hneg => by rw [c3] at hneg; cases hneg
  -- context and state
  obtain ⟨d1, d2, d3⟩ := F64.add_between fcc fsc a3 nsc a1 a2 b1 b2
  have e16 : F64.roundMag ((F64.ofNat 6).units + (F64.ofNat 10).units) 1 = (F64.ofNat 16).mag := by
    decide!
  have e80 : F64.roundMag ((F64.ofNat 40).units + (F64.ofNat 40).units) 1 = (F64.ofNat 80).mag := by
    decide!
  rw [e16] at d1
  rw [e80] at d2
  have f0 := F64.finite_of_le_hundred (le_trans d2 k80)
  -- and recency
  obtain ⟨p1, p2, p3⟩ := F64.add_between f0 frc d3 nrc d1 d2 c1 c2
  have e20 : F64.roundMag ((F64.ofNat 16).units + (F64.ofNat 4).units) 1 = (F64.ofNat 20).mag := by
    decide!
  have e96 : F64.roundMag ((F64.ofNat 80).units + (F64.ofNat 16).units) 1 = (F64.ofNat 96).mag := by
    decide!
  rw [e20] at p1
  rw [e96] at p2
  have f1 := F64.finite_of_le_hundred (le_trans p2 k96)
  -- and the zero bonus
  have z1 : (⟨false, 0⟩ : F64).mag < F64.infMag := by decide
  have z2 : (⟨false, 0⟩ : F64).neg = true → (⟨false, 0⟩ : F64).mag = 0 := fun _ => rfl
  obtain ⟨q1, q2, q3⟩ := @F64.add_between _ ⟨false, 0⟩ _ ⟨false, 0⟩ _ ⟨false, 0⟩ f1 z1 p3 z2 p1 p2
    (le_refl _) (le_refl _)
  have e20b : F64.roundMag ((F64.ofNat 20).units + (⟨false, 0⟩ : F64).units) 1
      = (F64.ofNat 20).mag := by decide!
  have e96b : F64.roundMag ((F64.ofNat 96).units + (⟨false, 0⟩ : F64).units) 1
      = (F64.ofNat 96).mag := by decide!
  rw [e20b] at q1
  rw [e96b] at q2
  exact ⟨q1, q2, q3⟩

/-! ## Claims on the unclamped score -/

/-- C30, as stated, fails: the weights 0.5605103610264989, 0.439489638973501 and `2^-53` are not
negative and sum to 1 (exactly, and in floating point); for a waiting agent with context usage 0,
idle for 10 minutes, the unclamped sum is 100.00000000000001, the next `float64` above 100, and
the clamp changes it to 100. -/
theorem unclampedScore_above_hundred :
    F64.ge tightWeights.ContextWeight (F64.ofNat 0) = true
    ∧ F64.ge tightWeights.StateWeight (F64.ofNat 0) = true
    ∧ F64.ge tightWeights.RecencyWeight (F64.ofNat 0) = true
    ∧ F64.add (F64.add tightWeights.ContextWeight tightWeights.StateWeight)
        tightWeights.RecencyWeight = F64.ofNat 1
    ∧ tightWeights.ContextWeight.units + tightWeights.StateWeight.units
        + tightWeights.RecencyWeight.units = (F64.ofNat 1).units
    ∧ F64.ge idleAgent.ContextUsage (F64.ofNat 0) = true
    ∧ (checkExclusion tightWeights idleAgent).1 = false
    ∧ unclampedScore (calculateScoreComponents tightWeights (1010 * Minute) idleAgent "")
      = ⟨false, 4636737291354636289⟩
    ∧ F64.le (unclampedScore (calculateScoreComponents tightWeights (1010 * Minute) idleAgent ""))
        (F64.ofNat 100) = false
    ∧ F64.clamp (unclampedScore (calculateScoreComponents tightWeights (1010 * Minute) idleAgent ""))
        (F64.ofNat 0) (F64.ofNat 100)
      ≠ unclampedScore (calculateScoreComponents tightWeights (1010 * Minute) idleAgent "") := by
  decide!

/-- C30, amended: for weights that are not negative and sum to 1 (in floating point, or exactly)
and an agent with context usage `>= 0`, whatever its state, its last activity and the prompt: the
unclamped sum lies between 0 and `100 + 4 * 2^-46` (rounding can carry it above 100, where the
clamp sets it to 100; at most 100, the clamp leaves it as it is), and the final score is that sum
rounded to 2 decimals and lies between 0 and 100.  Under the default configuration the unclamped
sum of an eligible agent lies between 20 and 96, the clamp changes nothing and the final score
lies between 20 and 96. -/
theorem unclampedScore_range (config : RoutingConfig) (now : Time) (agent : ScoredAgent)
    (prompt : String)
    (hcw : F64.ge config.ContextWeight (F64.ofNat 0) = true)
    (hsw : F64.ge config.StateWeight (F64.ofNat 0) = true)
    (hrw : F64.ge config.RecencyWeight (F64.ofNat 0) = true)
    (hsum : F64.add (F64.add config.ContextWeight config.StateWeight) config.RecencyWeight
        = F64.ofNat 1
      ∨ config.ContextWeight.units + config.StateWeight.units + config.RecencyWeight.units
        = (F64.ofNat 1).units)
    (husage : F64.ge agent.ContextUsage (F64.ofNat 0) = true) :
    F64.le (F64.ofNat 0) (unclampedScore (calculateScoreComponents config now agent prompt)) = true
    ∧ F64.le (unclampedScore (calculateScoreComponents config now agent prompt))
        ⟨false, 4636737291354636292⟩ = true
    ∧ (F64.le (unclampedScore (calculateScoreComponents config now agent prompt)) (F64.ofNat 100)
          = true →
        F64.clamp (unclampedScore (calculateScoreComponents config now agent prompt))
            (F64.ofNat 0) (F64.ofNat 100)
          = unclampedScore (calculateScoreComponents config now agent prompt))
    ∧ calculateFinalScore
        { agent with ScoreDetail := calculateScoreComponents config now agent prompt }
      = roundTo2Decimals (unclampedScore (calculateScoreComponents config now agent prompt))
    ∧ F64.le (F64.ofNat 0)
        (calculateFinalScore
          { agent with ScoreDetail := calculateScoreComponents config now agent prompt }) = true
    ∧ F64.le
        (calculateFinalScore
          { agent with ScoreDetail := calculateScoreComponents config now agent prompt })
        (F64.ofNat 100) = true
    ∧ (config = DefaultRoutingConfig → (checkExclusion config agent).1 = false →
        F64.le (F64.ofNat 20) (unclampedScore (calculateScoreComponents config now agent prompt))
          = true
        ∧ F64.le (unclampedScore (calculateScoreComponents config now agent prompt))
            (F64.ofNat 96) = true
        ∧ F64.clamp (unclampedScore (calculateScoreComponents config now agent prompt))
            (F64.ofNat 0) (F64.ofNat 100)
          = unclampedScore (calculateScoreComponents config now agent prompt)
        ∧ F64.le (F64.ofNat 20)
            (calculateFinalScore
              { agent with ScoreDetail := calculateScoreComponents config now agent prompt })
          = true
        ∧ F64.le
            (calculateFinalScore
              { agent with ScoreDetail := calculateScoreComponents config now agent prompt })
            (F64.ofNat 96) = true) := by
  -- the range of the sum
  have hrange : (unclampedScore (calculateScoreComponents config now agent prompt)).mag
        ≤ 4636737291354636292
      ∧ ((unclampedScore (calculateScoreComponents config now agent prompt)).neg = true →
          (unclampedScore (calculateScoreComponents config now agent prompt)).mag = 0) := by
    have haff := affinityBonus_zero config now agent prompt
    obtain ⟨c1, c2⟩ := contextScore_range husage
    obtain ⟨s1, s2⟩ := stateScore_range agent.State
    obtain ⟨r1, r2⟩ := recencyToScore_range now agent.LastActivity
    unfold unclampedScore
    rw [haff]
    unfold calculateScoreComponents
    simp only []
    exact weightedSum_range c1 c2 s1 (fun h => by rw [s2] at h; cases h) r1
      (fun h => by rw [r2] at h; cases h) hcw hsw hrw hsum
  have hfinal : calculateFinalScore
        { agent with ScoreDetail := calculateScoreComponents config now agent prompt }
      = roundTo2Decimals (unclampedScore (calculateScoreComponents config now agent prompt)) := by
    rw [calculateFinalScore_eq]
    exact roundTo2Decimals_clamp _ hrange.1 hrange.2
  have hclamp : ∀ s : F64, (s.neg = true → s.mag = 0) → F64.le s (F64.ofNat 100) = true →
      F64.clamp s (F64.ofNat 0) (F64.ofNat 100) = s := by
    intro s sn hle
    have hlt : F64.lt s (F64.ofNat 0) = false := by
      rw [← Bool.not_eq_true, F64.lt_iff, F64.ofNat_zero]
      rintro ⟨_, _, h3⟩
      unfold F64.key at h3
      cases hneg : s.neg
      · simp only [hneg, Bool.false_eq_true, if_false] at h3
        omega
      · simp only [hneg, if_true, Bool.false_eq_true, if_false, sn hneg] at h3
        omega
    have hgt : F64.gt s (F64.ofNat 100) = false := by
      rw [F64.le_iff] at hle
      rw [← Bool.not_eq_true, F64.gt_iff]
      rintro ⟨_, _, h3⟩
      omega
    unfold F64.clamp
    rw [hlt, hgt]
    simp only [Bool.false_eq_true, if_false]
  have hle4 : ∀ s : F64, s.mag ≤ 4636737291354636292 → (s.neg = true → s.mag = 0) →
      F64.le s ⟨false, 4636737291354636292⟩ = true := by
    intro s h1 h2
    rw [F64.le_iff]
    refine ⟨F64.isNaN_false_of_le (by rw [F64.infMag_eq]; omega), by decide, ?_⟩
    unfold F64.key
    cases hneg : s.neg
    · simp only [Bool.false_eq_true, if_false]
      omega
    · simp only [if_true, Bool.false_eq_true, if_false]
      omega
  have hbetween : ∀ (s lo hi : F64), lo.neg = false → hi.neg = false → hi.mag ≤ F64.infMag →
      0 < lo.mag → lo.mag ≤ s.mag → s.mag ≤ hi.mag → (s.neg = true → s.mag = 0) →
      F64.le lo s = true ∧ F64.le s hi = true := by
    intro s lo hi l1 l2 l3 l4 h1 h2 h3
    have sneg : s.neg = false := by
      cases hneg : s.neg
      · rfl
      · have := h3 hneg
        omega
    have sn : s.isNaN = false := F64.isNaN_false_of_le (by omega)
    have ln : lo.isNaN = false := F64.isNaN_false_of_le (by omega)
    have hn : hi.isNaN = false := F64.isNaN_false_of_le l3
    rw [F64.le_iff, F64.le_iff]
    unfold F64.key
    simp only [sneg, l1, l2, Bool.false_eq_true, if_false]
    exact ⟨⟨ln, sn, by omega⟩, ⟨sn, hn, by omega⟩⟩
  refine ⟨F64.ge_zero_of_nonneg (by rw [F64.infMag_eq]; omega) hrange.2,
    hle4 _ hrange.1 hrange.2, hclamp _ hrange.2, hfinal, ?_, ?_, ?_⟩
  · rw [hfinal, ← roundTo2Decimals_clamp _ hrange.1 hrange.2]
    refine (roundTo2Decimals_range ?_ ?_ ?_).1
    · unfold F64.clamp
      split_ifs
      · decide!
      · decide!
      · exact F64.isNaN_false_of_le (by rw [F64.infMag_eq]; omega)
    · unfold F64.clamp
      split_ifs with c1 c2
      · decide!
      · decide!
      · simpa using c1
    · unfold F64.clamp
      split_ifs with c1 c2
      · decide!
      · decide!
      · simpa using c2
  · rw [hfinal, ← roundTo2Decimals_clamp _ hrange.1 hrange.2]
    refine (roundTo2Decimals_range ?_ ?_ ?_).2
    · unfold F64.clamp
      split_ifs
      · decide!
      · decide!
      · exact F64.isNaN_false_of_le (by rw [F64.infMag_eq]; omega)
    · unfold F64.clamp
      split_ifs with c1 c2
      · decide!
      · decide!
      · simpa using c1
    · unfold F64.clamp
      split_ifs with c1 c2
      · decide!
      · decide!
      · simpa using c2
  · intro hdef helig
    subst hdef
    obtain ⟨d1, d2, d3⟩ := unclampedScore_default now agent prompt husage helig
    obtain ⟨e1, e2, e3⟩ := roundTo2Decimals_between d3 d1 d2
    have n20 : (F64.ofNat 20).neg = false := by decide!
    have n96 : (F64.ofNat 96).neg = false := by decide!
    have i96 : (F64.ofNat 96).mag ≤ F64.infMag := by decide!
    have p20 : 0 < (F64.ofNat 20).mag := by decide!
    have k96 : F64.le (F64.ofNat 96) (F64.ofNat 100) = true := by decide!
    obtain ⟨u1, u2⟩ := hbetween _ _ _ n20 n96 i96 p20 d1 d2 d3
    rw [hfinal]
    obtain ⟨v1, v2⟩ := hbetween _ _ _ n20 n96 i96 p20 e1 e2 e3
    refine ⟨u1, u2, hclamp _ d3 ?_, v1, v2⟩
    rw [F64.le_iff] at u2 k96 ⊢
    exact ⟨u2.1, k96.2.1, le_trans u2.2.2 k96.2.2⟩

/-- Witness of C30 (amended): default configuration, context usage 30, waiting, idle for 10
minutes. -/
theorem unclampedScore_range_witness :
    F64.le
        (unclampedScore
          (calculateScoreComponents DefaultRoutingConfig (1010 * Minute)
            { ScoredAgent.zero with
              ContextUsage := F64.ofNat 30, State := StateWaiting, LastActivity := 1000 * Minute }
            ""))
        (F64.ofNat 96) = true :=
  ((unclampedScore_range DefaultRoutingConfig (1010 * Minute)
    { ScoredAgent.zero with
      ContextUsage := F64.ofNat 30, State := StateWaiting, LastActivity := 1000 * Minute }
    "" (by decide!) (by decide!) (by decide!) (Or.inl (by decide!)) (by decide!)).2.2.2.2.2.2
      rfl (by decide!)).2.1

end Ntm
